import Mathlib

/-!
# zsync client core: a shallow embedding of `client.c`

C strings are modelled as the list of their characters, terminator excluded
(`CStr`); the memory image of a string is its characters followed by `NUL`.
Character classification is that of the "C" locale (the program never calls
`setlocale`), i.e. ASCII.

Everything outside `client.c` (the operating system, `url.h`, libzsync, the HTTP
and progress routine tables) is a parameter: a record `Env W` of functions over
an arbitrary world state `W`. The client state, the world and the list of calls
made so far travel together as `St W`. Functions that contain a loop without a
bound take a `fuel` argument; `none` means that no result is produced: the fuel
ran out, or the behaviour is undefined (a null progress table is dereferenced,
an index is out of range). Integers are unbounded, except that the additions to
the `off_t` shadow offset of the receive loop wrap around at 64 bits; memory
allocation succeeds except where the code tests its result; `free` is not
modelled.
-/

namespace Zsync

/-! ## Strings -/

/-- A C string: its characters, without the terminating NUL. -/
abbrev CStr := List Char

/-- The terminator byte. -/
def NUL : Char := Char.ofNat 0

/-- The bytes a C string occupies in memory: its characters, then the terminator. -/
def cmem (s : CStr) : List Char := s ++ [NUL]

/-- `isalnum` of the C locale. -/
def isalnum (c : Char) : Bool := c.isAlphanum

/-- `strlen`. -/
def strlen (s : CStr) : Nat := s.length

/-- `strchr(s, c)`: offset of the first occurrence of `c`, if any. -/
def strchr : CStr → Char → Option Nat
  | [], _ => none
  | x :: xs, c => if x = c then some 0 else (strchr xs c).map (· + 1)

/-- Scan of `strrchr`: `i` is the offset of the head of the remaining input and
`acc` the offset of the last occurrence seen so far. -/
def strrchr_scan (c : Char) : CStr → Nat → Option Nat → Option Nat
  | [], _, acc => acc
  | x :: xs, i, acc => strrchr_scan c xs (i + 1) (if x = c then some i else acc)

/-- `strrchr(s, c)`: offset of the last occurrence of `c`, if any. -/
def strrchr (s : CStr) (c : Char) : Option Nat := strrchr_scan c s 0 none

/-- `memcmp(a, b, n)` over two memory images: the difference of the first pair of
bytes that differ among the first `n`, or 0. -/
def memcmp : List Char → List Char → Nat → Int
  | a :: as, b :: bs, n + 1 =>
    if a = b then memcmp as bs n else (a.toNat : Int) - (b.toNat : Int)
  | _, _, _ => 0

/-- The loop `while (isalnum(*u)) u++` of `get_filename_prefix`: how far `u`
advances from the start of `t`. -/
def alnum_span : CStr → Nat
  | [] => 0
  | x :: xs => if isalnum x then alnum_span xs + 1 else 0

/-- The value of a `char` read as a signed byte, as `*t > 0` compares it. -/
def schar (c : Char) : Int :=
  if c.toNat < 128 then (c.toNat : Int) else (c.toNat : Int) - 256

/-- The string `t` points to in `get_filename_prefix` once `*u = 0` has been
stored: the component after the last slash, cut at the first character that is
not alphanumeric. -/
def filename_run (p : CStr) : CStr :=
  let t := match strrchr p '/' with
    | some i => p.drop (i + 1)
    | none => p
  t.take (alnum_span t)

/-- `get_filename_prefix(p)`: the alphanumeric leading segment of the file name in
the path `p`, or `none` (the C `NULL`) when that segment is empty. -/
def get_filename_prefix (p : CStr) : Option CStr :=
  let t := filename_run p
  match t with
  | [] => none
  | c :: _ => if schar c > 0 then some t else none

/-- `get_filename(zs, source_name)`; `adv` is what `zsync_filename(zs)` returned.
The diagnostics written to stderr are not part of the result. -/
def get_filename (adv : Option CStr) (source_name : CStr) : CStr :=
  let filename : Option CStr :=
    match adv with
    | none => none
    | some p =>
      if (strchr p '/').isSome then none
      else
        match get_filename_prefix source_name with
        | some t => if memcmp (cmem p) (cmem t) (strlen t) = 0 then some p else none
        | none => none
  match filename with
  | some f => f
  | none =>
    match get_filename_prefix source_name with
    | some f => f
    | none => "zsync-download".toList

/-! ## The seed decompression command (`open_zcat_pipe`) -/

/-- A store into `buf[j]`; `none` when `j` is outside the buffer. -/
def poke (buf : List Char) (j : Nat) (c : Char) : Option (List Char) :=
  if j < buf.length then some (buf.set j c) else none

/-- `strcpy(buf, src)`: the characters of `src` and the terminator, stored from
offset `j` on. -/
def strcpy_at : List Char → Nat → CStr → Option (List Char)
  | buf, j, [] => poke buf j NUL
  | buf, j, c :: cs => (poke buf j c).bind fun b => strcpy_at b (j + 1) cs

/-- The escaping loop of `open_zcat_pipe`: `for (i = 0, j = 5; fname[i]; i++)`,
started with `j` and the not yet visited part of `fname`; yields the final `j`. -/
def zcat_escape : CStr → Nat → List Char → Option (Nat × List Char)
  | [], j, cmd => some (j, cmd)
  | c :: rest, j, cmd =>
    if !isalnum c then
      (poke cmd j (Char.ofNat 92)).bind fun cmd1 =>
        (poke cmd1 (j + 1) c).bind fun cmd2 => zcat_escape rest (j + 2) cmd2
    else
      (poke cmd j c).bind fun cmd1 => zcat_escape rest (j + 1) cmd1

/-- The C string held by a buffer: its bytes up to the first NUL. -/
def cstr_of (buf : List Char) : CStr := buf.takeWhile (· != NUL)

/-- Stands for the indeterminate content of freshly allocated memory. -/
def JUNK : Char := Char.ofNat 63

/-- The command line `open_zcat_pipe` builds in its `malloc(6 + strlen(fname) * 2)`
buffer; `none` when a store falls outside the buffer. -/
def zcat_command (fname : CStr) : Option CStr :=
  let cmd0 := List.replicate (6 + strlen fname * 2) JUNK
  (strcpy_at cmd0 0 "zcat ".toList).bind fun cmd1 =>
    (zcat_escape fname 5 cmd1).bind fun r =>
      (poke r.2 r.1 NUL).map cstr_of

/-! ## Collaborators and state -/

/-- What one call of `get_range_block` hands back: its return value, the `off_t`
value stored through the offset pointer (if it stores one), and the bytes it
put in the read buffer. -/
structure RangeBlock where
  len : Int
  offset : Option Int
  data : List Nat
deriving DecidableEq, Repr

/-- The calls the client makes on its collaborators, with their arguments and
results. File, fetch, receiver and progress handles are numbers. -/
inductive Event where
  | fopen (path : CStr) (f : Option Nat)
  | fclose (f : Nat) (rc : Int)
  | popen (cmd : CStr) (f : Option Nat)
  | pclose (f : Nat) (rc : Int)
  | http_get (url : CStr) (tfname : Option CStr) (f : Option Nat)
  | zsync_begin (f : Nat) (ok : Bool)
  | zsync_submit_source_file (f : Nat) (progress : Bool)
  | zsync_rename_file (path : CStr) (rc : Int)
  | range_fetch_start (url : CStr) (rf : Option Nat)
  | zsync_begin_receive (type : Int) (zr : Option Nat)
  | malloc (size : Nat) (ok : Bool)
  | zsync_needed_byte_ranges (type : Int) (ranges : Option (List (Int × Int)))
  | range_fetch_addranges (rf : Nat) (ranges : List (Int × Int))
  | start_progress (url : CStr) (p : Nat)
  | do_progress_direct (p : Nat) (zgot ztot : Int) (newdl : Int)
  | do_progress (p : Nat) (zgot ztot : Int) (newdl : Int)
  | end_progress (p : Nat) (done : Int)
  | get_range_block (rf : Nat) (blk : RangeBlock)
  | zsync_receive_data (zr : Nat) (buf : Option (List Nat)) (offset : Option Int)
      (len : Int) (rc : Int)
  | range_fetch_bytes_down (rf : Nat) (bytes : Int)
  | zsync_end_receive (zr : Nat)
  | range_fetch_end (rf : Nat)
  | zsync_complete (r : Int)
  | zsync_end (path : CStr)
  | unlink (path : CStr) (rc : Int)
  | link (src dst : CStr) (rc : Int)
  | rename (src dst : CStr) (rc : Int)
  | stat (path : CStr) (atime : Option Int)
  | utime (path : CStr) (actime modtime : Int) (rc : Int)
  | print (msg : String) (arg : CStr)
deriving DecidableEq, Repr

/-- The table `struct zsync_progress_routines`. -/
structure ProgressRoutines (W : Type) where
  start_progress : W → CStr → Nat × W
  do_progress : W → Nat → Int × Int → Int → W
  end_progress : W → Nat → Int → W

/-- Everything outside `client.c`: the operating system, `url.h`, libzsync, the
table `struct zsync_http_routines`, the progress table. `W` is the state of that
outside world; a call maps it to its result and, when it has an effect, to the
next world. The single match session `zs` lives in the world. -/
structure Env (W : Type) where
  getpid : W → Nat
  time : W → Nat
  fopen : W → CStr → Option Nat × W
  fclose : W → Nat → Int × W
  popen : W → CStr → Option Nat × W
  pclose : W → Nat → Int × W
  access : W → CStr → Nat → Int
  unlink : W → CStr → Int × W
  link : W → CStr → CStr → Int × W
  rename : W → CStr → CStr → Int × W
  stat : W → CStr → Option Int × W
  utime : W → CStr → Int → Int → Int × W
  malloc : W → Nat → Bool × W
  rand_r : Nat → Nat × Nat
  is_url_absolute : CStr → Bool
  make_url_absolute : Option CStr → CStr → Option CStr
  zsync_begin : W → Nat → Bool × W
  zsync_hint_decompress : W → Bool
  zsync_filename : W → Option CStr
  zsync_submit_source_file : W → Nat → Bool → W
  zsync_progress : W → Int × Int
  zsync_rename_file : W → CStr → Int × W
  zsync_get_urls : W → Option (List CStr) × Int
  zsync_status : W → Int
  zsync_needed_byte_ranges : W → Int → Option (List (Int × Int)) × W
  zsync_begin_receive : W → Int → Option Nat × W
  zsync_receive_data : W → Nat → Option (List Nat) → Option Int → Int → Int × W
  zsync_end_receive : W → Nat → W
  zsync_complete : W → Int × W
  zsync_mtime : W → Int
  zsync_end : W → CStr × W
  http_get : Option (W → CStr → Option CStr → (Option Nat × Option CStr) × W)
  range_fetch_start : W → CStr → Option CStr → Option Nat × W
  range_fetch_addranges : W → Nat → List (Int × Int) → W
  get_range_block : W → Nat → Nat → RangeBlock × W
  range_fetch_bytes_down : W → Nat → Int
  range_fetch_end : W → Nat → W
  do_progress : W → Nat → Int × Int → Int → W
  progress_routines : Option (ProgressRoutines W)

/-- The fields of `struct zsync_client_state` that change or are read during a
run, the outside world, and the calls made so far (newest first). -/
structure St (W : Type) where
  world : W
  quiet : Bool
  random_seed : Nat
  referrer : Option CStr
  http_down : Int
  trace : List Event

variable {W : Type}

/-- Record a call that leaves the world as it is. -/
def St.emit (s : St W) (e : Event) : St W := { s with trace := e :: s.trace }

/-- Record a call and move to the world it leaves. -/
def St.step (s : St W) (w : W) (e : Event) : St W :=
  { s with world := w, trace := e :: s.trace }

/-- Write a diagnostic unless `quiet`. -/
def St.say (s : St W) (msg : String) (arg : CStr) : St W :=
  if s.quiet then s else s.emit (Event.print msg arg)

def zs_ok : Int := 0
def zs_read_control_file_err : Int := 1
def zs_download_local_err : Int := 2
def zs_download_receive_err : Int := 3
def zs_move_received_file_err : Int := 4
def zs_backup_old_file_err : Int := 5

def BUFFERSIZE : Nat := 8192

/-- The `access` modes used. -/
def R_OK : Nat := 4
def F_OK : Nat := 0

/-! ## Seed files and the control file -/

/-- `open_zcat_pipe(fname, quiet)`: the handle `popen` returns, `none` inside for
the C `NULL`. No result at all if a store left the command buffer. -/
def open_zcat_pipe (env : Env W) (fname : CStr) (s : St W) : Option (Option Nat × St W) :=
  let m := env.malloc s.world (6 + strlen fname * 2)
  let s1 := s.step m.2 (Event.malloc (6 + strlen fname * 2) m.1)
  if !m.1 then some (none, s1)
  else
    match zcat_command fname with
    | none => none
    | some cmd =>
      let s2 := s1.say "reading seed" cmd
      let r := env.popen s2.world cmd
      some (r.1, s2.step r.2 (Event.popen cmd r.1))

/-- The test `strlen(fname) > 3 && !strcmp(fname + strlen(fname) - 3, ".gz")`. -/
def has_gz_suffix (fname : CStr) : Bool :=
  decide (strlen fname > 3) && (fname.drop (strlen fname - 3) == ".gz".toList)

/-- Hand an opened seed to libzsync: `zsync_submit_source_file(z, f, !cs->quiet)`. -/
def submit_seed (env : Env W) (f : Nat) (s : St W) : St W :=
  s.step (env.zsync_submit_source_file s.world f (!s.quiet))
    (Event.zsync_submit_source_file f (!s.quiet))

/-- `read_seed_file(cs, z, fname)`. -/
def read_seed_file (env : Env W) (fname : CStr) (s : St W) : Option (St W) :=
  let fed : Option (St W) :=
    if env.zsync_hint_decompress s.world && has_gz_suffix fname then
      match open_zcat_pipe env fname s with
      | none => none
      | some (none, s1) =>
        some ((s1.emit (Event.print "popen" [])).emit (Event.print "not using seed file" fname))
      | some (some f, s1) =>
        let s2 := submit_seed env f s1
        let c := env.pclose s2.world f
        let s3 := s2.step c.2 (Event.pclose f c.1)
        some (if c.1 != 0 then s3.emit (Event.print "close" []) else s3)
    else
      let o := env.fopen s.world fname
      let s1 := s.step o.2 (Event.fopen fname o.1)
      match o.1 with
      | none =>
        some ((s1.emit (Event.print "open" [])).emit (Event.print "not using seed file" fname))
      | some f =>
        let s2 := submit_seed env f (s1.say "reading seed file" fname)
        let c := env.fclose s2.world f
        let s3 := s2.step c.2 (Event.fclose f c.1)
        some (if c.1 != 0 then s3.emit (Event.print "close" []) else s3)
  fed.map fun s4 => s4.say "Read. Target complete" fname

/-- The loop `for (i = 0; i < nseedfiles; i++) read_seed_file(&cs, zs, seedfiles[i])`. -/
def read_seed_files (env : Env W) : List CStr → St W → Option (St W)
  | [], s => some s
  | fname :: rest, s => (read_seed_file env fname s).bind (read_seed_files env rest)

/-- The tail of `read_zsync_control_file` once the stream `f` is open:
`zsync_begin`, then `fclose`. Yields whether `zs` is non-null, and `*error`. -/
def read_control_stream (env : Env W) (f : Nat) (error : Int) (s : St W) :
    Bool × Int × St W :=
  let b := env.zsync_begin s.world f
  let s1 := s.step b.2 (Event.zsync_begin f b.1)
  let error1 := if b.1 then error else zs_read_control_file_err
  let c := env.fclose s1.world f
  let s2 := s1.step c.2 (Event.fclose f c.1)
  if c.1 != 0 then (b.1, zs_download_local_err, s2.emit (Event.print "fclose" []))
  else (b.1, error1, s2)

/-- `read_zsync_control_file(cs, p, fn, error)`: whether the returned `zs` is
non-null, the value left in `*error`, and the state. On the two paths that leave
through the bare `return;` the returned pointer is indeterminate; the caller
never reads it there because `*error` is not `zs_ok`, and `false` stands for it. -/
def read_zsync_control_file (env : Env W) (p : CStr) (fn : Option CStr) (error : Int)
    (s : St W) : Bool × Int × St W :=
  let o := env.fopen s.world p
  let s1 := s.step o.2 (Event.fopen p o.1)
  match o.1 with
  | some f => read_control_stream env f error s1
  | none =>
    if !env.is_url_absolute p then
      (false, zs_download_local_err, s1.emit (Event.print "perror" p))
    else
      let g : (Option Nat × Option CStr) × St W :=
        match env.http_get with
        | some get =>
          let r := get s1.world p fn
          (r.1, s1.step r.2 (Event.http_get p fn r.1.1))
        | none => ((none, none), s1)
      match g.1.1 with
      | none =>
        (false, zs_download_receive_err,
          g.2.emit (Event.print "could not read control file from URL" p))
      | some f => read_control_stream env f error { g.2 with referrer := g.1.2 }

/-! ## The per-URL downloader (`fetch_remaining_blocks_http`) -/

/-- The variables of the receive loop. `zoffset` is `none` while it still holds
the indeterminate value it is declared with. -/
structure RecvVars (W : Type) where
  ret : Int
  len : Int
  zoffset : Option Int
  st : St W

/-- The value an `off_t` variable holds after the sum `x` has been stored in it.
`off_t` is a signed integer of 64 bits; a sum that leaves its range comes back
wrapped around (two's complement), as on the usual platforms. -/
def off_t_wrap (x : Int) : Int := (x + 2 ^ 63) % 2 ^ 64 - 2 ^ 63

/-- The progress update inside the receive loop; no result when the progress
table is null. -/
def loop_progress (env : Env W) (rf : Nat) (p : Nat) (s : St W) : Option (St W) :=
  if s.quiet then some s
  else
    match env.progress_routines with
    | none => none
    | some pr =>
      let z := env.zsync_progress s.world
      let dl := env.range_fetch_bytes_down s.world rf
      some (s.step (pr.do_progress s.world p z dl) (Event.do_progress p z.1 z.2 dl))

/-- The loop
`while (!ret && (len = get_range_block(rf, &zoffset, buf, BUFFERSIZE)) > 0)`.
Its last statement `zoffset += len` is an addition in `off_t`. -/
def receive_loop (env : Env W) (rf zr p : Nat) : Nat → RecvVars W → Option (RecvVars W)
  | 0, _ => none
  | fuel + 1, v =>
    if v.ret != 0 then some v
    else
      let g := env.get_range_block v.st.world rf BUFFERSIZE
      let s1 := v.st.step g.2 (Event.get_range_block rf g.1)
      let zoffset1 := match g.1.offset with
        | some o => some o
        | none => v.zoffset
      if g.1.len > 0 then
        let d := env.zsync_receive_data s1.world zr (some g.1.data) zoffset1 g.1.len
        let s2 := s1.step d.2 (Event.zsync_receive_data zr (some g.1.data) zoffset1 g.1.len d.1)
        let ret1 := if d.1 != 0 then 1 else v.ret
        match loop_progress env rf p s2 with
        | none => none
        | some s3 =>
          receive_loop env rf zr p fuel
            { ret := ret1, len := g.1.len,
              zoffset := zoffset1.map (fun z => off_t_wrap (z + g.1.len)), st := s3 }
      else some { ret := v.ret, len := g.1.len, zoffset := zoffset1, st := s1 }

/-- Lines 341-346: set up the progress display; yields the handle `p` (0 stands
for the null it keeps when quiet). -/
def begin_progress (env : Env W) (rf : Nat) (u : CStr) (s : St W) : Option (Nat × St W) :=
  if s.quiet then some (0, s)
  else
    match env.progress_routines with
    | none => none
    | some pr =>
      let sp := pr.start_progress s.world u
      let s1 := s.step sp.2 (Event.start_progress u sp.1)
      let z := env.zsync_progress s1.world
      let dl := env.range_fetch_bytes_down s1.world rf
      some (sp.1, s1.step (env.do_progress s1.world sp.1 z dl)
        (Event.do_progress_direct sp.1 z.1 z.2 dl))

/-- Lines 365-370: after the loop, flag a read error or tell the receiver that
the end of the data is reached. -/
def flush_receive (env : Env W) (zr : Nat) (v : RecvVars W) : Int × St W :=
  if v.len < 0 then (-1, v.st)
  else
    let d := env.zsync_receive_data v.st.world zr none v.zoffset 0
    (v.ret, v.st.step d.2 (Event.zsync_receive_data zr none v.zoffset 0 d.1))

/-- Lines 372-373: close the progress display; no result when the progress table
is null. -/
def close_progress (env : Env W) (p : Nat) (len : Int) (s : St W) : Option (St W) :=
  if s.quiet then some s
  else
    match env.progress_routines with
    | none => none
    | some pr =>
      let done : Int :=
        if env.zsync_status s.world ≥ 2 then 2 else if len = 0 then 1 else 0
      some (s.step (pr.end_progress s.world p done) (Event.end_progress p done))

/-- Lines 365-374: what follows the receive loop, up to the clean-up. -/
def finish_receive (env : Env W) (zr p : Nat) (v : RecvVars W) : Option (Int × St W) :=
  let r := flush_receive env zr v
  (close_progress env p v.len r.2).map fun s => (r.1, s)

/-- Lines 376-382: the clean-up that ends a download which reached the loop. -/
def http_cleanup (env : Env W) (rf zr : Nat) (s : St W) : St W :=
  let b := env.range_fetch_bytes_down s.world rf
  let s1 := { s.emit (Event.range_fetch_bytes_down rf b) with http_down := s.http_down + b }
  let s2 := s1.step (env.zsync_end_receive s1.world zr) (Event.zsync_end_receive zr)
  s2.step (env.range_fetch_end s2.world rf) (Event.range_fetch_end rf)

/-- Lines 323-382, entered with handle, receiver and buffer in hand. The loop
starts with `ret = 0`, so its condition assigns `len` before anything reads it;
the 0 given for `len` stands for its indeterminate initial value. -/
def http_transfer (env : Env W) (fuel : Nat) (type : Int) (u : CStr) (rf zr : Nat)
    (s : St W) : Option (Int × St W) :=
  let q := env.zsync_needed_byte_ranges s.world type
  let s1 := s.step q.2 (Event.zsync_needed_byte_ranges type q.1)
  match q.1 with
  | none => some (1, s1)
  | some zbyterange =>
    if zbyterange.length = 0 then some (0, s1)
    else
      let s2 := s1.step (env.range_fetch_addranges s1.world rf zbyterange)
        (Event.range_fetch_addranges rf zbyterange)
      match begin_progress env rf u s2 with
      | none => none
      | some (p, s3) =>
        match receive_loop env rf zr p fuel { ret := 0, len := 0, zoffset := none, st := s3 } with
        | none => none
        | some v =>
          match finish_receive env zr p v with
          | none => none
          | some (ret, s4) => some (ret, http_cleanup env rf zr s4)

/-- Lines 311-321 and on, entered with handle and receiver: announce the
download, allocate the read buffer, then transfer. -/
def http_with_receiver (env : Env W) (fuel : Nat) (type : Int) (u : CStr) (rf zr : Nat)
    (s : St W) : Option (Int × St W) :=
  let s1 := s.say "downloading from" u
  let m := env.malloc s1.world BUFFERSIZE
  let s2 := s1.step m.2 (Event.malloc BUFFERSIZE m.1)
  if !m.1 then
    let s3 := s2.step (env.zsync_end_receive s2.world zr) (Event.zsync_end_receive zr)
    some (-1, s3.step (env.range_fetch_end s3.world rf) (Event.range_fetch_end rf))
  else http_transfer env fuel type u rf zr s2

/-- Lines 304-309 and on, entered with the fetch handle: open the receiver. -/
def http_with_handle (env : Env W) (fuel : Nat) (type : Int) (u : CStr) (rf : Nat)
    (s : St W) : Option (Int × St W) :=
  let b := env.zsync_begin_receive s.world type
  let s1 := s.step b.2 (Event.zsync_begin_receive type b.1)
  match b.1 with
  | none => some (-1, s1.step (env.range_fetch_end s1.world rf) (Event.range_fetch_end rf))
  | some zr => http_with_receiver env fuel type u rf zr s1

/-- `fetch_remaining_blocks_http(cs, z, url, type)`. `fuel` bounds the iterations
of the receive loop; there is no result when it runs out, or when a null
progress table is dereferenced. -/
def fetch_remaining_blocks_http (env : Env W) (fuel : Nat) (s : St W) (url : CStr)
    (type : Int) : Option (Int × St W) :=
  match env.make_url_absolute s.referrer url with
  | none => some (-1, s.emit (Event.print "URL is relative, referrer unknown" url))
  | some u =>
    let r := env.range_fetch_start s.world u s.referrer
    let s1 := s.step r.2 (Event.range_fetch_start u r.1)
    match r.1 with
    | none => some (-1, s1)
    | some rf => http_with_handle env fuel type u rf s1

/-! ## The scheduler (`fetch_remaining_blocks`) -/

/-- The per-URL downloader as the scheduler sees it: from the state, a URL and the
content type to a return code and the next state, or no result. -/
abbrev Downloader (W : Type) := St W → CStr → Int → Option (Int × St W)

/-- The locals of `fetch_remaining_blocks`: the `status` array and `ok_urls`.
`calls` is a ghost log of the downloader invocations made so far, newest first,
each with the index tried and the code returned. -/
structure Sched where
  status : List Int
  ok_urls : Int
  calls : List (Nat × Int)
deriving DecidableEq, Repr

/-- The loop condition `zsync_status(zs) < 2 && ok_urls`. -/
def sched_guard (env : Env W) (x : Sched × St W) : Bool :=
  decide (env.zsync_status x.2.world < 2) && (x.1.ok_urls != 0)

/-- One execution of the loop body (lines 405-418) over `n` URLs. No result when
the downloader gives none, or when an index is out of range. -/
def sched_body (env : Env W) (http : Downloader W) (url : List CStr) (utype : Int)
    (n : Nat) (x : Sched × St W) : Option (Sched × St W) :=
  let r := env.rand_r x.2.random_seed
  let try_ := r.1 % n
  let s1 : St W := { x.2 with random_seed := r.2 }
  match x.1.status[try_]? with
  | none => none
  | some st =>
    if st = 0 then
      match url[try_]? with
      | none => none
      | some tryurl =>
        match http s1 tryurl utype with
        | none => none
        | some (rc, s2) =>
          if rc != 0 then
            some ({ status := x.1.status.set try_ 1, ok_urls := x.1.ok_urls - 1,
                    calls := (try_, rc) :: x.1.calls },
                  s2.emit (Event.print "failed to retrieve from" tryurl))
          else some ({ x.1 with calls := (try_, rc) :: x.1.calls }, s2)
    else some (x.1, s1)

/-- The loop `while (zsync_status(zs) < 2 && ok_urls)`; `fuel` bounds its
iterations. -/
def sched_loop (env : Env W) (http : Downloader W) (url : List CStr) (utype : Int)
    (n : Nat) : Nat → Sched × St W → Option (Sched × St W)
  | 0, _ => none
  | fuel + 1, x =>
    if sched_guard env x then
      match sched_body env http url utype n x with
      | none => none
      | some y => sched_loop env http url utype n fuel y
    else some x

/-- The locals as the loop is entered: `status = calloc(n, ...)`, `ok_urls = n`. -/
def sched_init (n : Nat) : Sched :=
  { status := List.replicate n 0, ok_urls := n, calls := [] }

/-- The body of `fetch_remaining_blocks` over a given downloader: the return
value, the state, and the locals as they were when the loop was left (`none`
when the URL list was null and the loop never entered). -/
def fetch_remaining_blocks_with (env : Env W) (http : Downloader W) (fuel : Nat)
    (s : St W) : Option (Int × St W × Option Sched) :=
  let g := env.zsync_get_urls s.world
  match g.1 with
  | none => some (1, s.emit (Event.print "no URLs available from zsync?" []), none)
  | some url =>
    match sched_loop env http url g.2 url.length fuel (sched_init url.length, s) with
    | none => none
    | some y => some (0, y.2, some y.1)

/-- `fetch_remaining_blocks(cs, zs)`. -/
def fetch_remaining_blocks (env : Env W) (fuel : Nat) (s : St W) : Option (Int × St W) :=
  (fetch_remaining_blocks_with env (fetch_remaining_blocks_http env fuel) fuel s).map
    fun r => (r.1, r.2.1)

/-! ## The driver (`zsync_client`) -/

/-- `set_mtime(filename, mtime)`. -/
def set_mtime (env : Env W) (filename : CStr) (mtime : Int) (s : St W) : Int × St W :=
  let a := env.stat s.world filename
  let s1 := s.step a.2 (Event.stat filename a.1)
  match a.1 with
  | none => (-1, s1.emit (Event.print "stat" []))
  | some atime =>
    let u := env.utime s1.world filename atime mtime
    let s2 := s1.step u.2 (Event.utime filename atime mtime u.1)
    if u.1 != 0 then (-1, s2.emit (Event.print "utime" [])) else (0, s2)

/-- The backup of the old file (lines 585-596): yields `ok` and `ret`. -/
def backup_old_file (env : Env W) (out oldfile_backup temp_file : CStr) (ret : Int)
    (s : St W) : Bool × Int × St W :=
  if env.access s.world out F_OK = 0 then
    let u := env.unlink s.world oldfile_backup
    let s1 := s.step u.2 (Event.unlink oldfile_backup u.1)
    let l := env.link s1.world out oldfile_backup
    let s2 := s1.step l.2 (Event.link out oldfile_backup l.1)
    if l.1 != 0 then
      (false, zs_backup_old_file_err,
        (s2.emit (Event.print "link" [])).emit
          (Event.print "Unable to back up old file - completed download left in" temp_file))
    else (true, ret, s2)
  else (true, ret, s)

/-- STEP 5 (lines 577-617): move the completed file into place. `output_file_path`
is the value of that variable, `temp_file` what `zsync_end` returned. -/
def install (env : Env W) (output_file_path : Option CStr) (temp_file : CStr)
    (mtime : Int) (ret : Int) (s : St W) : Int × St W :=
  match output_file_path with
  | some out =>
    let oldfile_backup := out ++ ".zs-old".toList
    let b := backup_old_file env out oldfile_backup temp_file ret s
    if b.1 then
      let r := env.rename b.2.2.world temp_file out
      let s1 := b.2.2.step r.2 (Event.rename temp_file out r.1)
      if r.1 = 0 then
        (b.2.1, if mtime != -1 then (set_mtime env out mtime s1).2 else s1)
      else
        (zs_move_received_file_err,
          (s1.emit (Event.print "rename" [])).emit
            (Event.print "Unable to back up old file - completed download left in" temp_file))
    else (b.2.1, b.2.2)
  | none =>
    (ret, s.emit (Event.print
      "No filename specified for download - completed download left in" temp_file))

/-- What a run of `zsync_client` leaves: the value returned, the final state, and
the last value of the variable `output_file_path`. -/
structure Run (W : Type) where
  ret : Int
  st : St W
  output_file_path : Option CStr

/-- The label `bail:` final statistics unless quiet, then `return ret`. -/
def bail (ret : Int) (output_file_path : Option CStr) (s : St W) : Run W :=
  { ret := ret, st := s.say "used local, fetched" [], output_file_path := output_file_path }

/-- STEP 2 (lines 489-523): the seeds, the existing target, the existing `.part`. -/
def read_local_data (env : Env W) (seedfiles : List CStr) (out temp_file : CStr)
    (s : St W) : Option (St W) :=
  (read_seed_files env seedfiles s).bind fun s1 =>
    (if env.access s1.world out R_OK = 0 then read_seed_file env out s1 else some s1).bind
      fun s2 =>
        (if env.access s2.world temp_file R_OK = 0 then read_seed_file env temp_file s2
          else some s2).map
          fun s3 =>
            if (env.zsync_progress s3.world).1 = 0 then
              s3.say "No relevent local data found - I will be downloading the whole file" []
            else s3

/-- The `switch (r)` of STEP 4 for a result other than -1: what is printed. -/
def report_checksum (r : Int) (s : St W) : St W :=
  if r = 0 then s.say "no recognised checksum found" []
  else if r = 1 then s.say "checksum matches OK" []
  else s

/-- Lines 569-617: read the mtime, end the session, run STEP 5, leave through
`bail:`. By now `output_file_path` holds `out`. -/
def end_and_install (env : Env W) (out : CStr) (s : St W) : Run W :=
  let mtime := env.zsync_mtime s.world
  let e := env.zsync_end s.world
  let s1 := s.step e.2 (Event.zsync_end e.1)
  let r := install env (some out) e.1 mtime zs_ok s1
  bail r.1 (some out) r.2

/-- STEP 4 and STEP 5 (lines 546-617), run once the fetch reported success. -/
def verify_and_install (env : Env W) (out temp_file : CStr) (s : St W) : Run W :=
  let s1 := s.say "verifying download..." []
  let c := env.zsync_complete s1.world
  let s2 := s1.step c.2 (Event.zsync_complete c.1)
  if c.1 = -1 then
    bail zs_download_local_err (some out)
      (s2.emit (Event.print "Aborting, download available in" temp_file))
  else end_and_install env out (report_checksum c.1 s2)

/-- The client state as `zsync_client` sets it up (lines 455-469). -/
def client_start (env : Env W) (w0 : W) (referrer : Option CStr) (quiet : Bool) : St W :=
  { world := w0, quiet := quiet,
    random_seed := Nat.xor (env.getpid w0 % 2 ^ 32) (env.time w0 % 2 ^ 32),
    referrer := referrer, http_down := 0, trace := [] }

/-- The value of `output_file_path` after lines 483-484: the caller's path, or
the name derived by `get_filename` when the caller gave none. -/
def effective_output (env : Env W) (control_file_location : CStr)
    (output_file_path : Option CStr) (s : St W) : CStr :=
  match output_file_path with
  | some o => o
  | none => get_filename (env.zsync_filename s.world) control_file_location

/-- `zsync_client(...)`, run from the world `w0`. `seedfiles` carries `nseedfiles`
as its length; the two routine tables are in `env`. `fuel` bounds each loop. -/
def zsync_client (env : Env W) (fuel : Nat) (w0 : W) (control_file_location : CStr)
    (keep_control_file_path : Option CStr) (output_file_path : Option CStr)
    (referrer : Option CStr) (seedfiles : List CStr) (quiet : Bool) : Option (Run W) :=
  let s0 := client_start env w0 referrer quiet
  let c := read_zsync_control_file env control_file_location keep_control_file_path zs_ok s0
  if c.2.1 != zs_ok then some (bail c.2.1 output_file_path c.2.2)
  else if !c.1 then some (bail zs_read_control_file_err output_file_path c.2.2)
  else
    let out := effective_output env control_file_location output_file_path c.2.2
    let temp_file := out ++ ".part".toList
    match read_local_data env seedfiles out temp_file c.2.2 with
    | none => none
    | some s1 =>
      let rn := env.zsync_rename_file s1.world temp_file
      let s2 := s1.step rn.2 (Event.zsync_rename_file temp_file rn.1)
      if rn.1 != 0 then
        some (bail zs_read_control_file_err (some out) (s2.emit (Event.print "rename" [])))
      else
        match fetch_remaining_blocks env fuel s2 with
        | none => none
        | some (rc, s3) =>
          if rc != 0 then
            some (bail zs_download_receive_err (some out)
              (s3.emit (Event.print
                "failed to retrieve all remaining blocks - no valid download URLs remain"
                temp_file)))
          else some (verify_and_install env out temp_file s3)

/-! ## Vocabulary for statements about runs -/

/-- The directory part of a path: empty, or ending in a slash. -/
def IsDirPart (dir : CStr) : Prop := dir = [] ∨ ∃ d, dir = d ++ ['/']

/-- The byte count a call reports into the `http_down` accounting: the result of
the `range_fetch_bytes_down` query of the clean-up, 0 for every other call. -/
def Event.bytes : Event → Int
  | Event.range_fetch_bytes_down _ v => v
  | _ => 0

/-- The sum of the reported byte counts over a trace. -/
def bytes_sum : List Event → Int
  | [] => 0
  | e :: t => e.bytes + bytes_sum t

/-- The calls on the progress collaborator. -/
def Event.is_progress : Event → Bool
  | Event.start_progress _ _ => true
  | Event.do_progress_direct _ _ _ _ => true
  | Event.do_progress _ _ _ _ => true
  | Event.end_progress _ _ => true
  | _ => false

/-- The calls that can occur before verification (STEP 1 to STEP 3): none of
`zsync_complete`, `zsync_end`, `unlink`, `link`, `rename`, `stat`, `utime`,
progress calls only when not quiet, and any diagnostic but the report of
lines 614-616 that no file name was specified. -/
def preEv (quiet : Bool) : Event → Bool
  | Event.print m _ => m != "No filename specified for download - completed download left in"
  | Event.zsync_complete _ => false
  | Event.zsync_end _ => false
  | Event.unlink _ _ => false
  | Event.link _ _ _ => false
  | Event.rename _ _ _ => false
  | Event.stat _ _ => false
  | Event.utime _ _ _ _ => false
  | Event.start_progress _ _ => !quiet
  | Event.do_progress_direct _ _ _ _ => !quiet
  | Event.do_progress _ _ _ _ => !quiet
  | Event.end_progress _ _ => !quiet
  | _ => true

/-- State `t` comes after `s` in a run that is still before verification: the
trace grew by calls allowed there, `http_down` grew by the byte counts
reported in them, and `quiet` is unchanged. -/
structure Advances (s t : St W) : Prop where
  quiet : t.quiet = s.quiet
  grew : ∃ new, t.trace = new ++ s.trace ∧ (∀ e ∈ new, preEv s.quiet e = true) ∧
    t.http_down = s.http_down + bytes_sum new

/-- The `k`-th draw of `rand_r` from a seed, with the seed it leaves. -/
def draw_seq (rand_r : Nat → Nat × Nat) : Nat → Nat → Nat × Nat
  | 0, seed => rand_r seed
  | k + 1, seed => draw_seq rand_r k (rand_r seed).2

/-- The state after exactly `k` executions of the scheduler loop body, each
entered with the loop condition true. -/
def sched_iter (env : Env W) (http : Downloader W) (url : List CStr) (utype : Int)
    (n : Nat) : Nat → Sched × St W → Option (Sched × St W)
  | 0, x => some x
  | k + 1, x =>
    if sched_guard env x then
      (sched_body env http url utype n x).bind (sched_iter env http url utype n k)
    else none

/-- The scheduler loop over the real downloader comes to an end from state `s`:
some bound on the iterations of the two loops is enough for a result. -/
def SchedulerTerminates (env : Env W) (url : List CStr) (utype : Int) (s : St W) : Prop :=
  ∃ inner fuel, (sched_loop env (fetch_remaining_blocks_http env inner) url utype url.length
    fuel (sched_init url.length, s)).isSome = true

/-- What holds of the scheduler locals throughout the loop over `n` URLs, `calls`
being the log of downloader invocations, newest first. -/
structure SchedInv (n : Nat) (loc : Sched) : Prop where
  len : loc.status.length = n
  binary : ∀ v ∈ loc.status, v = 0 ∨ v = 1
  count : loc.ok_urls = ((loc.status.count 0 : Nat) : Int)
  failed : ∀ c ∈ loc.calls, c.2 ≠ 0 → loc.status[c.1]? = some 1
  once : ∀ newer i rc older, loc.calls = newer ++ (i, rc) :: older → rc ≠ 0 →
    ∀ rc', (i, rc') ∉ newer

/-- State `t` comes after `s` by calls that all satisfy `C`, with `quiet` and
`http_down` unchanged. -/
structure Later (C : Event → Bool) (s t : St W) : Prop where
  quiet : t.quiet = s.quiet
  http_down : t.http_down = s.http_down
  grew : ∃ new, t.trace = new ++ s.trace ∧ ∀ e ∈ new, C e = true

/-- The calls STEP 4 and STEP 5 can make in a run that ends with outcome `ret`
for the output path `out`: diagnostics; `zsync_complete` returning -1 exactly when
the outcome is `zs_download_local_err`, and then nothing else; otherwise
`zsync_end`, the unlink of the backup path, the link of `out` to the backup path
(failing exactly when the outcome is `zs_backup_old_file_err`), the rename onto
`out` (absent after a failed link, failing exactly when the outcome is
`zs_move_received_file_err`), and `stat`, `utime` on success only. Among the
diagnostics the report of lines 614-616 that no file name was specified is
absent. -/
def postEv (out : CStr) (ret : Int) : Event → Bool
  | Event.print m _ => m != "No filename specified for download - completed download left in"
  | Event.zsync_complete c => if ret = 2 then c == -1 else c != -1
  | Event.zsync_end _ => ret != 2
  | Event.unlink p _ => ret != 2 && p == out ++ ".zs-old".toList
  | Event.link a b rc =>
    ret != 2 && a == out && b == out ++ ".zs-old".toList &&
      (if ret = 5 then rc != 0 else rc == 0)
  | Event.rename _ b rc =>
    b == out && (if ret = 0 then rc == 0 else if ret = 4 then rc != 0 else false)
  | Event.stat p _ => ret == 0 && p == out
  | Event.utime p _ _ _ => ret == 0 && p == out
  | _ => false

/-- The calls `fetch_remaining_blocks_http` makes apart from the
`range_fetch_bytes_down` query of its clean-up. -/
def httpEv : Event → Bool
  | Event.print _ _ => true
  | Event.range_fetch_start _ _ => true
  | Event.zsync_begin_receive _ _ => true
  | Event.malloc _ _ => true
  | Event.zsync_needed_byte_ranges _ _ => true
  | Event.range_fetch_addranges _ _ => true
  | Event.start_progress _ _ => true
  | Event.do_progress_direct _ _ _ _ => true
  | Event.do_progress _ _ _ _ => true
  | Event.end_progress _ _ => true
  | Event.get_range_block _ _ => true
  | Event.zsync_receive_data _ _ _ _ _ => true
  | Event.zsync_end_receive _ => true
  | Event.range_fetch_end _ => true
  | _ => false

/-- The calls of a download other than the registration of ranges and the byte
count query. -/
def earlyEv : Event → Bool
  | Event.range_fetch_addranges _ _ => false
  | e => httpEv e

/-- How a download that started in state `s` can have ended in state `r`, seen in
the calls `new` it made. Either it registered no ranges, made no byte count
query and left `http_down` as it was. Or it went through the clean-up: its last
three calls are the byte count query on the handle `rf`, `zsync_end_receive` and
`range_fetch_end`, no other byte count query was made, the needed ranges were
asked for and registered with `rf`, and `http_down` grew by the count `v` the
query returned. -/
def HttpShape (type : Int) (s r : St W) : Prop :=
  ∃ new, r.trace = new ++ s.trace ∧
    (((∀ e ∈ new, earlyEv e = true) ∧ r.http_down = s.http_down) ∨
      (∃ rf zr v mid,
        new = Event.range_fetch_end rf :: Event.zsync_end_receive zr ::
          Event.range_fetch_bytes_down rf v :: mid ∧
        (∀ e ∈ mid, httpEv e = true) ∧
        (∃ ranges, Event.zsync_needed_byte_ranges type ranges ∈ mid) ∧
        (∃ l, Event.range_fetch_addranges rf l ∈ mid) ∧
        r.http_down = s.http_down + v))

/-- The same collaborators with a null progress table. -/
def Env.without_progress (env : Env W) : Env W := { env with progress_routines := none }

/-- What a call hands to the receiver, if it is a delivery: the receiver, the
buffer (`none` for the null pointer), the offset and the length. -/
def Event.delivery : Event → Option (Nat × Option (List Nat) × Option Int × Int)
  | Event.zsync_receive_data zr buf off len _ => some (zr, buf, off, len)
  | _ => none

/-- The deliveries among the calls `new` (newest first), in order of time. -/
def deliveries (new : List Event) : List (Nat × Option (List Nat) × Option Int × Int) :=
  new.reverse.filterMap Event.delivery

/-- The delivery of a chunk that `get_range_block` returned to the receiver `zr`:
its bytes, at its own offset. -/
def RangeBlock.delivered (zr : Nat) (c : RangeBlock) :
    Nat × Option (List Nat) × Option Int × Int :=
  (zr, some c.data, c.offset, c.len)

/-- The world part of `begin_progress`: the handle and the world that the set-up
of the progress display leaves when made in world `w`. -/
def begin_progress_world (env : Env W) (quiet : Bool) (rf : Nat) (u : CStr) (w : W) :
    Option (Nat × W) :=
  if quiet then some (0, w)
  else
    match env.progress_routines with
    | none => none
    | some pr =>
      let sp := pr.start_progress w u
      some (sp.1, env.do_progress sp.2 sp.1 (env.zsync_progress sp.2)
        (env.range_fetch_bytes_down sp.2 rf))

/-- The world part of `loop_progress`. -/
def loop_progress_world (env : Env W) (quiet : Bool) (rf p : Nat) (w : W) : Option W :=
  if quiet then some w
  else
    match env.progress_routines with
    | none => none
    | some pr => some (pr.do_progress w p (env.zsync_progress w) (env.range_fetch_bytes_down w rf))

/-- From world `w` on, the reads of the receive loop on the handle `rf` bring the
given chunks, each non-empty and with its offset, the receiver `zr` accepts each
of them, the progress update after each is possible, and the read after the last
chunk returns `last`. -/
def Feeds (env : Env W) (quiet : Bool) (rf zr p : Nat) (last : RangeBlock) :
    List RangeBlock → W → Bool
  | [], w => (env.get_range_block w rf BUFFERSIZE).1 == last
  | c :: rest, w =>
    let g := env.get_range_block w rf BUFFERSIZE
    let d := env.zsync_receive_data g.2 zr (some c.data) c.offset c.len
    g.1 == c && decide (0 < c.len) && c.offset.isSome && d.1 == 0 &&
      match loop_progress_world env quiet rf p d.2 with
      | none => false
      | some w1 => Feeds env quiet rf zr p last rest w1

/-- The value of the shadow offset `zoffset` after the given chunks, started
from `z`. -/
def next_offset : Option Int → List RangeBlock → Option Int
  | z, [] => z
  | _, c :: rest => next_offset (c.offset.map (fun z => off_t_wrap (z + c.len))) rest

/-- The world part of lines 289-346 of `fetch_remaining_blocks_http`: the fetch
handle, the receiver, the progress handle and the world with which the download
of `url` enters its receive loop; `none` when it ends before the loop. -/
def loop_entry (env : Env W) (s : St W) (url : CStr) (type : Int) :
    Option (Nat × Nat × Nat × W) :=
  match env.make_url_absolute s.referrer url with
  | none => none
  | some u =>
    match env.range_fetch_start s.world u s.referrer with
    | (none, _) => none
    | (some rf, w1) =>
      match env.zsync_begin_receive w1 type with
      | (none, _) => none
      | (some zr, w2) =>
        match env.malloc w2 BUFFERSIZE with
        | (false, _) => none
        | (true, w3) =>
          match env.zsync_needed_byte_ranges w3 type with
          | (none, _) => none
          | (some ranges, w4) =>
            if ranges.length = 0 then none
            else
              (begin_progress_world env s.quiet rf u
                (env.range_fetch_addranges w4 rf ranges)).map fun r => (rf, zr, r.1, r.2)

/-- The calls STEP 5 can make when it installs the working file `temp` as `out`:
diagnostics, the unlink and the link for the backup, the rename of `temp` onto
`out`, `stat` and `utime`. -/
def installEv (temp out : CStr) : Event → Bool
  | Event.print _ _ => true
  | Event.unlink _ _ => true
  | Event.link _ _ _ => true
  | Event.rename a b _ => a == temp && b == out
  | Event.stat _ _ => true
  | Event.utime _ _ _ _ => true
  | _ => false

/-- The calls that can precede the end of the session: every call but `zsync_end`
and `rename`. -/
def beforeEndEv : Event → Bool
  | Event.zsync_end _ => false
  | Event.rename _ _ _ => false
  | _ => true

/-- State `t` has the calls of `s` and after them only calls that satisfy `C`. -/
def Grew (C : Event → Bool) (s t : St W) : Prop :=
  ∃ new, t.trace = new ++ s.trace ∧ ∀ e ∈ new, C e = true

/-- A read of the range fetch that reports an error (a negative value). -/
def Event.is_read_error : Event → Bool
  | Event.get_range_block _ blk => decide (blk.len < 0)
  | _ => false

/-- Every call but a read that reports an error. -/
def calmEv (e : Event) : Bool := !e.is_read_error

/-- Every call but a delivery to the receiver that is not a non-empty chunk: a
delivery has a buffer and a positive length. -/
def chunkEv : Event → Bool
  | Event.zsync_receive_data _ buf _ len _ => buf.isSome && decide (0 < len)
  | _ => true

/-- From the claim on the seed command, in its words: the name's characters in
order, each alphanumeric character copied verbatim and each other character
preceded by exactly one backslash. -/
def spec_escaped_name : CStr → CStr
  | [] => []
  | c :: rest =>
    if isalnum c then c :: spec_escaped_name rest
    else Char.ofNat 92 :: c :: spec_escaped_name rest

/-- From the claim on the seed command, in its words: `zcat ` followed by the
escaped name. -/
def spec_zcat_command (fname : CStr) : CStr := "zcat ".toList ++ spec_escaped_name fname

/-! ## A small concrete world

A world without state (`Unit`) whose answers are fixed by a few switches; the
concrete runs below are made in it. -/

/-- The switches of the concrete world. -/
structure Sim where
  /-- whether `fopen` succeeds -/
  can_open : Bool
  /-- the advisory file name in the control file -/
  filename : Option CStr
  /-- the candidate URLs -/
  urls : Option (List CStr)
  /-- whether `make_url_absolute` finds an absolute URL -/
  absolute : Bool
  /-- whether `zsync_begin_receive` yields a receiver -/
  receiver : Bool
  /-- what `zsync_needed_byte_ranges` returns -/
  ranges : Option (List (Int × Int))
  /-- what every `get_range_block` returns -/
  block : RangeBlock
  /-- what `range_fetch_bytes_down` reports -/
  bytes_down : Int
  /-- `zsync_status` -/
  status : Int
  /-- what `zsync_complete` returns -/
  complete : Int
  /-- whether the output path exists and is readable -/
  out_exists : Bool
  /-- what `link` returns -/
  link_rc : Int
  /-- what `rename` returns -/
  rename_rc : Int
  /-- how far `rand_r` moves the seed; the draw is the new seed -/
  stride : Nat

/-- The collaborators of the concrete world. -/
def simEnv (c : Sim) : Env Unit :=
  { getpid := fun _ => 1
    time := fun _ => 2
    fopen := fun _ _ => (if c.can_open then some 3 else none, ())
    fclose := fun _ _ => (0, ())
    popen := fun _ _ => (some 4, ())
    pclose := fun _ _ => (0, ())
    access := fun _ _ _ => if c.out_exists then 0 else -1
    unlink := fun _ _ => (-1, ())
    link := fun _ _ _ => (c.link_rc, ())
    rename := fun _ _ _ => (c.rename_rc, ())
    stat := fun _ _ => (some 0, ())
    utime := fun _ _ _ _ => (0, ())
    malloc := fun _ _ => (true, ())
    rand_r := fun seed => (seed + c.stride, seed + c.stride)
    is_url_absolute := fun _ => false
    make_url_absolute := fun _ u => if c.absolute then some u else none
    zsync_begin := fun _ _ => (true, ())
    zsync_hint_decompress := fun _ => false
    zsync_filename := fun _ => c.filename
    zsync_submit_source_file := fun _ _ _ => ()
    zsync_progress := fun _ => (0, 100)
    zsync_rename_file := fun _ _ => (0, ())
    zsync_get_urls := fun _ => (c.urls, 0)
    zsync_status := fun _ => c.status
    zsync_needed_byte_ranges := fun _ _ => (c.ranges, ())
    zsync_begin_receive := fun _ _ => (if c.receiver then some 6 else none, ())
    zsync_receive_data := fun _ _ _ _ _ => (0, ())
    zsync_end_receive := fun _ _ => ()
    zsync_complete := fun _ => (c.complete, ())
    zsync_mtime := fun _ => -1
    zsync_end := fun _ => ("f.part".toList, ())
    http_get := none
    range_fetch_start := fun _ _ _ => (some 5, ())
    range_fetch_addranges := fun _ _ _ => ()
    get_range_block := fun _ _ _ => (c.block, ())
    range_fetch_bytes_down := fun _ _ => c.bytes_down
    range_fetch_end := fun _ _ => ()
    do_progress := fun _ _ _ _ => ()
    progress_routines := none }

/-- A world where the control file opens, the only candidate URL is relative and
no referrer is known, and nothing of the target is present yet. -/
def simRelative : Sim :=
  { can_open := true, filename := none, urls := some ["f".toList], absolute := false,
    receiver := true, ranges := some [(0, 9)], block := { len := 0, offset := none, data := [] },
    bytes_down := 0, status := 0, complete := -1, out_exists := true, link_rc := 0,
    rename_rc := 0, stride := 1 }

/-- The same world, except that the URL resolves and every read of the range
fetch is at once at the end of the data: each download succeeds and brings
nothing. -/
def simStall : Sim := { simRelative with absolute := true }

/-- A world with two relative candidate URLs and a `rand_r` that always draws 0. -/
def simStuck : Sim :=
  { simRelative with urls := some ["f".toList, "g".toList], stride := 0 }

/-- The same world as `simRelative`, except that the URL resolves, the fetch
handle reports 7 bytes and no receiver can be opened. -/
def simNoReceiver : Sim :=
  { simRelative with absolute := true, receiver := false, bytes_down := 7 }

/-- The same world as `simRelative`, except that no checksum is available for the
verification and the hard link for the backup fails. -/
def simLinkFails : Sim := { simRelative with complete := 0, link_rc := -1 }

/-- The same world as `simRelative`, except that no checksum is available for the
verification and no output file exists yet. -/
def simNoChecksum : Sim := { simRelative with complete := 0, out_exists := false }

/-- The same world as `simRelative`, except that the URL resolves, every read of
the range fetch fails and the fetch handle reports 7 bytes. -/
def simReadError : Sim :=
  { simRelative with
    absolute := true
    bytes_down := 7
    block := { len := -1, offset := none, data := [] } }

/-- A quiet client state with nothing done yet. -/
def simStart : St Unit :=
  { world := (), quiet := true, random_seed := 0, referrer := none, http_down := 0,
    trace := [] }

/-- A world where the control file opens, the target is complete and verified
from the start (`zsync_status` 2, the checksum matches) and no output file exists
yet. -/
def simVerified : Sim := { simRelative with status := 2, complete := 1, out_exists := false }

/-- The concrete world again, now with a state: the blocks that the reads of the
range fetch are still going to bring, in order; once they are used up a read
returns the block of the switches, and the target counts as complete. No other
call changes the state. -/
def feedEnv (c : Sim) : Env (List RangeBlock) :=
  { getpid := fun _ => 1
    time := fun _ => 2
    fopen := fun w _ => (if c.can_open then some 3 else none, w)
    fclose := fun w _ => (0, w)
    popen := fun w _ => (some 4, w)
    pclose := fun w _ => (0, w)
    access := fun _ _ _ => if c.out_exists then 0 else -1
    unlink := fun w _ => (-1, w)
    link := fun w _ _ => (c.link_rc, w)
    rename := fun w _ _ => (c.rename_rc, w)
    stat := fun w _ => (some 0, w)
    utime := fun w _ _ _ => (0, w)
    malloc := fun w _ => (true, w)
    rand_r := fun seed => (seed + c.stride, seed + c.stride)
    is_url_absolute := fun _ => false
    make_url_absolute := fun _ u => if c.absolute then some u else none
    zsync_begin := fun w _ => (true, w)
    zsync_hint_decompress := fun _ => false
    zsync_filename := fun _ => c.filename
    zsync_submit_source_file := fun w _ _ => w
    zsync_progress := fun _ => (0, 100)
    zsync_rename_file := fun w _ => (0, w)
    zsync_get_urls := fun _ => (c.urls, 0)
    zsync_status := fun w => if w.isEmpty then 2 else c.status
    zsync_needed_byte_ranges := fun w _ => (c.ranges, w)
    zsync_begin_receive := fun w _ => (if c.receiver then some 6 else none, w)
    zsync_receive_data := fun w _ _ _ _ => (0, w)
    zsync_end_receive := fun w _ => w
    zsync_complete := fun w => (c.complete, w)
    zsync_mtime := fun _ => -1
    zsync_end := fun w => ("f.part".toList, w)
    http_get := none
    range_fetch_start := fun w _ _ => (some 5, w)
    range_fetch_addranges := fun w _ _ => w
    get_range_block := fun w _ _ => (w.headD c.block, w.tail)
    range_fetch_bytes_down := fun _ _ => c.bytes_down
    range_fetch_end := fun w _ => w
    do_progress := fun w _ _ _ => w
    progress_routines := none }

/-- Two chunks of three and two bytes for the offsets 0 and 3. -/
def twoChunks : List RangeBlock :=
  [{ len := 3, offset := some 0, data := [1, 2, 3] }, { len := 2, offset := some 3, data := [4, 5] }]

/-- A quiet client state with nothing done yet, in a world that still has the
given blocks to bring. -/
def feedStart (blocks : List RangeBlock) : St (List RangeBlock) :=
  { world := blocks, quiet := true, random_seed := 0, referrer := none, http_down := 0,
    trace := [] }

/-- One chunk of three bytes for the offset 2^63 - 2, two below the largest
value of `off_t`. -/
def chunkAtTop : List RangeBlock :=
  [{ len := 3, offset := some 9223372036854775806, data := [1, 2, 3] }]

/-- The world of `feedEnv simStall` with two changes: the URL `f` does not
resolve while every other URL does, and `rand_r` draws half the seed and moves
the seed on by one, so that each number is drawn twice in a row. -/
def pickyEnv : Env (List RangeBlock) :=
  { feedEnv simStall with
    make_url_absolute := fun _ u => if u = "f".toList then none else some u
    rand_r := fun seed => (seed / 2, seed + 1) }

/-- A chunk of three bytes for the offset 0, then a read that fails. -/
def chunkThenError : List RangeBlock :=
  [{ len := 3, offset := some 0, data := [1, 2, 3] }, { len := -1, offset := none, data := [] }]

/-- The same world as `simStall`, except that nothing is left to fetch:
`zsync_needed_byte_ranges` returns an empty list. -/
def simNothingNeeded : Sim := { simStall with ranges := some [] }

/-- The same world as `simStall`, except that `zsync_needed_byte_ranges` fails. -/
def simRangesFail : Sim := { simStall with ranges := none }

/-! ### Facts about the string helpers -/

theorem strchr_isSome_iff (s : CStr) (c : Char) : (strchr s c).isSome ↔ c ∈ s := by
  induction s with
  | nil => simp [strchr]
  | cons x xs ih =>
    by_cases h : x = c
    · simp [strchr, h]
    · have h' : ¬ c = x := fun e => h e.symm
      simp [strchr, h, h', ih]

theorem strrchr_scan_not_mem (c : Char) (s : CStr) (i : Nat) (acc : Option Nat)
    (h : c ∉ s) : strrchr_scan c s i acc = acc := by
  induction s generalizing i acc with
  | nil => rfl
  | cons x xs ih =>
    have hx : ¬ x = c := fun e => h (by simp [e])
    have hxs : c ∉ xs := fun e => h (by simp [e])
    simp [strrchr_scan, hx, ih _ _ hxs]

theorem strrchr_scan_append_sep (c : Char) (d comp : CStr) (i : Nat) (acc : Option Nat)
    (h : c ∉ comp) :
    strrchr_scan c (d ++ c :: comp) i acc = some (i + d.length) := by
  induction d generalizing i acc with
  | nil => simp [strrchr_scan, strrchr_scan_not_mem c comp _ _ h]
  | cons x xs ih =>
    show strrchr_scan c (xs ++ c :: comp) (i + 1) _ = _
    rw [ih, List.length_cons]
    exact congrArg some (by omega)

theorem alnum_span_append (run rest : CStr) (hrun : ∀ c ∈ run, isalnum c = true)
    (hrest : ∀ c, rest.head? = some c → isalnum c = false) :
    alnum_span (run ++ rest) = run.length := by
  induction run with
  | nil =>
    cases rest with
    | nil => rfl
    | cons y ys => simp [alnum_span, hrest y rfl]
  | cons x xs ih =>
    have hx : isalnum x = true := hrun x (by simp)
    have hxs : ∀ c ∈ xs, isalnum c = true := fun c hc => hrun c (by simp [hc])
    simp [alnum_span, hx, ih hxs]

/-- On a path split as directory part, alphanumeric run, rest, the code computes
the run. -/
theorem filename_run_eq (dir run rest : CStr) (hdir : IsDirPart dir)
    (hcomp : '/' ∉ run ++ rest) (hrun : ∀ c ∈ run, isalnum c = true)
    (hrest : ∀ c, rest.head? = some c → isalnum c = false) :
    filename_run (dir ++ (run ++ rest)) = run := by
  have hspan := alnum_span_append run rest hrun hrest
  rcases hdir with rfl | ⟨d, rfl⟩
  · simp only [filename_run, strrchr, List.nil_append]
    rw [strrchr_scan_not_mem _ _ _ _ hcomp]
    simp [hspan]
  · have e : (d ++ ['/']) ++ (run ++ rest) = d ++ '/' :: (run ++ rest) := by simp
    simp only [filename_run, strrchr, e]
    rw [strrchr_scan_append_sep _ _ _ _ _ hcomp]
    have hd : List.drop (0 + d.length + 1) (d ++ '/' :: (run ++ rest)) = run ++ rest := by
      have : d ++ '/' :: (run ++ rest) = (d ++ ['/']) ++ (run ++ rest) := by simp
      rw [this]
      have hl : 0 + d.length + 1 = (d ++ ['/']).length := by simp
      rw [hl, List.drop_left]
    simp only [hd, hspan]
    simp

theorem schar_pos_of_isalnum (c : Char) (h : isalnum c = true) : schar c > 0 := by
  have hn : 48 ≤ c.toNat ∧ c.toNat ≤ 122 := by
    simp only [isalnum, Char.isAlphanum, Char.isAlpha, Char.isUpper, Char.isLower,
      Char.isDigit, Bool.or_eq_true, Bool.and_eq_true, decide_eq_true_eq] at h
    have e : ∀ (a b : UInt32), a ≤ b ↔ a.toNat ≤ b.toNat := fun a b => Iff.rfl
    simp only [e] at h
    simp only [Char.toNat]
    rcases h with (⟨h1, h2⟩ | ⟨h1, h2⟩) | ⟨h1, h2⟩ <;>
      constructor <;> first | exact le_trans (by decide) h1 | exact le_trans h2 (by decide)
  unfold schar
  split <;> omega


theorem isalnum_of_mem_take_span (t : CStr) :
    ∀ c ∈ t.take (alnum_span t), isalnum c = true := by
  induction t with
  | nil => simp [alnum_span]
  | cons x xs ih =>
    by_cases hx : isalnum x = true
    · intro c hc
      simp only [alnum_span, hx, if_true, List.take_succ_cons, List.mem_cons] at hc
      rcases hc with rfl | hc
      · exact hx
      · exact ih c hc
    · simp [alnum_span, hx]

theorem isalnum_of_mem_filename_run (p : CStr) : ∀ c ∈ filename_run p, isalnum c = true :=
  isalnum_of_mem_take_span _

theorem get_filename_prefix_eq (p : CStr) :
    get_filename_prefix p = if filename_run p = [] then none else some (filename_run p) := by
  unfold get_filename_prefix
  cases h : filename_run p with
  | nil => simp
  | cons c cs =>
    have hc : isalnum c = true := isalnum_of_mem_filename_run p c (by simp [h])
    simp [schar_pos_of_isalnum c hc]

theorem slash_not_isalnum : isalnum '/' = false := by decide

theorem slash_not_mem_of_isalnum (t : CStr) (h : ∀ c ∈ t, isalnum c = true) : '/' ∉ t := by
  intro hm
  have := h _ hm
  rw [slash_not_isalnum] at this
  exact Bool.noConfusion this

theorem toNat_pos_of_isalnum (c : Char) (h : isalnum c = true) : 0 < c.toNat := by
  have := schar_pos_of_isalnum c h
  unfold schar at this
  split at this <;> omega

theorem char_toNat_inj {a b : Char} (h : a.toNat = b.toNat) : a = b := by
  apply Char.eq_of_val_eq
  apply UInt32.eq_of_toBitVec_eq
  exact BitVec.eq_of_toNat_eq h

theorem NUL_toNat : NUL.toNat = 0 := by decide

/-- `memcmp` over the memory images answers whether `t` is a prefix of `p`, for a
`t` made of alphanumeric characters. -/
theorem memcmp_eq_zero_iff (t : CStr) (ht : ∀ c ∈ t, isalnum c = true) (p : CStr) :
    memcmp (cmem p) (cmem t) (strlen t) = 0 ↔ t <+: p := by
  induction t generalizing p with
  | nil => simp [strlen, memcmp, cmem]
  | cons b bs ih =>
    have hb : 0 < b.toNat := toNat_pos_of_isalnum b (ht b (by simp))
    have hbs : ∀ c ∈ bs, isalnum c = true := fun c hc => ht c (by simp [hc])
    cases p with
    | nil =>
      have hne : ¬ NUL = b := by
        intro e
        rw [← e, NUL_toNat] at hb
        exact Nat.lt_irrefl _ hb
      simp only [cmem, strlen, List.nil_append, List.cons_append, List.length_cons, memcmp,
        hne, if_false, NUL_toNat]
      constructor
      · intro h
        omega
      · intro h
        simp at h
    | cons a as =>
      by_cases hab : a = b
      · subst hab
        have := ih hbs as
        simp only [cmem, strlen] at this
        simp only [cmem, strlen, List.cons_append, List.length_cons, memcmp, if_true,
          List.cons_prefix_cons, true_and]
        exact this
      · have hn : a.toNat ≠ b.toNat := fun e => hab (char_toNat_inj e)
        simp only [cmem, strlen, List.cons_append, List.length_cons, memcmp, hab, if_false]
        constructor
        · intro h
          omega
        · intro h
          rw [List.cons_prefix_cons] at h
          exact absurd h.1.symm hab

/-! ### Claims on `get_filename` -/

/-- C8: for every advisory file name, present or absent, and every source name,
the string `get_filename` returns contains no path separator. -/
theorem get_filename_no_separator (adv : Option CStr) (source_name : CStr) :
    '/' ∉ get_filename adv source_name := by
  have hpre : ∀ f, get_filename_prefix source_name = some f → '/' ∉ f := by
    intro f hf
    rw [get_filename_prefix_eq] at hf
    split at hf
    · exact Option.noConfusion hf
    · cases hf
      exact slash_not_mem_of_isalnum _ (isalnum_of_mem_filename_run source_name)
  have hstep3 : '/' ∉ get_filename none source_name := by
    simp only [get_filename]
    cases h : get_filename_prefix source_name with
    | none =>
      show '/' ∉ "zsync-download".toList
      decide
    | some f => exact hpre f h
  cases adv with
  | none => exact hstep3
  | some p =>
    by_cases hs : (strchr p '/').isSome = true
    · have e : get_filename (some p) source_name = get_filename none source_name := by
        simp [get_filename, hs]
      rw [e]
      exact hstep3
    · have hp : '/' ∉ p := fun hm => hs ((strchr_isSome_iff p '/').2 hm)
      simp only [get_filename, hs]
      cases h : get_filename_prefix source_name with
      | none =>
        show '/' ∉ "zsync-download".toList
        decide
      | some t =>
        by_cases hm : memcmp (cmem p) (cmem t) (strlen t) = 0
        · simpa [hm] using hp
        · simpa [hm] using hpre t h

/-- C9 as stated fails: the source name `http://h/` has an empty file component,
so the prefix is empty and the advisory name `file.iso`, free of separators,
begins with it; `get_filename` does not return the advisory name. -/
theorem get_filename_empty_prefix_rejects :
    '/' ∉ "file.iso".toList ∧ filename_run "http://h/".toList = [] ∧
      ([] : CStr) <+: "file.iso".toList ∧
      get_filename (some "file.iso".toList) "http://h/".toList ≠ "file.iso".toList := by
  refine ⟨by decide, by decide, by simp, by decide⟩

/-- C9, amended: for every advisory name `adv` without a path separator and every
source name split as directory part, longest leading alphanumeric run `run` of
the file component, and rest: if `run` is not empty and `adv` begins with it,
`get_filename` returns `adv`; otherwise it returns the step-3 result, which is
what it returns when no advisory name is present. -/
theorem get_filename_advised (adv dir run rest : CStr) (hadv : '/' ∉ adv)
    (hdir : IsDirPart dir) (hcomp : '/' ∉ run ++ rest)
    (hrun : ∀ c ∈ run, isalnum c = true)
    (hrest : ∀ c, rest.head? = some c → isalnum c = false) :
    ((run ≠ [] ∧ run <+: adv) →
        get_filename (some adv) (dir ++ (run ++ rest)) = adv) ∧
      (¬ (run ≠ [] ∧ run <+: adv) →
        get_filename (some adv) (dir ++ (run ++ rest)) =
          get_filename none (dir ++ (run ++ rest))) := by
  have hfr := filename_run_eq dir run rest hdir hcomp hrun hrest
  have hs : ¬ (strchr adv '/').isSome = true := fun h => hadv ((strchr_isSome_iff adv '/').1 h)
  have hpre := get_filename_prefix_eq (dir ++ (run ++ rest))
  rw [hfr] at hpre
  by_cases hne : run = []
  · subst hne
    simp only [List.nil_append, if_true] at hpre
    simp [get_filename, hs, hpre]
  · have hm := memcmp_eq_zero_iff run hrun adv
    by_cases hp : run <+: adv
    · simp [get_filename, hs, hpre, hne, hm.2 hp, hp]
    · have hm' : ¬ memcmp (cmem adv) (cmem run) (strlen run) = 0 := fun h => hp (hm.1 h)
      simp [get_filename, hs, hpre, hne, hm', hp]

/-- The amended C9 at a concrete input: `file.iso` advised for
`http://h/file.zsync`. -/
theorem get_filename_advised_witness :
    ("file".toList ≠ [] ∧ "file".toList <+: "file.iso".toList) ∧
      get_filename (some "file.iso".toList) ("http://h/".toList ++ ("file".toList ++ ".zsync".toList))
        = "file.iso".toList :=
  ⟨⟨by decide, by decide⟩,
    (get_filename_advised "file.iso".toList "http://h/".toList "file".toList ".zsync".toList
      (by decide) (Or.inr ⟨"http://h".toList, by decide⟩) (by decide) (by decide)
      (by intro c h; cases h; decide)).1 ⟨by decide, by decide⟩⟩

/-- C10: for every source name split as directory part (empty or ending in the
last slash), longest leading alphanumeric run `run` of the component after it,
and rest: when the advisory name is absent or contains a path separator,
`get_filename` returns `run` if it is not empty and `zsync-download` otherwise. -/
theorem get_filename_fallback (adv : Option CStr) (dir run rest : CStr)
    (hadv : adv = none ∨ ∃ p, adv = some p ∧ '/' ∈ p)
    (hdir : IsDirPart dir) (hcomp : '/' ∉ run ++ rest)
    (hrun : ∀ c ∈ run, isalnum c = true)
    (hrest : ∀ c, rest.head? = some c → isalnum c = false) :
    get_filename adv (dir ++ (run ++ rest)) =
      if run ≠ [] then run else "zsync-download".toList := by
  have hfr := filename_run_eq dir run rest hdir hcomp hrun hrest
  have hpre := get_filename_prefix_eq (dir ++ (run ++ rest))
  rw [hfr] at hpre
  rcases hadv with rfl | ⟨p, rfl, hp⟩
  · by_cases hne : run = []
    · subst hne
      simp only [List.nil_append, if_true] at hpre
      simp [get_filename, hpre]
    · simp [get_filename, hpre, hne]
  · have hs : (strchr p '/').isSome = true := (strchr_isSome_iff p '/').2 hp
    by_cases hne : run = []
    · subst hne
      simp only [List.nil_append, if_true] at hpre
      simp [get_filename, hs, hpre]
    · simp [get_filename, hs, hpre, hne]

/-- C10 at concrete inputs: an advisory name with a path component, for
`http://h/file.zsync`. -/
theorem get_filename_fallback_witness :
    '/' ∈ "x/file.iso".toList ∧
      get_filename (some "x/file.iso".toList)
        ("http://h/".toList ++ ("file".toList ++ ".zsync".toList)) =
        if "file".toList ≠ [] then "file".toList else "zsync-download".toList :=
  ⟨by decide,
    get_filename_fallback (some "x/file.iso".toList) "http://h/".toList "file".toList
      ".zsync".toList (Or.inr ⟨"x/file.iso".toList, rfl, by decide⟩)
      (Or.inr ⟨"http://h".toList, by decide⟩) (by decide) (by decide)
      (by intro c h; cases h; decide)⟩

/-! ### Runs before verification -/

@[simp] theorem St.emit_trace (s : St W) (e : Event) : (s.emit e).trace = e :: s.trace := rfl
@[simp] theorem St.emit_quiet (s : St W) (e : Event) : (s.emit e).quiet = s.quiet := rfl
@[simp] theorem St.emit_http_down (s : St W) (e : Event) :
    (s.emit e).http_down = s.http_down := rfl
@[simp] theorem St.emit_world (s : St W) (e : Event) : (s.emit e).world = s.world := rfl
@[simp] theorem St.step_trace (s : St W) (w : W) (e : Event) :
    (s.step w e).trace = e :: s.trace := rfl
@[simp] theorem St.step_quiet (s : St W) (w : W) (e : Event) :
    (s.step w e).quiet = s.quiet := rfl
@[simp] theorem St.step_http_down (s : St W) (w : W) (e : Event) :
    (s.step w e).http_down = s.http_down := rfl
@[simp] theorem St.step_world (s : St W) (w : W) (e : Event) : (s.step w e).world = w := rfl
@[simp] theorem St.say_quiet (s : St W) (m : String) (a : CStr) :
    (s.say m a).quiet = s.quiet := by
  unfold St.say; split <;> rfl
@[simp] theorem St.say_http_down (s : St W) (m : String) (a : CStr) :
    (s.say m a).http_down = s.http_down := by
  unfold St.say; split <;> rfl
@[simp] theorem St.say_world (s : St W) (m : String) (a : CStr) :
    (s.say m a).world = s.world := by
  unfold St.say; split <;> rfl

theorem St.say_trace (s : St W) (m : String) (a : CStr) :
    (s.say m a).trace = (if s.quiet then [] else [Event.print m a]) ++ s.trace := by
  unfold St.say
  split <;> simp

theorem Advances.refl (s : St W) : Advances s s :=
  ⟨rfl, [], rfl, by simp, by simp [bytes_sum]⟩

theorem Advances.trans {s t u : St W} (h1 : Advances s t) (h2 : Advances t u) :
    Advances s u := by
  obtain ⟨q1, n1, e1, p1, b1⟩ := h1
  obtain ⟨q2, n2, e2, p2, b2⟩ := h2
  have hsum : ∀ a b : List Event, bytes_sum (a ++ b) = bytes_sum a + bytes_sum b := by
    intro a b
    induction a with
    | nil => simp [bytes_sum]
    | cons x xs ih => simp [bytes_sum, ih, add_assoc]
  refine ⟨q2.trans q1, n2 ++ n1, by simp [e2, e1], ?_, ?_⟩
  · intro e he
    rcases List.mem_append.1 he with h | h
    · have := p2 e h
      rwa [q1] at this
    · exact p1 e h
  · rw [b2, b1, hsum]
    ring

theorem Advances.cons {s t u : St W} (h : Advances s t) (e : Event)
    (hq : u.quiet = t.quiet) (ht : u.trace = e :: t.trace)
    (hd : u.http_down = t.http_down + e.bytes) (he : preEv s.quiet e = true) :
    Advances s u := by
  obtain ⟨q1, n1, e1, p1, b1⟩ := h
  refine ⟨hq.trans q1, e :: n1, by simp [ht, e1], ?_, ?_⟩
  · intro x hx
    rcases List.mem_cons.1 hx with rfl | hx
    · exact he
    · exact p1 x hx
  · rw [hd, b1]
    simp only [bytes_sum]
    ring

theorem Advances.step {s t : St W} (h : Advances s t) {w : W} {e : Event}
    (he : preEv s.quiet e = true) (hb : e.bytes = 0) : Advances s (t.step w e) :=
  h.cons e rfl rfl (by simp [hb]) he

theorem Advances.emit {s t : St W} (h : Advances s t) {e : Event}
    (he : preEv s.quiet e = true) (hb : e.bytes = 0) : Advances s (t.emit e) :=
  h.cons e rfl rfl (by simp [hb]) he

theorem Advances.say {s t : St W} (h : Advances s t) {m : String} {a : CStr}
    (he : preEv s.quiet (Event.print m a) = true) : Advances s (t.say m a) := by
  unfold St.say
  split
  · exact h
  · exact h.emit he rfl

theorem Advances.with_referrer {s t : St W} (h : Advances s t) (r : Option CStr) :
    Advances s { t with referrer := r } :=
  ⟨h.quiet, h.grew⟩

theorem Advances.with_seed {s t : St W} (h : Advances s t) (r : Nat) :
    Advances s { t with random_seed := r } :=
  ⟨h.quiet, h.grew⟩

theorem read_control_stream_advances (env : Env W) (f : Nat) (error : Int) (s t : St W)
    (h : Advances s t) : Advances s (read_control_stream env f error t).2.2 := by
  unfold read_control_stream
  dsimp only
  split <;>
    repeat (first
      | exact h
      | refine Advances.step ?_ rfl rfl
      | refine Advances.emit ?_ rfl rfl)

theorem read_zsync_control_file_advances (env : Env W) (p : CStr) (fn : Option CStr)
    (error : Int) (s : St W) :
    Advances s (read_zsync_control_file env p fn error s).2.2 := by
  unfold read_zsync_control_file
  dsimp only
  split
  · refine read_control_stream_advances env _ _ _ _ ?_
    exact Advances.step (Advances.refl s) rfl rfl
  · split
    · repeat (first
        | exact Advances.refl s
        | refine Advances.step ?_ rfl rfl
        | refine Advances.emit ?_ rfl rfl)
    · cases hg : env.http_get with
      | none =>
        dsimp only
        repeat (first
          | exact Advances.refl s
          | refine Advances.step ?_ rfl rfl
          | refine Advances.emit ?_ rfl rfl)
      | some get =>
        dsimp only
        split
        · repeat (first
            | exact Advances.refl s
            | refine Advances.step ?_ rfl rfl
            | refine Advances.emit ?_ rfl rfl)
        · refine read_control_stream_advances env _ _ _ _ ?_
          refine Advances.with_referrer ?_ _
          repeat (first
            | exact Advances.refl s
            | refine Advances.step ?_ rfl rfl
            | refine Advances.emit ?_ rfl rfl)

theorem open_zcat_pipe_advances (env : Env W) (fname : CStr) (s t : St W)
    (r : Option Nat × St W) (h : Advances s t) (hr : open_zcat_pipe env fname t = some r) :
    Advances s r.2 := by
  unfold open_zcat_pipe at hr
  dsimp only at hr
  split at hr
  · cases hr
    exact Advances.step h rfl rfl
  · split at hr
    · exact Option.noConfusion hr
    · cases hr
      refine Advances.step ?_ rfl rfl
      refine Advances.say ?_ rfl
      exact Advances.step h rfl rfl

theorem submit_seed_advances (env : Env W) (f : Nat) (s t : St W) (h : Advances s t) :
    Advances s (submit_seed env f t) :=
  Advances.step h rfl rfl

theorem read_seed_file_advances (env : Env W) (fname : CStr) (s t u : St W)
    (h : Advances s t) (hr : read_seed_file env fname t = some u) : Advances s u := by
  unfold read_seed_file at hr
  dsimp only at hr
  rw [Option.map_eq_some'] at hr
  obtain ⟨v, hv, rfl⟩ := hr
  refine Advances.say ?_ rfl
  split at hv
  · cases hz : open_zcat_pipe env fname t with
    | none => rw [hz] at hv; exact Option.noConfusion hv
    | some r =>
      have hz' := open_zcat_pipe_advances env fname s t r h hz
      rw [hz] at hv
      obtain ⟨o, s1⟩ := r
      cases o with
      | none =>
        cases hv
        repeat (first
          | exact hz'
          | refine Advances.say ?_ rfl
          | refine Advances.step ?_ rfl rfl
          | refine Advances.emit ?_ rfl rfl)
      | some f =>
        dsimp only at hv
        cases hv
        unfold submit_seed
        split <;>
          repeat (first
            | exact hz'
            | refine Advances.say ?_ rfl
            | refine Advances.step ?_ rfl rfl
            | refine Advances.emit ?_ rfl rfl)
  · unfold submit_seed at hv
    split at hv
    · cases hv
      repeat (first
        | exact h
        | refine Advances.say ?_ rfl
        | refine Advances.step ?_ rfl rfl
        | refine Advances.emit ?_ rfl rfl)
    · cases hv
      split <;>
        repeat (first
          | exact h
          | refine Advances.say ?_ rfl
          | refine Advances.step ?_ rfl rfl
          | refine Advances.emit ?_ rfl rfl)

theorem read_seed_files_advances (env : Env W) (seeds : List CStr) (s t u : St W)
    (h : Advances s t) (hr : read_seed_files env seeds t = some u) : Advances s u := by
  induction seeds generalizing t with
  | nil =>
    simp only [read_seed_files] at hr
    cases hr
    exact h
  | cons f rest ih =>
    simp only [read_seed_files, Option.bind_eq_some] at hr
    obtain ⟨v, hv, hu⟩ := hr
    exact ih v (read_seed_file_advances env f s t v h hv) hu

theorem read_local_data_advances (env : Env W) (seeds : List CStr) (out temp_file : CStr)
    (s t u : St W) (h : Advances s t)
    (hr : read_local_data env seeds out temp_file t = some u) : Advances s u := by
  unfold read_local_data at hr
  simp only [Option.bind_eq_some, Option.map_eq_some'] at hr
  obtain ⟨s1, h1, s2, h2, s3, h3, rfl⟩ := hr
  have a1 := read_seed_files_advances env seeds s t s1 h h1
  have a2 : Advances s s2 := by
    split at h2
    · exact read_seed_file_advances env out s s1 s2 a1 h2
    · cases h2; exact a1
  have a3 : Advances s s3 := by
    split at h3
    · exact read_seed_file_advances env temp_file s s2 s3 a2 h3
    · cases h3; exact a2
  split
  · exact Advances.say a3 rfl
  · exact a3

/-! ### The downloader before verification -/

theorem preEv_progress_of_not_quiet {q : Bool} (hq : q = false) (e : Event) :
    e.is_progress = true → preEv q e = true := by
  intro h
  cases e <;> simp_all [Event.is_progress, preEv]

theorem loop_progress_advances (env : Env W) (rf p : Nat) (s t u : St W)
    (h : Advances s t) (hr : loop_progress env rf p t = some u) : Advances s u := by
  unfold loop_progress at hr
  split at hr
  · cases hr; exact h
  · rename_i hq
    split at hr
    · exact Option.noConfusion hr
    · cases hr
      have hq' : s.quiet = false := by
        rw [← h.quiet]
        simpa using hq
      exact Advances.step h (preEv_progress_of_not_quiet hq' _ rfl) rfl

theorem receive_loop_advances (env : Env W) (rf zr p : Nat) (fuel : Nat) (s : St W)
    (v r : RecvVars W) (h : Advances s v.st)
    (hr : receive_loop env rf zr p fuel v = some r) : Advances s r.st := by
  induction fuel generalizing v with
  | zero => exact Option.noConfusion hr
  | succ k ih =>
    unfold receive_loop at hr
    dsimp only at hr
    split at hr
    · cases hr; exact h
    · split at hr
      · split at hr
        · exact Option.noConfusion hr
        · rename_i s3 hp
          refine ih _ ?_ hr
          refine loop_progress_advances env rf p s _ s3 ?_ hp
          repeat (first
            | exact h
            | refine Advances.say ?_ rfl
            | refine Advances.step ?_ rfl rfl
            | refine Advances.emit ?_ rfl rfl)
      · cases hr
        exact Advances.step h rfl rfl

theorem begin_progress_advances (env : Env W) (rf : Nat) (u : CStr) (s t : St W)
    (r : Nat × St W) (h : Advances s t) (hr : begin_progress env rf u t = some r) :
    Advances s r.2 := by
  unfold begin_progress at hr
  split at hr
  · cases hr; exact h
  · rename_i hq
    split at hr
    · exact Option.noConfusion hr
    · cases hr
      have hq' : s.quiet = false := by
        rw [← h.quiet]
        simpa using hq
      refine Advances.step ?_ (preEv_progress_of_not_quiet hq' _ rfl) rfl
      exact Advances.step h (preEv_progress_of_not_quiet hq' _ rfl) rfl

theorem flush_receive_advances (env : Env W) (zr : Nat) (s : St W) (v : RecvVars W)
    (h : Advances s v.st) : Advances s (flush_receive env zr v).2 := by
  unfold flush_receive
  split
  · exact h
  · exact Advances.step h rfl rfl

theorem close_progress_advances (env : Env W) (p : Nat) (len : Int) (s t u : St W)
    (h : Advances s t) (hr : close_progress env p len t = some u) : Advances s u := by
  unfold close_progress at hr
  split at hr
  · cases hr; exact h
  · rename_i hq
    split at hr
    · exact Option.noConfusion hr
    · cases hr
      have hq' : s.quiet = false := by
        rw [← h.quiet]
        simpa using hq
      exact Advances.step h (preEv_progress_of_not_quiet hq' _ rfl) rfl

theorem finish_receive_advances (env : Env W) (zr p : Nat) (s : St W) (v : RecvVars W)
    (r : Int × St W) (h : Advances s v.st) (hr : finish_receive env zr p v = some r) :
    Advances s r.2 := by
  unfold finish_receive at hr
  simp only [Option.map_eq_some'] at hr
  obtain ⟨u, hu, rfl⟩ := hr
  exact close_progress_advances env p v.len s _ u (flush_receive_advances env zr s v h) hu

theorem http_cleanup_advances (env : Env W) (rf zr : Nat) (s t : St W) (h : Advances s t) :
    Advances s (http_cleanup env rf zr t) := by
  unfold http_cleanup
  dsimp only
  refine Advances.step ?_ rfl rfl
  refine Advances.step ?_ rfl rfl
  exact h.cons (Event.range_fetch_bytes_down rf (env.range_fetch_bytes_down t.world rf))
    rfl rfl rfl rfl

theorem http_transfer_advances (env : Env W) (fuel : Nat) (type : Int) (u : CStr)
    (rf zr : Nat) (s t : St W) (r : Int × St W) (h : Advances s t)
    (hr : http_transfer env fuel type u rf zr t = some r) : Advances s r.2 := by
  unfold http_transfer at hr
  dsimp only at hr
  have h1 := Advances.step (w := (env.zsync_needed_byte_ranges t.world type).2)
    (e := Event.zsync_needed_byte_ranges type (env.zsync_needed_byte_ranges t.world type).1)
    h rfl rfl
  split at hr
  · cases hr; exact h1
  · split at hr
    · cases hr; exact h1
    · split at hr
      · exact Option.noConfusion hr
      · rename_i p s3 hb
        have h3 : Advances s s3 := by
          refine begin_progress_advances env rf u s _ (p, s3) ?_ hb
          exact Advances.step h1 rfl rfl
        split at hr
        · exact Option.noConfusion hr
        · rename_i v hv
          have h4 := receive_loop_advances env rf zr p fuel s _ v h3 hv
          split at hr
          · exact Option.noConfusion hr
          · rename_i ret s4 hf
            cases hr
            exact http_cleanup_advances env rf zr s s4
              (finish_receive_advances env zr p s v (ret, s4) h4 hf)

theorem http_with_receiver_advances (env : Env W) (fuel : Nat) (type : Int) (u : CStr)
    (rf zr : Nat) (s t : St W) (r : Int × St W) (h : Advances s t)
    (hr : http_with_receiver env fuel type u rf zr t = some r) : Advances s r.2 := by
  unfold http_with_receiver at hr
  dsimp only at hr
  split at hr
  · cases hr
    repeat (first
      | exact h
      | refine Advances.say ?_ rfl
      | refine Advances.step ?_ rfl rfl
      | refine Advances.emit ?_ rfl rfl)
  · refine http_transfer_advances env fuel type _ _ _ s _ r ?_ hr
    repeat (first
      | exact h
      | refine Advances.say ?_ rfl
      | refine Advances.step ?_ rfl rfl
      | refine Advances.emit ?_ rfl rfl)

theorem http_with_handle_advances (env : Env W) (fuel : Nat) (type : Int) (u : CStr)
    (rf : Nat) (s t : St W) (r : Int × St W) (h : Advances s t)
    (hr : http_with_handle env fuel type u rf t = some r) : Advances s r.2 := by
  unfold http_with_handle at hr
  dsimp only at hr
  split at hr
  · cases hr
    repeat (first
      | exact h
      | refine Advances.say ?_ rfl
      | refine Advances.step ?_ rfl rfl
      | refine Advances.emit ?_ rfl rfl)
  · refine http_with_receiver_advances env fuel type _ _ _ s _ r ?_ hr
    exact Advances.step h rfl rfl

theorem fetch_remaining_blocks_http_advances (env : Env W) (fuel : Nat) (s t : St W)
    (url : CStr) (type : Int) (r : Int × St W) (h : Advances s t)
    (hr : fetch_remaining_blocks_http env fuel t url type = some r) : Advances s r.2 := by
  unfold fetch_remaining_blocks_http at hr
  dsimp only at hr
  split at hr
  · cases hr
    exact Advances.emit h rfl rfl
  · split at hr
    · cases hr
      exact Advances.step h rfl rfl
    · refine http_with_handle_advances env fuel type _ _ s _ r ?_ hr
      exact Advances.step h rfl rfl

/-! ### The scheduler -/

theorem sched_body_advances (env : Env W) (http : Downloader W) (url : List CStr)
    (utype : Int) (n : Nat)
    (hhttp : ∀ s t u ty r, Advances s t → http t u ty = some r → Advances s r.2)
    (s : St W) (x y : Sched × St W) (h : Advances s x.2)
    (hr : sched_body env http url utype n x = some y) : Advances s y.2 := by
  unfold sched_body at hr
  dsimp only at hr
  split at hr
  · exact Option.noConfusion hr
  · split at hr
    · split at hr
      · exact Option.noConfusion hr
      · split at hr
        · exact Option.noConfusion hr
        · rename_i rc s2 hh
          have h2 := hhttp s _ _ _ (rc, s2) (h.with_seed _) hh
          split at hr
          · cases hr
            exact Advances.emit h2 rfl rfl
          · cases hr
            exact h2
    · cases hr
      exact h.with_seed _

theorem sched_loop_advances (env : Env W) (http : Downloader W) (url : List CStr)
    (utype : Int) (n : Nat)
    (hhttp : ∀ s t u ty r, Advances s t → http t u ty = some r → Advances s r.2)
    (fuel : Nat) (s : St W) (x y : Sched × St W) (h : Advances s x.2)
    (hr : sched_loop env http url utype n fuel x = some y) : Advances s y.2 := by
  induction fuel generalizing x with
  | zero => exact Option.noConfusion hr
  | succ k ih =>
    unfold sched_loop at hr
    split at hr
    · split at hr
      · exact Option.noConfusion hr
      · rename_i z hz
        exact ih z (sched_body_advances env http url utype n hhttp s x z h hz) hr
    · cases hr
      exact h

theorem fetch_remaining_blocks_advances (env : Env W) (fuel : Nat) (s t : St W)
    (r : Int × St W) (h : Advances s t) (hr : fetch_remaining_blocks env fuel t = some r) :
    Advances s r.2 := by
  unfold fetch_remaining_blocks fetch_remaining_blocks_with at hr
  simp only [Option.map_eq_some'] at hr
  obtain ⟨a, ha, rfl⟩ := hr
  split at ha
  · cases ha
    exact Advances.emit h rfl rfl
  · split at ha
    · exact Option.noConfusion ha
    · rename_i y hy
      cases ha
      exact sched_loop_advances env _ _ _ _
        (fun s t u ty r hst hr => fetch_remaining_blocks_http_advances env fuel s t u ty r hst hr)
        fuel s _ y h hy

theorem count_zero_set (l : List Int) (i : Nat) (h : l[i]? = some 0) :
    (l.set i 1).count 0 + 1 = l.count 0 := by
  induction l generalizing i with
  | nil => simp at h
  | cons x xs ih =>
    cases i with
    | zero =>
      simp only [List.getElem?_cons_zero, Option.some.injEq] at h
      subst h
      simp [List.count_cons]
    | succ j =>
      simp only [List.getElem?_cons_succ] at h
      have := ih j h
      simp only [List.set_cons_succ, List.count_cons]
      omega

theorem sched_init_inv (n : Nat) : SchedInv n (sched_init n) := by
  refine ⟨by simp [sched_init], ?_, ?_, ?_, ?_⟩
  · intro v hv
    simp only [sched_init, List.mem_replicate] at hv
    exact Or.inl hv.2
  · simp [sched_init, List.count_replicate_self]
  · intro c hc
    simp [sched_init] at hc
  · intro newer i rc older h
    simp [sched_init] at h

theorem sched_body_inv (env : Env W) (http : Downloader W) (url : List CStr)
    (utype : Int) (n : Nat) (x y : Sched × St W) (hi : SchedInv n x.1)
    (hr : sched_body env http url utype n x = some y) : SchedInv n y.1 := by
  unfold sched_body at hr
  dsimp only at hr
  split at hr
  · exact Option.noConfusion hr
  · rename_i st hst
    split at hr
    · rename_i hz
      subst hz
      split at hr
      · exact Option.noConfusion hr
      · split at hr
        · exact Option.noConfusion hr
        · rename_i rc s2 hh
          split at hr
          · rename_i hrc
            have hrc' : rc ≠ 0 := by simpa using hrc
            cases hr
            have hlt : (env.rand_r x.2.random_seed).1 % n < x.1.status.length := by
              by_contra hge
              rw [List.getElem?_eq_none (by omega)] at hst
              exact Option.noConfusion hst
            refine ⟨by simp [hi.len], ?_, ?_, ?_, ?_⟩
            · intro v hv
              rcases List.mem_or_eq_of_mem_set hv with h | h
              · exact hi.binary v h
              · exact Or.inr h
            · have hcs := count_zero_set _ _ hst
              have hc := hi.count
              show x.1.ok_urls - 1 =
                ((List.count 0 (x.1.status.set ((env.rand_r x.2.random_seed).1 % n) 1) : Nat) : Int)
              rw [hc]
              omega
            · intro c hc hne
              simp only [List.mem_cons] at hc
              rcases hc with rfl | hc
              · simp [List.getElem?_set_self, hlt]
              · have := hi.failed c hc hne
                by_cases he : (env.rand_r x.2.random_seed).1 % n = c.1
                · rw [← he, hst] at this
                  exact absurd this (by simp)
                · rw [List.getElem?_set_ne he]
                  exact this
            · intro newer i rc0 older hsplit hne rc1 hmem
              cases newer with
              | nil => simp at hmem
              | cons c cs =>
                simp only [List.cons_append, List.cons.injEq] at hsplit
                obtain ⟨hc, hrest⟩ := hsplit
                simp only [List.mem_cons] at hmem
                rcases hmem with hm | hm
                · have hfail := hi.failed (i, rc0) (by rw [hrest]; simp) hne
                  rw [← hc] at hm
                  simp only [Prod.mk.injEq] at hm
                  rw [hm.1, hst] at hfail
                  exact absurd hfail (by simp)
                · exact hi.once cs i rc0 older hrest hne rc1 hm
          · rename_i hrc
            have hrc' : rc = 0 := by simpa using hrc
            cases hr
            refine ⟨hi.len, hi.binary, hi.count, ?_, ?_⟩
            · intro c hc hne
              simp only [List.mem_cons] at hc
              rcases hc with rfl | hc
              · exact absurd hrc' hne
              · exact hi.failed c hc hne
            · intro newer i rc0 older hsplit hne rc1 hmem
              cases newer with
              | nil => simp at hmem
              | cons c cs =>
                simp only [List.cons_append, List.cons.injEq] at hsplit
                obtain ⟨hc, hrest⟩ := hsplit
                simp only [List.mem_cons] at hmem
                rcases hmem with hm | hm
                · have hfail := hi.failed (i, rc0) (by rw [hrest]; simp) hne
                  rw [← hc] at hm
                  simp only [Prod.mk.injEq] at hm
                  rw [hm.1, hst] at hfail
                  exact absurd hfail (by simp)
                · exact hi.once cs i rc0 older hrest hne rc1 hm
    · cases hr
      exact hi

theorem sched_iter_inv (env : Env W) (http : Downloader W) (url : List CStr)
    (utype : Int) (n : Nat) (k : Nat) (x y : Sched × St W) (hi : SchedInv n x.1)
    (hr : sched_iter env http url utype n k x = some y) : SchedInv n y.1 := by
  induction k generalizing x with
  | zero =>
    simp only [sched_iter] at hr
    cases hr
    exact hi
  | succ j ih =>
    simp only [sched_iter] at hr
    split at hr
    · simp only [Option.bind_eq_some] at hr
      obtain ⟨z, hz, hy⟩ := hr
      exact ih z (sched_body_inv env http url utype n x z hi hz) hy
    · exact Option.noConfusion hr

theorem sched_loop_iter (env : Env W) (http : Downloader W) (url : List CStr)
    (utype : Int) (n : Nat) (fuel : Nat) (x y : Sched × St W)
    (hr : sched_loop env http url utype n fuel x = some y) :
    ∃ k, sched_iter env http url utype n k x = some y ∧ sched_guard env y = false := by
  induction fuel generalizing x with
  | zero => exact Option.noConfusion hr
  | succ j ih =>
    unfold sched_loop at hr
    split at hr
    · rename_i hg
      split at hr
      · exact Option.noConfusion hr
      · rename_i z hz
        obtain ⟨k, hk, hgy⟩ := ih z hr
        exact ⟨k + 1, by simp [sched_iter, hg, hz, hk], hgy⟩
    · rename_i hg
      cases hr
      exact ⟨0, rfl, by simpa using hg⟩

theorem all_poisoned_of_count_zero (l : List Int) (hb : ∀ v ∈ l, v = 0 ∨ v = 1)
    (hc : l.count 0 = 0) (i : Nat) (hi : i < l.length) : l[i]? = some 1 := by
  have hmem : l[i] ∈ l := List.getElem_mem hi
  rcases hb _ hmem with h | h
  · have : 0 < l.count 0 := List.count_pos_iff.2 (h ▸ hmem)
    omega
  · rw [List.getElem?_eq_getElem hi, h]

/-! ### Termination of the scheduler loop -/

theorem sched_loop_succ (env : Env W) (http : Downloader W) (url : List CStr)
    (utype : Int) (n : Nat) (fuel : Nat) (x y z : Sched × St W)
    (hg : sched_guard env x = true) (hb : sched_body env http url utype n x = some y)
    (hl : sched_loop env http url utype n fuel y = some z) :
    sched_loop env http url utype n (fuel + 1) x = some z := by
  simp [sched_loop, hg, hb, hl]

theorem sched_loop_stop (env : Env W) (http : Downloader W) (url : List CStr)
    (utype : Int) (n : Nat) (x : Sched × St W) (hg : sched_guard env x = false) :
    sched_loop env http url utype n 1 x = some x := by
  simp [sched_loop, hg]

theorem sched_iter_snoc (env : Env W) (http : Downloader W) (url : List CStr)
    (utype : Int) (n : Nat) (k : Nat) :
    ∀ a x y : Sched × St W, sched_iter env http url utype n k a = some x →
      sched_guard env x = true → sched_body env http url utype n x = some y →
      sched_iter env http url utype n (k + 1) a = some y := by
  induction k with
  | zero =>
    intro a x y hx hg hb
    simp only [sched_iter] at hx
    cases hx
    simp [sched_iter, hg, hb]
  | succ j ih =>
    intro a x y hx hg hb
    simp only [sched_iter] at hx
    split at hx
    · rename_i hga
      simp only [Option.bind_eq_some] at hx
      obtain ⟨b, hab, hbx⟩ := hx
      have := ih b x y hbx hg hb
      rw [sched_iter]
      simp only [hga, if_true, hab, Option.some_bind]
      exact this
    · exact Option.noConfusion hx

/-- From a state of the run whose next draw picks a usable URL the loop ends,
provided it ends from every state of the run with fewer usable URLs. `R` holds of
the states of the run. -/
theorem sched_terminates_usable (env : Env W) (http : Downloader W) (url : List CStr)
    (utype : Int) (R : Sched × St W → Prop)
    (hR : ∀ x y, R x → sched_guard env x = true →
      sched_body env http url utype url.length x = some y → R y)
    (hprog : ∀ x tryurl, R x → sched_guard env x = true →
      x.1.status[(env.rand_r x.2.random_seed).1 % url.length]? = some 0 →
      url[(env.rand_r x.2.random_seed).1 % url.length]? = some tryurl →
      ∃ r, http { x.2 with random_seed := (env.rand_r x.2.random_seed).2 } tryurl utype =
          some r ∧ (r.1 = 0 → 2 ≤ env.zsync_status r.2.world))
    (m : Nat)
    (ih : ∀ m', m' < m → ∀ x : Sched × St W, R x → SchedInv url.length x.1 →
      x.1.status.count 0 = m' →
      ∃ fuel y, sched_loop env http url utype url.length fuel x = some y)
    (x : Sched × St W) (hx : R x) (hi : SchedInv url.length x.1)
    (hm : x.1.status.count 0 = m) (hg : sched_guard env x = true)
    (hu : x.1.status[(env.rand_r x.2.random_seed).1 % url.length]? = some 0) :
    ∃ fuel y, sched_loop env http url utype url.length fuel x = some y := by
  have hilt : (env.rand_r x.2.random_seed).1 % url.length < url.length := by
    have hlen := hi.len
    by_contra hge
    rw [List.getElem?_eq_none (by omega)] at hu
    exact Option.noConfusion hu
  obtain ⟨tryurl, htry⟩ :
      ∃ tryurl, url[(env.rand_r x.2.random_seed).1 % url.length]? = some tryurl :=
    ⟨_, List.getElem?_eq_getElem hilt⟩
  obtain ⟨r, hr, hdone⟩ := hprog x tryurl hx hg hu htry
  obtain ⟨rc, s2⟩ := r
  by_cases hrc : rc = 0
  · have hb : sched_body env http url utype url.length x =
        some ({ x.1 with calls :=
          ((env.rand_r x.2.random_seed).1 % url.length, rc) :: x.1.calls }, s2) := by
      simp [sched_body, hu, htry, hr, hrc]
    have hg2 : sched_guard env ({ x.1 with calls :=
          ((env.rand_r x.2.random_seed).1 % url.length, rc) :: x.1.calls }, s2) = false := by
      have hst2 : 2 ≤ env.zsync_status s2.world := hdone hrc
      simp only [sched_guard, Bool.and_eq_false_imp, decide_eq_true_eq]
      intro hlt
      omega
    exact ⟨2, _, sched_loop_succ env http url utype _ 1 x _ _ hg hb
      (sched_loop_stop env http url utype _ _ hg2)⟩
  · have hb : sched_body env http url utype url.length x =
        some ({ status := x.1.status.set ((env.rand_r x.2.random_seed).1 % url.length) 1,
                ok_urls := x.1.ok_urls - 1,
                calls := ((env.rand_r x.2.random_seed).1 % url.length, rc) :: x.1.calls },
              s2.emit (Event.print "failed to retrieve from" tryurl)) := by
      simp [sched_body, hu, htry, hr, hrc]
    have hinv := sched_body_inv env http url utype url.length x _ hi hb
    have hcnt := count_zero_set x.1.status _ hu
    obtain ⟨fuel, y, hy⟩ := ih (m - 1) (by omega) _ (hR x _ hx hg hb) hinv (by
      show List.count 0 (x.1.status.set ((env.rand_r x.2.random_seed).1 % url.length) 1) = m - 1
      omega)
    exact ⟨fuel + 1, y, sched_loop_succ env http url utype _ fuel x _ _ hg hb hy⟩

/-- From a state of the run where URL `i` is usable and the `k`-th draw from now
picks it, the loop ends, provided it ends from every state of the run with fewer
usable URLs. -/
theorem sched_terminates_hit (env : Env W) (http : Downloader W) (url : List CStr)
    (utype : Int) (R : Sched × St W → Prop)
    (hR : ∀ x y, R x → sched_guard env x = true →
      sched_body env http url utype url.length x = some y → R y)
    (hprog : ∀ x tryurl, R x → sched_guard env x = true →
      x.1.status[(env.rand_r x.2.random_seed).1 % url.length]? = some 0 →
      url[(env.rand_r x.2.random_seed).1 % url.length]? = some tryurl →
      ∃ r, http { x.2 with random_seed := (env.rand_r x.2.random_seed).2 } tryurl utype =
          some r ∧ (r.1 = 0 → 2 ≤ env.zsync_status r.2.world))
    (m : Nat)
    (ih : ∀ m', m' < m → ∀ x : Sched × St W, R x → SchedInv url.length x.1 →
      x.1.status.count 0 = m' →
      ∃ fuel y, sched_loop env http url utype url.length fuel x = some y)
    (i : Nat) (k : Nat) :
    ∀ x : Sched × St W, R x → SchedInv url.length x.1 → x.1.status.count 0 = m →
      sched_guard env x = true → x.1.status[i]? = some 0 →
      (draw_seq env.rand_r k x.2.random_seed).1 % url.length = i →
      ∃ fuel y, sched_loop env http url utype url.length fuel x = some y := by
  induction k with
  | zero =>
    intro x hx hi hm hg hu hd
    simp only [draw_seq] at hd
    exact sched_terminates_usable env http url utype R hR hprog m ih x hx hi hm hg
      (by rw [hd]; exact hu)
  | succ k ihk =>
    intro x hx hi hm hg hu hd
    by_cases h0 : x.1.status[(env.rand_r x.2.random_seed).1 % url.length]? = some 0
    · exact sched_terminates_usable env http url utype R hR hprog m ih x hx hi hm hg h0
    · have hilt : i < url.length := by
        rw [← hi.len]
        by_contra hge
        rw [List.getElem?_eq_none (by omega)] at hu
        exact Option.noConfusion hu
      have hlt : (env.rand_r x.2.random_seed).1 % url.length < x.1.status.length := by
        rw [hi.len]
        exact Nat.mod_lt _ (by omega)
      have hst : x.1.status[(env.rand_r x.2.random_seed).1 % url.length]? =
          some (x.1.status[(env.rand_r x.2.random_seed).1 % url.length]) :=
        List.getElem?_eq_getElem hlt
      have hne : ¬ x.1.status[(env.rand_r x.2.random_seed).1 % url.length] = 0 := by
        intro e
        rw [e] at hst
        exact h0 hst
      have hb : sched_body env http url utype url.length x =
          some (x.1, { x.2 with random_seed := (env.rand_r x.2.random_seed).2 }) := by
        simp [sched_body, hst, hne]
      have hg2 : sched_guard env
          (x.1, { x.2 with random_seed := (env.rand_r x.2.random_seed).2 }) = true := hg
      obtain ⟨fuel, y, hy⟩ := ihk (x.1, { x.2 with random_seed := (env.rand_r x.2.random_seed).2 })
        (hR x _ hx hg hb) hi hm hg2 hu (by simpa [draw_seq] using hd)
      exact ⟨fuel + 1, y, sched_loop_succ env http url utype _ fuel x _ _ hg hb hy⟩

theorem sched_terminates_from (env : Env W) (http : Downloader W) (url : List CStr)
    (utype : Int) (R : Sched × St W → Prop)
    (hR : ∀ x y, R x → sched_guard env x = true →
      sched_body env http url utype url.length x = some y → R y)
    (hprog : ∀ x tryurl, R x → sched_guard env x = true →
      x.1.status[(env.rand_r x.2.random_seed).1 % url.length]? = some 0 →
      url[(env.rand_r x.2.random_seed).1 % url.length]? = some tryurl →
      ∃ r, http { x.2 with random_seed := (env.rand_r x.2.random_seed).2 } tryurl utype =
          some r ∧ (r.1 = 0 → 2 ≤ env.zsync_status r.2.world))
    (hfair : ∀ seed i, i < url.length →
      ∃ k, (draw_seq env.rand_r k seed).1 % url.length = i)
    (m : Nat) :
    ∀ x : Sched × St W, R x → SchedInv url.length x.1 → x.1.status.count 0 = m →
      ∃ fuel y, sched_loop env http url utype url.length fuel x = some y := by
  induction m using Nat.strong_induction_on with
  | _ m ih =>
    intro x hx hi hm
    by_cases hg : sched_guard env x = true
    · have hok : x.1.ok_urls ≠ 0 := by
        simp only [sched_guard, Bool.and_eq_true, decide_eq_true_eq, bne_iff_ne] at hg
        exact hg.2
      have hpos : 0 < x.1.status.count 0 := by
        have := hi.count
        omega
      have hmem : (0 : Int) ∈ x.1.status := List.count_pos_iff.1 hpos
      obtain ⟨i, hil, hix⟩ := List.getElem_of_mem hmem
      have hu : x.1.status[i]? = some 0 := by
        rw [List.getElem?_eq_getElem hil, hix]
      obtain ⟨k, hk⟩ := hfair x.2.random_seed i (by rw [← hi.len]; exact hil)
      exact sched_terminates_hit env http url utype R hR hprog m
        (fun m' hm' x' hx' hi' hc' => ih m' hm' x' hx' hi' hc') i k x hx hi hm hg hu hk
    · have hg' : sched_guard env x = false := by simpa using hg
      exact ⟨1, x, sched_loop_stop env http url utype _ x hg'⟩

/-! ### Claims on the scheduler -/

/-- C4: with one candidate URL whose download fails and nothing of the target
verified, `fetch_remaining_blocks` leaves its loop with the session incomplete
(`zsync_status` 0), every URL poisoned, and returns 0, not a non-zero code. -/
theorem fetch_remaining_blocks_zero_when_exhausted :
    (fetch_remaining_blocks_with (simEnv simRelative)
        (fetch_remaining_blocks_http (simEnv simRelative) 2) 2 simStart).map
      (fun r => (r.1, (simEnv simRelative).zsync_status r.2.1.world, r.2.2)) =
      some (0, 0, some { status := [1], ok_urls := 0, calls := [(0, -1)] }) ∧
    (fetch_remaining_blocks (simEnv simRelative) 2 simStart).map (fun r => r.1) = some 0 := by
  constructor <;> rfl

theorem sched_body_keeps_poisoned (env : Env W) (http : Downloader W) (url : List CStr)
    (utype : Int) (n : Nat) (x y : Sched × St W)
    (hr : sched_body env http url utype n x = some y) (i : Nat)
    (hp : x.1.status[i]? = some 1) : y.1.status[i]? = some 1 := by
  unfold sched_body at hr
  dsimp only at hr
  split at hr
  · exact Option.noConfusion hr
  · split at hr
    · split at hr
      · exact Option.noConfusion hr
      · split at hr
        · exact Option.noConfusion hr
        · split at hr
          · cases hr
            show (x.1.status.set ((env.rand_r x.2.random_seed).1 % n) 1)[i]? = some 1
            by_cases he : (env.rand_r x.2.random_seed).1 % n = i
            · have hlt : i < x.1.status.length := by
                by_contra hge
                rw [List.getElem?_eq_none (by omega)] at hp
                exact Option.noConfusion hp
              rw [he]
              simp [List.getElem?_set_self, hlt]
            · rw [List.getElem?_set_ne he]
              exact hp
          · cases hr
            exact hp
    · cases hr
      exact hp

/-- C5: on a non-null candidate URL list `url`, (1) whenever
`fetch_remaining_blocks` returns, the session status is at least 2 or every URL
is poisoned; (2) after any number of loop iterations `ok_urls` is the number of
URLs whose status is 0; (3) a URL whose download failed is poisoned, and the log
of downloader calls holds no later call for its index; (4) a loop iteration
leaves a poisoned URL poisoned. -/
theorem fetch_remaining_blocks_poisoning (env : Env W) (http : Downloader W) (s : St W)
    (url : List CStr) (hurl : (env.zsync_get_urls s.world).1 = some url) :
    (∀ fuel rv t loc, fetch_remaining_blocks_with env http fuel s = some (rv, t, loc) →
      ∃ l, loc = some l ∧ l.status.length = url.length ∧
        (2 ≤ env.zsync_status t.world ∨ ∀ i, i < url.length → l.status[i]? = some 1)) ∧
    (∀ k y, sched_iter env http url (env.zsync_get_urls s.world).2 url.length k
        (sched_init url.length, s) = some y →
      y.1.ok_urls = ((y.1.status.count 0 : Nat) : Int) ∧
      (∀ c ∈ y.1.calls, c.2 ≠ 0 → y.1.status[c.1]? = some 1) ∧
      (∀ newer i rc older, y.1.calls = newer ++ (i, rc) :: older → rc ≠ 0 →
        ∀ rc', (i, rc') ∉ newer) ∧
      (∀ z, sched_body env http url (env.zsync_get_urls s.world).2 url.length y = some z →
        ∀ i : Nat, y.1.status[i]? = some 1 → z.1.status[i]? = some 1)) := by
  constructor
  · intro fuel rv t loc h
    unfold fetch_remaining_blocks_with at h
    dsimp only at h
    rw [hurl] at h
    dsimp only at h
    split at h
    · exact Option.noConfusion h
    · rename_i y hy
      cases h
      obtain ⟨k, hk, hg⟩ := sched_loop_iter env http url _ _ fuel _ y hy
      have hinv := sched_iter_inv env http url _ _ k _ y (sched_init_inv url.length) hk
      refine ⟨y.1, rfl, hinv.len, ?_⟩
      simp only [sched_guard, Bool.and_eq_false_imp, decide_eq_true_eq, bne_eq_false_iff_eq]
        at hg
      by_cases hlt : env.zsync_status y.2.world < 2
      · right
        intro i hi
        have hc := hinv.count
        rw [hg hlt] at hc
        exact all_poisoned_of_count_zero y.1.status hinv.binary (by omega) i
          (by rw [hinv.len]; exact hi)
      · left
        omega
  · intro k y hk
    have hinv := sched_iter_inv env http url _ _ k _ y (sched_init_inv url.length) hk
    exact ⟨hinv.count, hinv.failed, hinv.once,
      fun z hz i hp => sched_body_keeps_poisoned env http url _ _ y z hz i hp⟩

/-- C5 at a concrete run: one candidate URL whose download fails. -/
theorem fetch_remaining_blocks_poisoning_witness :
    ((simEnv simRelative).zsync_get_urls simStart.world).1 = some ["f".toList] ∧
    ∃ t l, fetch_remaining_blocks_with (simEnv simRelative)
        (fetch_remaining_blocks_http (simEnv simRelative) 2) 2 simStart = some (0, t, some l) ∧
      (2 ≤ (simEnv simRelative).zsync_status t.world ∨
        ∀ i, i < ["f".toList].length → l.status[i]? = some 1) := by
  refine ⟨rfl, _, _, rfl, ?_⟩
  obtain ⟨l, hl, _, h⟩ := (fetch_remaining_blocks_poisoning (simEnv simRelative)
    (fetch_remaining_blocks_http (simEnv simRelative) 2) simStart ["f".toList] rfl).1
    2 0 _ _ rfl
  cases hl
  exact h

/-! ### The concrete world, field by field -/

@[simp] theorem simEnv_make_url_absolute (c : Sim) (r : Option CStr) (u : CStr) :
    (simEnv c).make_url_absolute r u = if c.absolute then some u else none := rfl
@[simp] theorem simEnv_range_fetch_start (c : Sim) (w : Unit) (u : CStr) (r : Option CStr) :
    (simEnv c).range_fetch_start w u r = (some 5, ()) := rfl
@[simp] theorem simEnv_zsync_begin_receive (c : Sim) (w : Unit) (ty : Int) :
    (simEnv c).zsync_begin_receive w ty = (if c.receiver then some 6 else none, ()) := rfl
@[simp] theorem simEnv_malloc (c : Sim) (w : Unit) (n : Nat) :
    (simEnv c).malloc w n = (true, ()) := rfl
@[simp] theorem simEnv_zsync_needed_byte_ranges (c : Sim) (w : Unit) (ty : Int) :
    (simEnv c).zsync_needed_byte_ranges w ty = (c.ranges, ()) := rfl
@[simp] theorem simEnv_get_range_block (c : Sim) (w : Unit) (rf n : Nat) :
    (simEnv c).get_range_block w rf n = (c.block, ()) := rfl
@[simp] theorem simEnv_zsync_receive_data (c : Sim) (w : Unit) (zr : Nat)
    (b : Option (List Nat)) (o : Option Int) (l : Int) :
    (simEnv c).zsync_receive_data w zr b o l = (0, ()) := rfl
@[simp] theorem simEnv_zsync_status (c : Sim) (w : Unit) :
    (simEnv c).zsync_status w = c.status := rfl
@[simp] theorem simEnv_rand_r (c : Sim) (seed : Nat) :
    (simEnv c).rand_r seed = (seed + c.stride, seed + c.stride) := rfl
@[simp] theorem simEnv_range_fetch_bytes_down (c : Sim) (w : Unit) (rf : Nat) :
    (simEnv c).range_fetch_bytes_down w rf = c.bytes_down := rfl
@[simp] theorem simEnv_progress_routines (c : Sim) : (simEnv c).progress_routines = none := rfl

/-! ### Two worlds in which the scheduler loop never ends -/

/-- In a concrete world where the URL resolves, a receiver opens, ranges are
needed and the first read is at the end of the data, a quiet download returns 0. -/
theorem sim_http_eof (c : Sim) (habs : c.absolute = true) (hrecv : c.receiver = true)
    (l : List (Int × Int)) (hranges : c.ranges = some l) (hl : l.length ≠ 0)
    (hblk : c.block = { len := 0, offset := none, data := [] })
    (k : Nat) (t : St Unit) (u : CStr) (ty : Int) (hq : t.quiet = true) :
    ∃ t', fetch_remaining_blocks_http (simEnv c) (k + 1) t u ty = some (0, t') ∧
      t'.quiet = true := by
  have e1 : ∀ (s : St Unit), s.quiet = true →
      begin_progress (simEnv c) 5 u s = some (0, s) := by
    intro s hs
    simp [begin_progress, hs]
  have e2 : ∀ (s : St Unit), s.quiet = true →
      close_progress (simEnv c) 0 0 s = some s := by
    intro s hs
    simp [close_progress, hs]
  have e3 : ∀ (s : St Unit), receive_loop (simEnv c) 5 6 0 (k + 1)
        { ret := 0, len := 0, zoffset := none, st := s } =
      some { ret := 0, len := 0, zoffset := none,
             st := s.step () (Event.get_range_block 5 { len := 0, offset := none, data := [] }) } := by
    intro s
    simp [receive_loop, hblk]
  simp only [fetch_remaining_blocks_http, http_with_handle, http_with_receiver,
    http_transfer, simEnv_make_url_absolute,
    simEnv_range_fetch_start, simEnv_zsync_begin_receive, simEnv_malloc,
    simEnv_zsync_needed_byte_ranges, habs, hrecv, hranges, hl, if_true, if_false,
    Bool.not_true, Bool.false_eq_true]
  rw [e1 _ (by simp [hq])]
  simp only []
  rw [e3]
  simp only [finish_receive, flush_receive, lt_self_iff_false, if_false,
    simEnv_zsync_receive_data]
  rw [e2 _ (by simp [hq])]
  simp [http_cleanup, hq]

/-- While the session status stays below 2 and every download that returns
returns 0, the loop does not end from a state with `ok_urls` non-zero. -/
theorem sched_loop_none_of_stall (env : Env W) (http : Downloader W) (url : List CStr)
    (utype : Int) (n : Nat) (hstatus : ∀ w, env.zsync_status w < 2)
    (hzero : ∀ t u ty r, http t u ty = some r → r.1 = 0) (fuel : Nat) :
    ∀ x : Sched × St W, x.1.ok_urls ≠ 0 → sched_loop env http url utype n fuel x = none := by
  induction fuel with
  | zero => intro x _; rfl
  | succ k ih =>
    intro x hx
    have hg : sched_guard env x = true := by
      simp [sched_guard, hstatus, hx]
    simp only [sched_loop, hg, if_true]
    cases hb : sched_body env http url utype n x with
    | none => rfl
    | some y =>
      simp only []
      apply ih
      unfold sched_body at hb
      dsimp only at hb
      split at hb
      · exact Option.noConfusion hb
      · split at hb
        · split at hb
          · exact Option.noConfusion hb
          · split at hb
            · exact Option.noConfusion hb
            · rename_i rc s2 hh
              have hz : rc = 0 := hzero _ _ _ _ hh
              subst hz
              simp only [bne_self_eq_false, Bool.false_eq_true, if_false] at hb
              cases hb
              exact hx
        · cases hb
          exact hx

/-- While the session status stays below 2, the loop does not end from a state
where URL 0 of 2 is poisoned, URL 1 is usable, and `rand_r` keeps drawing 0. -/
theorem sched_loop_none_of_stuck (env : Env W) (http : Downloader W) (url : List CStr)
    (utype : Int) (hstatus : ∀ w, env.zsync_status w < 2)
    (hrand : env.rand_r 0 = (0, 0)) (fuel : Nat) :
    ∀ x : Sched × St W, x.1.status = [1, 0] → x.1.ok_urls = 1 → x.2.random_seed = 0 →
      sched_loop env http url utype 2 fuel x = none := by
  induction fuel with
  | zero => intro x _ _ _; rfl
  | succ k ih =>
    intro x hs ho hr
    have hg : sched_guard env x = true := by
      simp [sched_guard, hstatus, ho]
    have hb : sched_body env http url utype 2 x =
        some (x.1, { x.2 with random_seed := 0 }) := by
      simp [sched_body, hr, hrand, hs]
    simp only [sched_loop, hg, if_true, hb]
    exact ih _ hs ho rfl

/-- The same two states seen from inside: every number of iterations can be run,
each entered with the loop condition true. -/
theorem sched_iter_some_of_stall (k : Nat) :
    ∀ x : Sched × St Unit, x.1.status = [0] → x.1.ok_urls = 1 → x.2.quiet = true →
      (sched_iter (simEnv simStall) (fetch_remaining_blocks_http (simEnv simStall) 1)
        ["f".toList] 0 1 k x).isSome = true := by
  induction k with
  | zero => intro x _ _ _; rfl
  | succ j ih =>
    intro x hs ho hq
    have hg : sched_guard (simEnv simStall) x = true := by
      simp [sched_guard, ho, simStall, simRelative]
    obtain ⟨t', ht', hq'⟩ := sim_http_eof simStall rfl rfl [(0, 9)] rfl (by decide) rfl 0
      { x.2 with random_seed := x.2.random_seed + 1 } "f".toList 0 hq
    have hb : sched_body (simEnv simStall) (fetch_remaining_blocks_http (simEnv simStall) 1)
        ["f".toList] 0 1 x = some ({ x.1 with calls := (0, 0) :: x.1.calls }, t') := by
      have hstride : simStall.stride = 1 := rfl
      have ht'' := ht'
      simp only [Nat.zero_add] at ht''
      simp only [sched_body, simEnv_rand_r, hstride, Nat.mod_one, hs, List.getElem?_cons_zero,
        if_true, ht'']
      simp
    simp only [sched_iter, hg, if_true, hb, Option.some_bind]
    exact ih _ hs ho hq'

theorem sched_iter_some_of_stuck (k : Nat) :
    ∀ x : Sched × St Unit, x.1.status = [1, 0] → x.1.ok_urls = 1 → x.2.random_seed = 0 →
      (sched_iter (simEnv simStuck) (fetch_remaining_blocks_http (simEnv simStuck) 1)
        ["f".toList, "g".toList] 0 2 k x).isSome = true := by
  induction k with
  | zero => intro x _ _ _; rfl
  | succ j ih =>
    intro x hs ho hr
    have hg : sched_guard (simEnv simStuck) x = true := by
      simp [sched_guard, ho, simStuck, simRelative]
    have hstride : simStuck.stride = 0 := rfl
    have hb : sched_body (simEnv simStuck) (fetch_remaining_blocks_http (simEnv simStuck) 1)
        ["f".toList, "g".toList] 0 2 x = some (x.1, { x.2 with random_seed := 0 }) := by
      simp [sched_body, hr, hs, hstride]
    simp only [sched_iter, hg, if_true, hb, Option.some_bind]
    exact ih _ hs ho rfl

/-! ### Claim C6 -/

theorem picky_draw (k : Nat) :
    ∀ seed, draw_seq pickyEnv.rand_r k seed = ((seed + k) / 2, seed + k + 1) := by
  induction k with
  | zero => intro seed; rfl
  | succ j ih =>
    intro seed
    have h : draw_seq pickyEnv.rand_r (j + 1) seed = draw_seq pickyEnv.rand_r j (seed + 1) := rfl
    rw [h, ih]
    have e : seed + 1 + j = seed + (j + 1) := by omega
    rw [e]

theorem bail_advances (ret : Int) (o : Option CStr) (s t : St W) (h : Advances s t) :
    Advances s (bail ret o t).st :=
  Advances.say h rfl

/-- A run of `zsync_client` that returns either bailed out before verification,
with a non-zero outcome, or went through `verify_and_install`. -/
theorem zsync_client_cases (env : Env W) (fuel : Nat) (w0 : W)
    (control_file_location : CStr) (keep_control_file_path output_file_path : Option CStr)
    (referrer : Option CStr) (seedfiles : List CStr) (quiet : Bool) (r : Run W)
    (h : zsync_client env fuel w0 control_file_location keep_control_file_path
      output_file_path referrer seedfiles quiet = some r) :
    (r.ret ≠ 0 ∧ Advances (client_start env w0 referrer quiet) r.st ∧
      (r.output_file_path = output_file_path ∨
        ∃ s, r.output_file_path =
          some (effective_output env control_file_location output_file_path s))) ∨
    (∃ s, Advances (client_start env w0 referrer quiet) s ∧
      ∃ out, out = effective_output env control_file_location output_file_path
          (read_zsync_control_file env control_file_location keep_control_file_path zs_ok
            (client_start env w0 referrer quiet)).2.2 ∧
        r = verify_and_install env out (out ++ ".part".toList) s) := by
  unfold zsync_client at h
  dsimp only at h
  have h0 := read_zsync_control_file_advances env control_file_location
    keep_control_file_path zs_ok (client_start env w0 referrer quiet)
  split at h
  · rename_i hne
    cases h
    left
    refine ⟨?_, bail_advances _ _ _ _ h0, Or.inl rfl⟩
    simpa [zs_ok, bail] using hne
  · split at h
    · cases h
      left
      exact ⟨by simp [bail, zs_read_control_file_err], bail_advances _ _ _ _ h0, Or.inl rfl⟩
    · split at h
      · exact Option.noConfusion h
      · rename_i s1 hs1
        have h1 := read_local_data_advances env seedfiles _ _ _ _ s1 h0 hs1
        split at h
        · cases h
          left
          refine ⟨by simp [bail, zs_read_control_file_err], bail_advances _ _ _ _ ?_,
            Or.inr ⟨_, rfl⟩⟩
          refine Advances.emit ?_ rfl rfl
          exact Advances.step h1 rfl rfl
        · split at h
          · exact Option.noConfusion h
          · rename_i rc s3 hf
            have h3 : Advances (client_start env w0 referrer quiet) s3 := by
              refine fetch_remaining_blocks_advances env fuel _ _ (rc, s3) ?_ hf
              exact Advances.step h1 rfl rfl
            split at h
            · cases h
              left
              exact ⟨by simp [bail, zs_download_receive_err],
                bail_advances _ _ _ _ (Advances.emit h3 rfl rfl), Or.inr ⟨_, rfl⟩⟩
            · cases h
              right
              exact ⟨s3, h3, _, rfl, rfl⟩

/-- What `Advances` from the start of the client says of a state: its calls are
all of the kind made before verification, and `http_down` is the sum of the byte
counts reported in them. -/
theorem advances_from_start (env : Env W) (w0 : W) (referrer : Option CStr) (quiet : Bool)
    (s : St W) (h : Advances (client_start env w0 referrer quiet) s) :
    s.quiet = quiet ∧ (∀ e ∈ s.trace, preEv quiet e = true) ∧
      s.http_down = bytes_sum s.trace := by
  obtain ⟨hq, new, ht, hp, hb⟩ := h
  refine ⟨hq, ?_, ?_⟩
  · intro e he
    rw [ht] at he
    simp only [client_start, List.append_nil] at he
    exact hp e he
  · rw [hb, ht]
    simp [client_start]

/-! ### Verification and installation -/

theorem Later.start (C : Event → Bool) (s : St W) : Later C s s :=
  ⟨rfl, rfl, [], rfl, by simp⟩

theorem Later.after_step {C : Event → Bool} {s t : St W} (h : Later C s t) {w : W} {e : Event}
    (he : C e = true) : Later C s (t.step w e) := by
  obtain ⟨q, d, new, ht, hp⟩ := h
  refine ⟨q, d, e :: new, by simp [ht], ?_⟩
  intro x hx
  rcases List.mem_cons.1 hx with rfl | hx
  · exact he
  · exact hp x hx

theorem Later.after_emit {C : Event → Bool} {s t : St W} (h : Later C s t) {e : Event}
    (he : C e = true) : Later C s (t.emit e) := by
  obtain ⟨q, d, new, ht, hp⟩ := h
  refine ⟨q, d, e :: new, by simp [ht], ?_⟩
  intro x hx
  rcases List.mem_cons.1 hx with rfl | hx
  · exact he
  · exact hp x hx

theorem Later.after_say {C : Event → Bool} {s t : St W} (h : Later C s t) {m : String} {a : CStr}
    (he : C (Event.print m a) = true) : Later C s (t.say m a) := by
  unfold St.say
  split
  · exact h
  · exact h.after_emit he

theorem set_mtime_later (env : Env W) (out : CStr) (m : Int) (s t : St W)
    (h : Later (postEv out 0) s t) : Later (postEv out 0) s (set_mtime env out m t).2 := by
  unfold set_mtime
  dsimp only
  split
  · refine Later.after_emit ?_ rfl
    exact Later.after_step h (by simp [postEv])
  · split
    · refine Later.after_emit ?_ rfl
      refine Later.after_step ?_ (by simp [postEv])
      exact Later.after_step h (by simp [postEv])
    · refine Later.after_step ?_ (by simp [postEv])
      exact Later.after_step h (by simp [postEv])

/-- STEP 5 started with `ret = zs_ok`: its outcome is one of `zs_ok`,
`zs_move_received_file_err`, `zs_backup_old_file_err`, and its calls are those
allowed for that outcome, provided those made since `s` were. -/
theorem install_later (env : Env W) (out temp : CStr) (m : Int) (s t : St W)
    (h : ∀ ret : Int, ret ≠ 2 → Later (postEv out ret) s t) :
    ((install env (some out) temp m zs_ok t).1 = 0 ∨
      (install env (some out) temp m zs_ok t).1 = 4 ∨
      (install env (some out) temp m zs_ok t).1 = 5) ∧
    Later (postEv out (install env (some out) temp m zs_ok t).1) s
      (install env (some out) temp m zs_ok t).2 := by
  simp only [install, backup_old_file]
  by_cases ha : env.access t.world out F_OK = 0
  · simp only [ha, if_true]
    by_cases hl : (env.link (t.step (env.unlink t.world (out ++ ".zs-old".toList)).2
        (Event.unlink (out ++ ".zs-old".toList)
          (env.unlink t.world (out ++ ".zs-old".toList)).1)).world out
        (out ++ ".zs-old".toList)).1 = 0
    · simp only [hl, bne_self_eq_false, Bool.false_eq_true, if_false, if_true]
      split
      · rename_i hr
        refine ⟨Or.inl rfl, ?_⟩
        show Later (postEv out 0) s _
        have h3 : Later (postEv out 0) s
            (((t.step (env.unlink t.world (out ++ ".zs-old".toList)).2
              (Event.unlink (out ++ ".zs-old".toList)
                (env.unlink t.world (out ++ ".zs-old".toList)).1)).step
              (env.link (t.step (env.unlink t.world (out ++ ".zs-old".toList)).2
                (Event.unlink (out ++ ".zs-old".toList)
                  (env.unlink t.world (out ++ ".zs-old".toList)).1)).world out
                (out ++ ".zs-old".toList)).2
              (Event.link out (out ++ ".zs-old".toList) 0)).step
              (env.rename ((t.step (env.unlink t.world (out ++ ".zs-old".toList)).2
                (Event.unlink (out ++ ".zs-old".toList)
                  (env.unlink t.world (out ++ ".zs-old".toList)).1)).step
                (env.link (t.step (env.unlink t.world (out ++ ".zs-old".toList)).2
                  (Event.unlink (out ++ ".zs-old".toList)
                    (env.unlink t.world (out ++ ".zs-old".toList)).1)).world out
                  (out ++ ".zs-old".toList)).2
                (Event.link out (out ++ ".zs-old".toList) 0)).world temp out).2
              (Event.rename temp out
                (env.rename ((t.step (env.unlink t.world (out ++ ".zs-old".toList)).2
                  (Event.unlink (out ++ ".zs-old".toList)
                    (env.unlink t.world (out ++ ".zs-old".toList)).1)).step
                  (env.link (t.step (env.unlink t.world (out ++ ".zs-old".toList)).2
                    (Event.unlink (out ++ ".zs-old".toList)
                      (env.unlink t.world (out ++ ".zs-old".toList)).1)).world out
                    (out ++ ".zs-old".toList)).2
                  (Event.link out (out ++ ".zs-old".toList) 0)).world temp out).1)) := by
          refine Later.after_step ?_ (by simpa [postEv] using hr)
          refine Later.after_step ?_ (by simp [postEv])
          exact Later.after_step (h 0 (by decide)) (by simp [postEv])
        split
        · exact set_mtime_later env out m s _ h3
        · exact h3
      · rename_i hr
        refine ⟨Or.inr (Or.inl rfl), ?_⟩
        show Later (postEv out 4) s _
        refine Later.after_emit ?_ rfl
        refine Later.after_emit ?_ rfl
        refine Later.after_step ?_ (by simpa [postEv] using hr)
        refine Later.after_step ?_ (by simp [postEv])
        exact Later.after_step (h 4 (by decide)) (by simp [postEv])
    · have hl' : ((env.link (t.step (env.unlink t.world (out ++ ".zs-old".toList)).2
        (Event.unlink (out ++ ".zs-old".toList)
          (env.unlink t.world (out ++ ".zs-old".toList)).1)).world out
        (out ++ ".zs-old".toList)).1 != 0) = true := by simpa using hl
      simp only [hl', if_true, Bool.false_eq_true, if_false]
      refine ⟨Or.inr (Or.inr rfl), ?_⟩
      show Later (postEv out 5) s _
      refine Later.after_emit ?_ rfl
      refine Later.after_emit ?_ rfl
      refine Later.after_step ?_ (by simpa [postEv] using hl)
      exact Later.after_step (h 5 (by decide)) (by simp [postEv])
  · simp only [ha, if_false, if_true]
    split
    · rename_i hr
      refine ⟨Or.inl rfl, ?_⟩
      show Later (postEv out 0) s _
      have h3 : Later (postEv out 0) s
          (t.step (env.rename t.world temp out).2
            (Event.rename temp out (env.rename t.world temp out).1)) :=
        Later.after_step (h 0 (by decide)) (by simpa [postEv] using hr)
      split
      · exact set_mtime_later env out m s _ h3
      · exact h3
    · rename_i hr
      refine ⟨Or.inr (Or.inl rfl), ?_⟩
      show Later (postEv out 4) s _
      refine Later.after_emit ?_ rfl
      refine Later.after_emit ?_ rfl
      exact Later.after_step (h 4 (by decide)) (by simpa [postEv] using hr)

theorem end_and_install_later (env : Env W) (out : CStr) (s t : St W)
    (h : ∀ ret : Int, ret ≠ 2 → Later (postEv out ret) s t) :
    ((end_and_install env out t).ret = 0 ∨ (end_and_install env out t).ret = 4 ∨
      (end_and_install env out t).ret = 5) ∧
    Later (postEv out (end_and_install env out t).ret) s (end_and_install env out t).st := by
  have h5 := install_later env out (env.zsync_end t.world).1 (env.zsync_mtime t.world) s
    (t.step (env.zsync_end t.world).2 (Event.zsync_end (env.zsync_end t.world).1))
    (fun ret hret => Later.after_step (h ret hret) (by simpa [postEv] using hret))
  refine ⟨h5.1, ?_⟩
  unfold end_and_install bail
  dsimp only
  exact Later.after_say h5.2 rfl

/-- STEP 4 and STEP 5: the outcome is one of `zs_ok`, `zs_download_local_err`,
`zs_move_received_file_err`, `zs_backup_old_file_err`, and the calls made are those
allowed for that outcome. -/
theorem verify_and_install_later (env : Env W) (out temp : CStr) (s : St W) :
    ((verify_and_install env out temp s).ret = 0 ∨
      (verify_and_install env out temp s).ret = 2 ∨
      (verify_and_install env out temp s).ret = 4 ∨
      (verify_and_install env out temp s).ret = 5) ∧
    Later (postEv out (verify_and_install env out temp s).ret) s
      (verify_and_install env out temp s).st ∧
    (verify_and_install env out temp s).output_file_path = some out := by
  unfold verify_and_install
  dsimp only
  split
  · rename_i hc
    refine ⟨Or.inr (Or.inl rfl), ?_, rfl⟩
    show Later (postEv out 2) s _
    unfold bail
    dsimp only
    refine Later.after_say ?_ rfl
    refine Later.after_emit ?_ rfl
    refine Later.after_step ?_ (by simpa [postEv] using hc)
    exact Later.after_say (Later.start _ s) rfl
  · rename_i hc
    have h5 := end_and_install_later env out s
      (report_checksum (env.zsync_complete (s.say "verifying download..." []).world).1
        ((s.say "verifying download..." []).step
          (env.zsync_complete (s.say "verifying download..." []).world).2
          (Event.zsync_complete
            (env.zsync_complete (s.say "verifying download..." []).world).1)))
      (by
        intro ret hret
        have h2 : Later (postEv out ret) s
            ((s.say "verifying download..." []).step
              (env.zsync_complete (s.say "verifying download..." []).world).2
              (Event.zsync_complete
                (env.zsync_complete (s.say "verifying download..." []).world).1)) := by
          refine Later.after_step ?_ (by simpa [postEv, hret] using hc)
          exact Later.after_say (Later.start _ s) rfl
        unfold report_checksum
        split
        · exact Later.after_say h2 rfl
        · split
          · exact Later.after_say h2 rfl
          · exact h2)
    refine ⟨?_, h5.2, rfl⟩
    rcases h5.1 with h | h | h
    · exact Or.inl h
    · exact Or.inr (Or.inr (Or.inl h))
    · exact Or.inr (Or.inr (Or.inr h))

/-! ### The shape of a whole run -/

/-- The calls of a run of `zsync_client` that returns split into those made before
verification (`pre`, the older ones) and those of STEP 4 and STEP 5 (`post`):
`pre` holds only calls allowed before verification and accounts for `http_down`;
`post` holds only calls allowed for the outcome; when `post` is empty the run
bailed out with a non-zero outcome, otherwise `output_file_path` was set. -/
theorem zsync_client_structure (env : Env W) (fuel : Nat) (w0 : W)
    (control_file_location : CStr) (keep_control_file_path output_file_path : Option CStr)
    (referrer : Option CStr) (seedfiles : List CStr) (quiet : Bool) (r : Run W)
    (h : zsync_client env fuel w0 control_file_location keep_control_file_path
      output_file_path referrer seedfiles quiet = some r) :
    ∃ pre post out,
      r.st.trace = post ++ pre ∧ r.st.quiet = quiet ∧
      (∀ e ∈ pre, preEv quiet e = true) ∧ r.st.http_down = bytes_sum pre ∧
      (∀ e ∈ post, postEv out r.ret e = true) ∧
      (post = [] → r.ret ≠ 0) ∧
      (post ≠ [] → r.output_file_path = some out) ∧
      (∀ o, output_file_path = some o → r.output_file_path = some o) := by
  rcases zsync_client_cases env fuel w0 control_file_location keep_control_file_path
    output_file_path referrer seedfiles quiet r h with ⟨hret, hadv, hout⟩ | ⟨s, hadv, out, hout, hr⟩
  · obtain ⟨hq, hp, hb⟩ := advances_from_start env w0 referrer quiet r.st hadv
    refine ⟨r.st.trace, [], [], by simp, hq, hp, hb, by simp, fun _ => hret,
      fun hne => absurd rfl hne, ?_⟩
    intro o ho
    rcases hout with e | ⟨s, e⟩
    · rw [e, ho]
    · rw [e, ho]
      rfl
  · obtain ⟨hq, hp, hb⟩ := advances_from_start env w0 referrer quiet s hadv
    obtain ⟨_, hl, ho⟩ := verify_and_install_later env out (out ++ ".part".toList) s
    rw [← hr] at hl ho
    obtain ⟨lq, ld, new, ht, hn⟩ := hl
    refine ⟨s.trace, new, out, ht, lq.trans hq, hp, ld.trans hb, hn, ?_, fun _ => ho, ?_⟩
    · intro hnil
      exfalso
      have hmem : ∃ c, Event.zsync_complete c ∈ r.st.trace := by
        rw [hr]
        unfold verify_and_install
        dsimp only
        split
        · refine ⟨(env.zsync_complete (s.say "verifying download..." []).world).1, ?_⟩
          simp only [bail, St.say_trace, St.emit_trace, St.step_trace]
          simp
        · refine ⟨(env.zsync_complete (s.say "verifying download..." []).world).1, ?_⟩
          obtain ⟨_, _, new2, hn2, _⟩ := (end_and_install_later env out
            ((s.say "verifying download..." []).step
              (env.zsync_complete (s.say "verifying download..." []).world).2
              (Event.zsync_complete
                (env.zsync_complete (s.say "verifying download..." []).world).1))
            (report_checksum (env.zsync_complete (s.say "verifying download..." []).world).1
              ((s.say "verifying download..." []).step
                (env.zsync_complete (s.say "verifying download..." []).world).2
                (Event.zsync_complete
                  (env.zsync_complete (s.say "verifying download..." []).world).1)))
            (fun ret _ => by
              unfold report_checksum
              split
              · exact Later.after_say (Later.start _ _) rfl
              · split
                · exact Later.after_say (Later.start _ _) rfl
                · exact Later.start _ _)).2
          rw [hn2]
          simp
      obtain ⟨c, hc⟩ := hmem
      rw [ht, hnil, List.nil_append] at hc
      have := hp _ hc
      simp [preEv] at this
    · intro o ho2
      rw [ho, hout, ho2]
      rfl

/-! ### The byte accounting of one download -/

theorem loop_progress_later (env : Env W) (rf p : Nat) (s t u : St W)
    (h : Later httpEv s t) (hr : loop_progress env rf p t = some u) : Later httpEv s u := by
  unfold loop_progress at hr
  split at hr
  · cases hr; exact h
  · split at hr
    · exact Option.noConfusion hr
    · cases hr
      exact Later.after_step h rfl

theorem receive_loop_later (env : Env W) (rf zr p : Nat) (fuel : Nat) (s : St W)
    (v r : RecvVars W) (h : Later httpEv s v.st)
    (hr : receive_loop env rf zr p fuel v = some r) : Later httpEv s r.st := by
  induction fuel generalizing v with
  | zero => exact Option.noConfusion hr
  | succ k ih =>
    unfold receive_loop at hr
    dsimp only at hr
    split at hr
    · cases hr; exact h
    · split at hr
      · split at hr
        · exact Option.noConfusion hr
        · rename_i s3 hp
          refine ih _ ?_ hr
          refine loop_progress_later env rf p s _ s3 ?_ hp
          refine Later.after_step ?_ rfl
          exact Later.after_step h rfl
      · cases hr
        exact Later.after_step h rfl

theorem begin_progress_later (env : Env W) (rf : Nat) (u : CStr) (s t : St W)
    (r : Nat × St W) (h : Later httpEv s t) (hr : begin_progress env rf u t = some r) :
    Later httpEv s r.2 := by
  unfold begin_progress at hr
  split at hr
  · cases hr; exact h
  · split at hr
    · exact Option.noConfusion hr
    · cases hr
      refine Later.after_step ?_ rfl
      exact Later.after_step h rfl

theorem finish_receive_later (env : Env W) (zr p : Nat) (s : St W) (v : RecvVars W)
    (r : Int × St W) (h : Later httpEv s v.st) (hr : finish_receive env zr p v = some r) :
    Later httpEv s r.2 := by
  unfold finish_receive at hr
  simp only [Option.map_eq_some'] at hr
  obtain ⟨u, hu, rfl⟩ := hr
  have h1 : Later httpEv s (flush_receive env zr v).2 := by
    unfold flush_receive
    split
    · exact h
    · exact Later.after_step h rfl
  unfold close_progress at hu
  split at hu
  · cases hu; exact h1
  · split at hu
    · exact Option.noConfusion hu
    · cases hu
      exact Later.after_step h1 rfl

theorem earlyEv_httpEv (e : Event) (h : earlyEv e = true) : httpEv e = true := by
  cases e <;> first | exact h | exact Bool.noConfusion h

theorem HttpShape.of_later {type : Int} {s t r : St W} (h1 : Later earlyEv s t)
    (h2 : HttpShape type t r) : HttpShape type s r := by
  obtain ⟨_, hd, pre, hpt, hpp⟩ := h1
  obtain ⟨new, hn, hs⟩ := h2
  refine ⟨new ++ pre, by simp [hn, hpt], ?_⟩
  rcases hs with ⟨he, hd2⟩ | ⟨rf, zr, v, mid, hnew, hmid, ⟨ranges, hr⟩, ⟨l, hl⟩, hd2⟩
  · left
    refine ⟨?_, hd2.trans hd⟩
    intro e hm
    rcases List.mem_append.1 hm with hm | hm
    · exact he e hm
    · exact hpp e hm
  · right
    refine ⟨rf, zr, v, mid ++ pre, by simp [hnew], ?_, ⟨ranges, by simp [hr]⟩,
      ⟨l, by simp [hl]⟩, by rw [hd2, hd]⟩
    intro e hm
    rcases List.mem_append.1 hm with hm | hm
    · exact hmid e hm
    · exact earlyEv_httpEv e (hpp e hm)

theorem HttpShape.early {type : Int} {s t : St W} (h : Later earlyEv s t) :
    HttpShape type s t := by
  obtain ⟨_, hd, pre, hpt, hpp⟩ := h
  exact ⟨pre, hpt, Or.inl ⟨hpp, hd⟩⟩

theorem http_transfer_shape (env : Env W) (fuel : Nat) (type : Int) (u : CStr)
    (rf zr : Nat) (t : St W) (rc : Int) (r : St W)
    (hr : http_transfer env fuel type u rf zr t = some (rc, r)) : HttpShape type t r := by
  unfold http_transfer at hr
  dsimp only at hr
  split at hr
  · cases hr
    exact HttpShape.early (Later.after_step (Later.start _ t) rfl)
  · rename_i l hl
    split at hr
    · cases hr
      exact HttpShape.early (Later.after_step (Later.start _ t) rfl)
    · split at hr
      · exact Option.noConfusion hr
      · rename_i p s3 hb
        split at hr
        · exact Option.noConfusion hr
        · rename_i v hv
          split at hr
          · exact Option.noConfusion hr
          · rename_i ret s4 hf
            have h3 := begin_progress_later env rf u _ _ (p, s3) (Later.start httpEv _) hb
            have h4 := receive_loop_later env rf zr p fuel _ _ v h3 hv
            have h5 := finish_receive_later env zr p _ v (ret, s4) h4 hf
            obtain ⟨_, hd, mid, ht, hp⟩ := h5
            cases hr
            refine ⟨Event.range_fetch_end rf :: Event.zsync_end_receive zr ::
              Event.range_fetch_bytes_down rf (env.range_fetch_bytes_down s4.world rf) ::
              (mid ++ [Event.range_fetch_addranges rf l,
                Event.zsync_needed_byte_ranges type (some l)]), ?_, Or.inr
              ⟨rf, zr, _, _, rfl, ?_, ⟨some l, by simp⟩, ⟨l, by simp⟩, ?_⟩⟩
            · simp only [http_cleanup, St.step_trace, St.emit_trace]
              rw [ht]
              simp [hl]
            · intro e he
              simp only [List.mem_append, List.mem_cons, List.mem_singleton,
                List.not_mem_nil, or_false] at he
              rcases he with he | rfl | rfl
              · exact hp e he
              · rfl
              · rfl
            · simp only [http_cleanup, St.step_http_down]
              rw [hd]
              rfl

theorem http_with_receiver_shape (env : Env W) (fuel : Nat) (type : Int) (u : CStr)
    (rf zr : Nat) (t : St W) (rc : Int) (r : St W)
    (hr : http_with_receiver env fuel type u rf zr t = some (rc, r)) :
    HttpShape type t r := by
  unfold http_with_receiver at hr
  dsimp only at hr
  split at hr
  · cases hr
    refine HttpShape.early ?_
    refine Later.after_step ?_ rfl
    refine Later.after_step ?_ rfl
    refine Later.after_step ?_ rfl
    exact Later.after_say (Later.start _ t) rfl
  · refine HttpShape.of_later ?_ (http_transfer_shape env fuel type u rf zr _ rc r hr)
    refine Later.after_step ?_ rfl
    exact Later.after_say (Later.start _ t) rfl

theorem http_with_handle_shape (env : Env W) (fuel : Nat) (type : Int) (u : CStr)
    (rf : Nat) (t : St W) (rc : Int) (r : St W)
    (hr : http_with_handle env fuel type u rf t = some (rc, r)) : HttpShape type t r := by
  unfold http_with_handle at hr
  dsimp only at hr
  split at hr
  · cases hr
    refine HttpShape.early ?_
    refine Later.after_step ?_ rfl
    exact Later.after_step (Later.start _ t) rfl
  · refine HttpShape.of_later ?_ (http_with_receiver_shape env fuel type u rf _ _ rc r hr)
    exact Later.after_step (Later.start _ t) rfl

theorem fetch_remaining_blocks_http_shape (env : Env W) (fuel : Nat) (s : St W)
    (url : CStr) (type : Int) (rc : Int) (r : St W)
    (hr : fetch_remaining_blocks_http env fuel s url type = some (rc, r)) :
    HttpShape type s r := by
  unfold fetch_remaining_blocks_http at hr
  dsimp only at hr
  split at hr
  · cases hr
    exact HttpShape.early (Later.after_emit (Later.start _ s) rfl)
  · split at hr
    · cases hr
      exact HttpShape.early (Later.after_step (Later.start _ s) rfl)
    · refine HttpShape.of_later ?_ (http_with_handle_shape env fuel type _ _ _ rc r hr)
      exact Later.after_step (Later.start _ s) rfl

/-! ### Claims on the driver -/

theorem append_ne_self (out x : CStr) (hx : x ≠ []) : out ≠ out ++ x := by
  intro h
  have := congrArg List.length h
  simp only [List.length_append] at this
  have hpos : 0 < x.length := List.length_pos.2 hx
  omega

/-- C2: for every run of `zsync_client` in which `zsync_complete` returns -1, the
outcome is `zs_download_local_err` (non-zero), `zsync_end` is not called, and no
`link`, `unlink` or `rename` is made. -/
theorem zsync_client_verification_failed (env : Env W) (fuel : Nat) (w0 : W)
    (control_file_location : CStr) (keep_control_file_path output_file_path : Option CStr)
    (referrer : Option CStr) (seedfiles : List CStr) (quiet : Bool) (r : Run W)
    (h : zsync_client env fuel w0 control_file_location keep_control_file_path
      output_file_path referrer seedfiles quiet = some r)
    (hc : Event.zsync_complete (-1) ∈ r.st.trace) :
    r.ret = zs_download_local_err ∧ r.ret ≠ 0 ∧
    (∀ p, Event.zsync_end p ∉ r.st.trace) ∧
    (∀ a b rc, Event.link a b rc ∉ r.st.trace) ∧
    (∀ p rc, Event.unlink p rc ∉ r.st.trace) ∧
    (∀ a b rc, Event.rename a b rc ∉ r.st.trace) := by
  obtain ⟨pre, post, out, ht, _, hpre, _, hpost, _, _, _⟩ :=
    zsync_client_structure env fuel w0 control_file_location keep_control_file_path
      output_file_path referrer seedfiles quiet r h
  have hmem : ∀ e ∈ r.st.trace, preEv quiet e = false → postEv out r.ret e = true := by
    intro e he hf
    rw [ht] at he
    rcases List.mem_append.1 he with hp | hp
    · exact hpost e hp
    · rw [hpre e hp] at hf
      exact Bool.noConfusion hf
  have h2 : r.ret = 2 := by
    have hp := hmem _ hc rfl
    by_contra hne
    simp [postEv, hne] at hp
  refine ⟨h2, by rw [h2]; decide, ?_, ?_, ?_, ?_⟩
  · intro p he
    have hp := hmem _ he rfl
    simp [postEv, h2] at hp
  · intro a b rc he
    have hp := hmem _ he rfl
    simp [postEv, h2] at hp
  · intro p rc he
    have hp := hmem _ he rfl
    simp [postEv, h2] at hp
  · intro a b rc he
    have hp := hmem _ he rfl
    simp [postEv, h2] at hp

/-- C2 at a concrete run: the end-to-end check fails. -/
theorem zsync_client_verification_failed_witness :
    ∃ r, zsync_client (simEnv simRelative) 2 () "f.zsync".toList none (some "f".toList)
        none [] true = some r ∧
      Event.zsync_complete (-1) ∈ r.st.trace ∧ r.ret = zs_download_local_err ∧
      (∀ p, Event.zsync_end p ∉ r.st.trace) := by
  refine ⟨_, rfl, by decide, ?_⟩
  have hw := zsync_client_verification_failed (simEnv simRelative) 2 ()
    "f.zsync".toList none (some "f".toList) none [] true _ rfl (by decide)
  exact ⟨hw.1, hw.2.2.1⟩

/-- C3: the control file parses, the scratch rename succeeds, the one candidate
URL is relative with no referrer known, so it fails, and the status stays 0. The
driver does not return `zs_download_receive_err`: it calls `zsync_complete`, and
returns `zs_download_local_err` when that reports -1; when that reports 0 (no
checksum to compare) it moves the incomplete file into place and returns
`zs_ok`. -/
theorem zsync_client_exhausted_urls_go_on_to_verify :
    (zsync_client (simEnv simRelative) 2 () "f.zsync".toList none (some "f".toList)
        none [] true).map
      (fun r => (r.ret, decide (Event.zsync_complete (-1) ∈ r.st.trace))) =
      some (zs_download_local_err, true) ∧
    (zsync_client (simEnv simNoChecksum) 2 () "f.zsync".toList none (some "f".toList)
        none [] true).map
      (fun r => (r.ret, decide (Event.zsync_complete 0 ∈ r.st.trace),
        decide (Event.rename "f.part".toList "f".toList 0 ∈ r.st.trace))) =
      some (zs_ok, true, true) := by
  constructor <;> decide

/-! ### Claim C7 -/

theorem bytes_sum_append (a b : List Event) : bytes_sum (a ++ b) = bytes_sum a + bytes_sum b := by
  induction a with
  | nil => simp [bytes_sum]
  | cons x xs ih => simp [bytes_sum, ih, add_assoc]

theorem bytes_sum_eq_zero (l : List Event) (h : ∀ e ∈ l, e.bytes = 0) : bytes_sum l = 0 := by
  induction l with
  | nil => rfl
  | cons x xs ih =>
    simp only [bytes_sum]
    rw [h x (by simp), ih (fun e he => h e (by simp [he]))]
    rfl

theorem bytes_of_postEv (out : CStr) (ret : Int) (e : Event) (h : postEv out ret e = true) :
    e.bytes = 0 := by
  cases e <;> first | rfl | exact Bool.noConfusion h

theorem not_bytes_of_httpEv (e : Event) (h : httpEv e = true) (rf : Nat) (v : Int) :
    e ≠ Event.range_fetch_bytes_down rf v := by
  intro he
  rw [he] at h
  exact Bool.noConfusion h

theorem without_progress_zsync_needed_byte_ranges (env : Env W) :
    env.without_progress.zsync_needed_byte_ranges = env.zsync_needed_byte_ranges := rfl

theorem without_progress_range_fetch_addranges (env : Env W) :
    env.without_progress.range_fetch_addranges = env.range_fetch_addranges := rfl

theorem without_progress_malloc (env : Env W) :
    env.without_progress.malloc = env.malloc := rfl

theorem without_progress_zsync_end_receive (env : Env W) :
    env.without_progress.zsync_end_receive = env.zsync_end_receive := rfl

theorem without_progress_range_fetch_end (env : Env W) :
    env.without_progress.range_fetch_end = env.range_fetch_end := rfl

theorem without_progress_zsync_begin_receive (env : Env W) :
    env.without_progress.zsync_begin_receive = env.zsync_begin_receive := rfl

theorem without_progress_make_url_absolute (env : Env W) :
    env.without_progress.make_url_absolute = env.make_url_absolute := rfl

theorem without_progress_range_fetch_start (env : Env W) :
    env.without_progress.range_fetch_start = env.range_fetch_start := rfl

theorem without_progress_rand_r (env : Env W) :
    env.without_progress.rand_r = env.rand_r := rfl

theorem without_progress_zsync_get_urls (env : Env W) :
    env.without_progress.zsync_get_urls = env.zsync_get_urls := rfl

theorem without_progress_zsync_status (env : Env W) :
    env.without_progress.zsync_status = env.zsync_status := rfl

theorem without_progress_access (env : Env W) :
    env.without_progress.access = env.access := rfl

theorem without_progress_zsync_progress (env : Env W) :
    env.without_progress.zsync_progress = env.zsync_progress := rfl

theorem without_progress_zsync_rename_file (env : Env W) :
    env.without_progress.zsync_rename_file = env.zsync_rename_file := rfl

theorem without_progress_zsync_filename (env : Env W) :
    env.without_progress.zsync_filename = env.zsync_filename := rfl

theorem loop_progress_quiet (env : Env W) (rf p : Nat) (s : St W) (hq : s.quiet = true) :
    loop_progress env rf p s = some s := by
  simp [loop_progress, hq]

theorem begin_progress_quiet (env : Env W) (rf : Nat) (u : CStr) (s : St W)
    (hq : s.quiet = true) : begin_progress env rf u s = some (0, s) := by
  simp [begin_progress, hq]

theorem close_progress_quiet (env : Env W) (p : Nat) (len : Int) (s : St W)
    (hq : s.quiet = true) : close_progress env p len s = some s := by
  simp [close_progress, hq]

theorem receive_loop_without_progress (env : Env W) (rf zr p : Nat) (fuel : Nat) :
    ∀ v : RecvVars W, v.st.quiet = true →
      receive_loop env.without_progress rf zr p fuel v = receive_loop env rf zr p fuel v := by
  induction fuel with
  | zero => intro v _; rfl
  | succ k ih =>
    intro v hq
    unfold receive_loop
    show (if (v.ret != 0) = true then some v else _) = (if (v.ret != 0) = true then some v else _)
    split
    · rfl
    · dsimp only [Env.without_progress]
      split
      · rw [loop_progress_quiet _ _ _ _ (by simp [hq]), loop_progress_quiet _ _ _ _ (by simp [hq])]
        exact ih _ (by simp [hq])
      · rfl

theorem finish_receive_quiet (env : Env W) (zr p : Nat) (v : RecvVars W)
    (hq : v.st.quiet = true) : finish_receive env zr p v = some (flush_receive env zr v) := by
  unfold finish_receive
  dsimp only
  rw [close_progress_quiet env p v.len _
    ((flush_receive_advances env zr v.st v (Advances.refl _)).quiet.trans hq)]
  rfl

theorem http_transfer_without_progress (env : Env W) (fuel : Nat) (type : Int) (u : CStr)
    (rf zr : Nat) (s : St W) (hq : s.quiet = true) :
    http_transfer env.without_progress fuel type u rf zr s =
      http_transfer env fuel type u rf zr s := by
  unfold http_transfer
  simp only [without_progress_zsync_needed_byte_ranges, without_progress_range_fetch_addranges]
  split
  · rfl
  · rename_i zb _
    split
    · rfl
    · rw [begin_progress_quiet _ _ _ _ (by simpa [St.step] using hq),
        begin_progress_quiet _ _ _ _ (by simpa [St.step] using hq)]
      dsimp only
      rw [receive_loop_without_progress env rf zr 0 fuel _ (by simpa [St.step] using hq)]
      split
      · rfl
      · rename_i v hv
        have hvq : v.st.quiet = true :=
          (receive_loop_advances env rf zr 0 fuel _ _ v (Advances.refl _) hv).quiet.trans
            (by simpa [St.step] using hq)
        rw [finish_receive_quiet _ zr 0 v hvq, finish_receive_quiet _ zr 0 v hvq]
        rfl

theorem fetch_remaining_blocks_http_without_progress (env : Env W) (fuel : Nat) (s : St W)
    (url : CStr) (type : Int) (hq : s.quiet = true) :
    fetch_remaining_blocks_http env.without_progress fuel s url type =
      fetch_remaining_blocks_http env fuel s url type := by
  unfold fetch_remaining_blocks_http http_with_handle http_with_receiver
  simp only [without_progress_make_url_absolute, without_progress_range_fetch_start,
    without_progress_zsync_begin_receive, without_progress_range_fetch_end,
    without_progress_malloc, without_progress_zsync_end_receive]
  split
  · rfl
  · split
    · rfl
    · split
      · rfl
      · split
        · rfl
        · exact http_transfer_without_progress env fuel type _ _ _ _
            (by simp [St.step, St.say, hq])

theorem sched_loop_without_progress (env : Env W) (inner : Nat) (url : List CStr)
    (utype : Int) (n : Nat) (fuel : Nat) :
    ∀ x : Sched × St W, x.2.quiet = true →
      sched_loop env.without_progress (fetch_remaining_blocks_http env.without_progress inner)
          url utype n fuel x =
        sched_loop env (fetch_remaining_blocks_http env inner) url utype n fuel x := by
  induction fuel with
  | zero => intro x _; rfl
  | succ k ih =>
    intro x hq
    have hb : sched_body env.without_progress
        (fetch_remaining_blocks_http env.without_progress inner) url utype n x =
        sched_body env (fetch_remaining_blocks_http env inner) url utype n x := by
      unfold sched_body
      simp only [without_progress_rand_r]
      split
      · rfl
      · split
        · split
          · rfl
          · rw [fetch_remaining_blocks_http_without_progress env inner _ _ _ (by simpa using hq)]
        · rfl
    have hg : sched_guard env.without_progress x = sched_guard env x := rfl
    unfold sched_loop
    rw [hb, hg]
    split
    · split
      · rfl
      · rename_i y hy
        refine ih y ?_
        exact (sched_body_advances env _ url utype n
          (fun s t u ty r hst hr => fetch_remaining_blocks_http_advances env inner s t u ty r hst hr)
          x.2 x y (Advances.refl _) hy).quiet.trans hq
    · rfl

theorem fetch_remaining_blocks_without_progress (env : Env W) (fuel : Nat) (s : St W)
    (hq : s.quiet = true) :
    fetch_remaining_blocks env.without_progress fuel s = fetch_remaining_blocks env fuel s := by
  unfold fetch_remaining_blocks fetch_remaining_blocks_with
  simp only [without_progress_zsync_get_urls]
  split
  · rfl
  · rw [sched_loop_without_progress env fuel _ _ _ fuel _ hq]

theorem read_seed_files_without_progress (env : Env W) (seeds : List CStr) :
    ∀ s : St W, read_seed_files env.without_progress seeds s = read_seed_files env seeds s := by
  induction seeds with
  | nil => intro s; rfl
  | cons f rest ih =>
    intro s
    unfold read_seed_files
    have h : read_seed_file env.without_progress f s = read_seed_file env f s := rfl
    rw [h]
    cases read_seed_file env f s with
    | none => rfl
    | some t => exact ih t

theorem read_local_data_without_progress (env : Env W) (seeds : List CStr)
    (out temp_file : CStr) (s : St W) :
    read_local_data env.without_progress seeds out temp_file s =
      read_local_data env seeds out temp_file s := by
  have h : ∀ f (t : St W), read_seed_file env.without_progress f t = read_seed_file env f t :=
    fun _ _ => rfl
  unfold read_local_data
  simp only [read_seed_files_without_progress, h, without_progress_access,
    without_progress_zsync_progress]

theorem zsync_client_without_progress (env : Env W) (fuel : Nat) (w0 : W)
    (control_file_location : CStr) (keep_control_file_path output_file_path : Option CStr)
    (referrer : Option CStr) (seedfiles : List CStr) :
    zsync_client env.without_progress fuel w0 control_file_location keep_control_file_path
        output_file_path referrer seedfiles true =
      zsync_client env fuel w0 control_file_location keep_control_file_path
        output_file_path referrer seedfiles true := by
  have hc : read_zsync_control_file env.without_progress control_file_location
      keep_control_file_path zs_ok (client_start env.without_progress w0 referrer true) =
      read_zsync_control_file env control_file_location keep_control_file_path zs_ok
        (client_start env w0 referrer true) := rfl
  have he : ∀ s : St W, effective_output env.without_progress control_file_location
      output_file_path s = effective_output env control_file_location output_file_path s :=
    fun _ => rfl
  have hv : ∀ (o t : CStr) (s : St W),
      verify_and_install env.without_progress o t s = verify_and_install env o t s :=
    fun _ _ _ => rfl
  have h0 := read_zsync_control_file_advances env control_file_location
    keep_control_file_path zs_ok (client_start env w0 referrer true)
  unfold zsync_client
  simp only [hc, he, hv, read_local_data_without_progress, without_progress_zsync_rename_file]
  split
  · rfl
  · split
    · rfl
    · split
      · rfl
      · rename_i s1 hs1
        have h1 := read_local_data_advances env seedfiles _ _ _ _ s1 h0 hs1
        split
        · rfl
        · rw [fetch_remaining_blocks_without_progress env fuel _
            (by simpa [St.step, client_start] using h1.quiet)]

/-! ### Claim C12 -/

theorem not_progress_of_preEv_quiet (e : Event) (h : preEv true e = true) :
    e.is_progress = false := by
  cases e <;> simp_all [preEv, Event.is_progress]

theorem not_progress_of_postEv (out : CStr) (ret : Int) (e : Event)
    (h : postEv out ret e = true) : e.is_progress = false := by
  cases e <;> simp_all [postEv, Event.is_progress]

/-- C12: in every run of `zsync_client` with `quiet` set that returns, none of the
calls made is an operation of the progress collaborator (`start_progress`,
`do_progress`, called through the table or directly, `end_progress`), and the
progress table is not looked at: the run made with a null table in place of the
given one returns the same result. The same holds of the scheduler and of the
per-URL downloader entered in a quiet state: with a null table in place of the
given one they give the same result. -/
theorem zsync_client_quiet_no_progress (env : Env W) (fuel : Nat) (w0 : W)
    (control_file_location : CStr) (keep_control_file_path output_file_path : Option CStr)
    (referrer : Option CStr) (seedfiles : List CStr) (r : Run W)
    (h : zsync_client env fuel w0 control_file_location keep_control_file_path
      output_file_path referrer seedfiles true = some r) :
    (∀ e ∈ r.st.trace, e.is_progress = false) ∧
    zsync_client env.without_progress fuel w0 control_file_location keep_control_file_path
      output_file_path referrer seedfiles true = some r ∧
    (∀ s : St W, s.quiet = true →
      fetch_remaining_blocks env.without_progress fuel s = fetch_remaining_blocks env fuel s) ∧
    (∀ (s : St W) (url : CStr) (type : Int), s.quiet = true →
      fetch_remaining_blocks_http env.without_progress fuel s url type =
        fetch_remaining_blocks_http env fuel s url type) := by
  refine ⟨?_, ?_, ?_, ?_⟩
  · obtain ⟨pre, post, out, ht, _, hpre, _, hpost, _, _, _⟩ :=
      zsync_client_structure env fuel w0 control_file_location keep_control_file_path
        output_file_path referrer seedfiles true r h
    intro e he
    rw [ht] at he
    rcases List.mem_append.1 he with hm | hm
    · exact not_progress_of_postEv out r.ret e (hpost e hm)
    · exact not_progress_of_preEv_quiet e (hpre e hm)
  · rw [zsync_client_without_progress, h]
  · intro s hq
    exact fetch_remaining_blocks_without_progress env fuel s hq
  · intro s url type hq
    exact fetch_remaining_blocks_http_without_progress env fuel s url type hq

/-- C12 at a concrete quiet run that downloads two chunks, in a world whose
progress table is null. -/
theorem zsync_client_quiet_no_progress_witness :
    ∃ r, zsync_client (feedEnv simStall) 3 twoChunks "f.zsync".toList none (some "f".toList)
        none [] true = some r ∧
      (∀ e ∈ r.st.trace, e.is_progress = false) ∧
      deliveries r.st.trace = [(6, some [1, 2, 3], some 0, 3), (6, some [4, 5], some 3, 2),
        (6, none, some 5, 0)] := by
  refine ⟨_, rfl, ?_, rfl⟩
  exact (zsync_client_quiet_no_progress (feedEnv simStall) 3 twoChunks "f.zsync".toList none
    (some "f".toList) none [] _ rfl).1

/-! ### The receive loop fed with chunks -/

theorem deliveries_append (a b : List Event) :
    deliveries (a ++ b) = deliveries b ++ deliveries a := by
  simp [deliveries, List.reverse_append, List.filterMap_append]

theorem deliveries_cons (e : Event) (a : List Event) :
    deliveries (e :: a) = deliveries a ++ (e.delivery).toList := by
  simp only [deliveries, List.reverse_cons, List.filterMap_append]
  cases h : e.delivery <;> simp [List.filterMap, h]

theorem next_offset_append_last (z : Option Int) (init : List RangeBlock) (c : RangeBlock) :
    next_offset z (init ++ [c]) = c.offset.map (fun z => off_t_wrap (z + c.len)) := by
  induction init generalizing z with
  | nil => rfl
  | cons a rest ih => exact ih _

theorem loop_progress_of_world (env : Env W) (rf p : Nat) (s : St W) (w : W)
    (h : loop_progress_world env s.quiet rf p s.world = some w) :
    ∃ t new, loop_progress env rf p s = some t ∧ t.world = w ∧ t.quiet = s.quiet ∧
      t.trace = new ++ s.trace ∧ deliveries new = [] := by
  unfold loop_progress_world at h
  unfold loop_progress
  by_cases hq : s.quiet = true
  · simp only [hq, if_true] at h ⊢
    cases h
    exact ⟨s, [], rfl, rfl, hq.symm ▸ rfl, rfl, rfl⟩
  · simp only [hq, if_false] at h ⊢
    cases hp : env.progress_routines with
    | none => rw [hp] at h; exact Option.noConfusion h
    | some pr =>
      rw [hp] at h
      cases h
      exact ⟨_, [_], rfl, rfl, by simpa [St.step] using hq, rfl, rfl⟩

/-- The receive loop entered with `ret = 0` in a world that feeds `chunks` and
then `last`, a read that brings nothing: with a unit of fuel for each read it
returns, having delivered exactly the chunks. -/
theorem receive_loop_feeds (env : Env W) (rf zr p : Nat) (last : RangeBlock)
    (hlast : last.len ≤ 0) (chunks : List RangeBlock) :
    ∀ (fuel : Nat) (v : RecvVars W), v.ret = 0 →
      Feeds env v.st.quiet rf zr p last chunks v.st.world = true →
      chunks.length + 1 ≤ fuel →
      ∃ r new, receive_loop env rf zr p fuel v = some r ∧ r.ret = 0 ∧ r.len = last.len ∧
        r.zoffset = (match last.offset with
          | some o => some o
          | none => next_offset v.zoffset chunks) ∧
        r.st.quiet = v.st.quiet ∧ r.st.trace = new ++ v.st.trace ∧
        deliveries new = chunks.map (RangeBlock.delivered zr) := by
  induction chunks with
  | nil =>
    intro fuel v hret hf hfuel
    obtain ⟨k, rfl⟩ : ∃ k, fuel = k + 1 := ⟨fuel - 1, by omega⟩
    simp only [Feeds, beq_iff_eq] at hf
    have hloop : receive_loop env rf zr p (k + 1) v = some
        { ret := v.ret, len := last.len,
          zoffset := (match last.offset with
            | some o => some o
            | none => v.zoffset),
          st := v.st.step (env.get_range_block v.st.world rf BUFFERSIZE).2
            (Event.get_range_block rf last) } := by
      unfold receive_loop
      simp only [hret, hf]
      rw [if_neg (by decide), if_neg (by omega)]
    exact ⟨_, [Event.get_range_block rf last], hloop, hret, rfl, rfl, rfl, rfl, rfl⟩
  | cons c rest ih =>
    intro fuel v hret hf hfuel
    obtain ⟨k, rfl⟩ : ∃ k, fuel = k + 1 := ⟨fuel - 1, by simp at hfuel; omega⟩
    simp only [Feeds, Bool.and_eq_true, beq_iff_eq, decide_eq_true_eq] at hf
    obtain ⟨⟨⟨⟨hg, hpos⟩, ho⟩, hd⟩, hrest⟩ := hf
    obtain ⟨o, ho⟩ := Option.isSome_iff_exists.1 ho
    subst hg
    rw [ho] at hd hrest
    cases hw : loop_progress_world env v.st.quiet rf p
        (env.zsync_receive_data (env.get_range_block v.st.world rf BUFFERSIZE).2 zr
          (some (env.get_range_block v.st.world rf BUFFERSIZE).1.data) (some o)
          (env.get_range_block v.st.world rf BUFFERSIZE).1.len).2 with
    | none => rw [hw] at hrest; exact Bool.noConfusion hrest
    | some w1 =>
      rw [hw] at hrest
      obtain ⟨s3, new3, hs3, hw3, hq3, ht3, hd3⟩ := loop_progress_of_world env rf p
        ((v.st.step (env.get_range_block v.st.world rf BUFFERSIZE).2
          (Event.get_range_block rf (env.get_range_block v.st.world rf BUFFERSIZE).1)).step
          (env.zsync_receive_data (env.get_range_block v.st.world rf BUFFERSIZE).2 zr
            (some (env.get_range_block v.st.world rf BUFFERSIZE).1.data) (some o)
            (env.get_range_block v.st.world rf BUFFERSIZE).1.len).2
          (Event.zsync_receive_data zr
            (some (env.get_range_block v.st.world rf BUFFERSIZE).1.data) (some o)
            (env.get_range_block v.st.world rf BUFFERSIZE).1.len
            (env.zsync_receive_data (env.get_range_block v.st.world rf BUFFERSIZE).2 zr
              (some (env.get_range_block v.st.world rf BUFFERSIZE).1.data) (some o)
              (env.get_range_block v.st.world rf BUFFERSIZE).1.len).1)) w1 hw
      obtain ⟨r, new, hr, hr0, hrl, hrz, hrq, hrt, hrd⟩ := ih k
        { ret := 0, len := (env.get_range_block v.st.world rf BUFFERSIZE).1.len,
          zoffset := some (off_t_wrap (o + (env.get_range_block v.st.world rf BUFFERSIZE).1.len)),
          st := s3 }
        rfl
        (by
          show Feeds env s3.quiet rf zr p last rest s3.world = true
          rw [hq3, hw3]
          exact hrest)
        (by simp at hfuel; omega)
      have hloop : receive_loop env rf zr p (k + 1) v = some r := by
        rw [← hr, receive_loop]
        simp only [ho]
        rw [if_neg (by simp [hret]), if_pos hpos]
        simp only [St.step] at hs3 ⊢
        rw [hs3]
        simp [hd, hret]
      refine ⟨r, new ++ new3 ++ [Event.zsync_receive_data zr
          (some (env.get_range_block v.st.world rf BUFFERSIZE).1.data) (some o)
          (env.get_range_block v.st.world rf BUFFERSIZE).1.len
          (env.zsync_receive_data (env.get_range_block v.st.world rf BUFFERSIZE).2 zr
              (some (env.get_range_block v.st.world rf BUFFERSIZE).1.data) (some o)
              (env.get_range_block v.st.world rf BUFFERSIZE).1.len).1,
        Event.get_range_block rf (env.get_range_block v.st.world rf BUFFERSIZE).1],
        hloop, hr0, hrl, ?_, ?_, ?_, ?_⟩
      · rw [hrz]
        simp [next_offset, ho]
      · rw [hrq]
        exact hq3
      · rw [hrt]
        show new ++ s3.trace = _
        rw [ht3]
        simp [St.step]
      · rw [deliveries_append, deliveries_append, hrd, hd3]
        simp [deliveries, Event.delivery, RangeBlock.delivered, ho]

theorem begin_progress_of_world (env : Env W) (rf : Nat) (u : CStr) (s : St W) (p : Nat)
    (w : W) (h : begin_progress_world env s.quiet rf u s.world = some (p, w)) :
    (s.quiet = true ∨ ∃ pr, env.progress_routines = some pr) ∧
    ∃ t new, begin_progress env rf u s = some (p, t) ∧ t.world = w ∧ t.quiet = s.quiet ∧
      t.trace = new ++ s.trace ∧ deliveries new = [] := by
  unfold begin_progress_world at h
  unfold begin_progress
  by_cases hq : s.quiet = true
  · simp only [hq, if_true] at h ⊢
    cases h
    exact ⟨Or.inl trivial, s, [], rfl, rfl, hq, rfl, rfl⟩
  · simp only [hq, if_false] at h ⊢
    cases hp : env.progress_routines with
    | none => rw [hp] at h; exact Option.noConfusion h
    | some pr =>
      rw [hp] at h
      cases h
      exact ⟨Or.inr ⟨pr, rfl⟩, _, [_, _], rfl, rfl, by simpa [St.step] using hq, rfl, rfl⟩

theorem close_progress_of_table (env : Env W) (p : Nat) (len : Int) (s : St W)
    (h : s.quiet = true ∨ ∃ pr, env.progress_routines = some pr) :
    ∃ t new, close_progress env p len s = some t ∧ t.trace = new ++ s.trace ∧
      deliveries new = [] := by
  unfold close_progress
  by_cases hq : s.quiet = true
  · simp only [hq, if_true]
    exact ⟨s, [], rfl, rfl, rfl⟩
  · simp only [hq, if_false]
    rcases h with h | ⟨pr, hp⟩
    · exact absurd h hq
    · rw [hp]
      exact ⟨_, [_], rfl, rfl, rfl⟩

theorem http_cleanup_trace (env : Env W) (rf zr : Nat) (s : St W) :
    ∃ new, (http_cleanup env rf zr s).trace = new ++ s.trace ∧ deliveries new = [] :=
  ⟨[_, _, _], rfl, rfl⟩

/-- A download that has its handle, receiver and buffer, finds ranges to fetch
and is fed `chunks` and then `last`: it returns, -1 after a failed read and 0
otherwise, and has delivered the chunks, followed after a read of 0 by the
empty chunk at the shadow offset. -/
theorem http_transfer_feeds (env : Env W) (fuel : Nat) (type : Int) (u : CStr)
    (rf zr p : Nat) (s : St W) (ranges : List (Int × Int)) (w4 w5 : W) (last : RangeBlock)
    (chunks : List RangeBlock)
    (h4 : env.zsync_needed_byte_ranges s.world type = (some ranges, w4)) (hne : ranges ≠ [])
    (h5 : begin_progress_world env s.quiet rf u (env.range_fetch_addranges w4 rf ranges) =
      some (p, w5))
    (hlast : last.len ≤ 0) (hf : Feeds env s.quiet rf zr p last chunks w5 = true)
    (hfuel : chunks.length + 1 ≤ fuel) :
    ∃ t new, http_transfer env fuel type u rf zr s =
        some (if last.len < 0 then -1 else 0, t) ∧
      t.trace = new ++ s.trace ∧
      deliveries new = chunks.map (RangeBlock.delivered zr) ++
        (if last.len < 0 then []
          else [(zr, none, (match last.offset with
            | some o => some o
            | none => next_offset none chunks), 0)]) := by
  obtain ⟨htab, s3, new3, hb, hw3, hq3, ht3, hd3⟩ := begin_progress_of_world env rf u
    ((s.step w4 (Event.zsync_needed_byte_ranges type (some ranges))).step
      (env.range_fetch_addranges w4 rf ranges) (Event.range_fetch_addranges rf ranges)) p w5 h5
  obtain ⟨v, newl, hv, hv0, hvl, hvz, hvq, hvt, hvd⟩ := receive_loop_feeds env rf zr p last hlast
    chunks fuel { ret := 0, len := 0, zoffset := none, st := s3 } rfl
    (by
      show Feeds env s3.quiet rf zr p last chunks s3.world = true
      rw [hq3, hw3]
      exact hf)
    hfuel
  have hq5 : (flush_receive env zr v).2.quiet = true ∨ ∃ pr, env.progress_routines = some pr := by
    rcases htab with h | h
    · left
      rw [(flush_receive_advances env zr v.st v (Advances.refl _)).quiet, hvq]
      exact hq3.trans h
    · exact Or.inr h
  obtain ⟨s6, new6, hc, ht6, hd6⟩ := close_progress_of_table env p v.len _ hq5
  obtain ⟨new7, ht7, hd7⟩ := http_cleanup_trace env rf zr s6
  have hrun : http_transfer env fuel type u rf zr s =
      some ((flush_receive env zr v).1, http_cleanup env rf zr s6) := by
    unfold http_transfer
    simp only [h4]
    rw [if_neg (by simpa using hne)]
    simp only [St.step] at hb ⊢
    rw [hb]
    simp only [hv, finish_receive, hc]
    rfl
  by_cases hneg : last.len < 0
  · have hfl : flush_receive env zr v = (-1, v.st) := by
      unfold flush_receive
      rw [if_pos (by rw [hvl]; exact hneg)]
    rw [hfl] at hrun ht6
    refine ⟨_, new7 ++ new6 ++ newl ++ new3 ++
      [Event.range_fetch_addranges rf ranges, Event.zsync_needed_byte_ranges type (some ranges)],
      by rw [hrun, if_pos hneg], ?_, ?_⟩
    · rw [ht7, ht6, hvt]
      show new7 ++ (new6 ++ (newl ++ s3.trace)) = _
      rw [ht3]
      simp [St.step]
    · simp only [deliveries_append, hd7, hd6, hvd, hd3, if_pos hneg]
      simp [deliveries, Event.delivery]
  · have hfl : flush_receive env zr v = (0, v.st.step
        (env.zsync_receive_data v.st.world zr none v.zoffset 0).2
        (Event.zsync_receive_data zr none v.zoffset 0
          (env.zsync_receive_data v.st.world zr none v.zoffset 0).1)) := by
      unfold flush_receive
      rw [if_neg (by rw [hvl]; exact hneg), hv0]
    rw [hfl] at hrun ht6
    refine ⟨_, new7 ++ new6 ++ [Event.zsync_receive_data zr none v.zoffset 0
          (env.zsync_receive_data v.st.world zr none v.zoffset 0).1] ++ newl ++ new3 ++
      [Event.range_fetch_addranges rf ranges, Event.zsync_needed_byte_ranges type (some ranges)],
      by rw [hrun, if_neg hneg], ?_, ?_⟩
    · rw [ht7, ht6]
      show new7 ++ (new6 ++ (_ :: v.st.trace)) = _
      rw [hvt]
      show new7 ++ (new6 ++ (_ :: (newl ++ s3.trace))) = _
      rw [ht3]
      simp [St.step]
    · simp only [deliveries_append, hd7, hd6, hvd, hd3, if_neg hneg, hvz]
      simp [deliveries, Event.delivery]

theorem loop_entry_cases (env : Env W) (s : St W) (url : CStr) (type : Int) (rf zr p : Nat)
    (w : W) (h : loop_entry env s url type = some (rf, zr, p, w)) :
    ∃ u w1 w2 w3 ranges w4, env.make_url_absolute s.referrer url = some u ∧
      env.range_fetch_start s.world u s.referrer = (some rf, w1) ∧
      env.zsync_begin_receive w1 type = (some zr, w2) ∧
      env.malloc w2 BUFFERSIZE = (true, w3) ∧
      env.zsync_needed_byte_ranges w3 type = (some ranges, w4) ∧ ranges ≠ [] ∧
      begin_progress_world env s.quiet rf u (env.range_fetch_addranges w4 rf ranges) =
        some (p, w) := by
  unfold loop_entry at h
  split at h
  · exact Option.noConfusion h
  · rename_i u hu
    split at h
    · exact Option.noConfusion h
    · rename_i rf1 w1 h1
      split at h
      · exact Option.noConfusion h
      · rename_i zr1 w2 h2
        split at h
        · exact Option.noConfusion h
        · rename_i w3 h3
          split at h
          · exact Option.noConfusion h
          · rename_i ranges w4 h4
            split at h
            · exact Option.noConfusion h
            · rename_i hne
              simp only [Option.map_eq_some'] at h
              obtain ⟨⟨p1, w5⟩, hb, he⟩ := h
              simp only [Prod.mk.injEq] at he
              obtain ⟨rfl, rfl, rfl, rfl⟩ := he
              exact ⟨u, w1, w2, w3, ranges, w4, hu, h1, h2, h3, h4,
                by simpa using hne, hb⟩

/-- A download that enters its receive loop and is fed `chunks` and then `last`:
it returns, -1 after a failed read and 0 otherwise, and has delivered the chunks,
followed after a read of 0 by the empty chunk at the shadow offset. -/
theorem fetch_remaining_blocks_http_feeds (env : Env W) (fuel : Nat) (s : St W) (url : CStr)
    (type : Int) (rf zr p : Nat) (w : W) (last : RangeBlock) (chunks : List RangeBlock)
    (he : loop_entry env s url type = some (rf, zr, p, w))
    (hlast : last.len ≤ 0) (hf : Feeds env s.quiet rf zr p last chunks w = true)
    (hfuel : chunks.length + 1 ≤ fuel) :
    ∃ t new, fetch_remaining_blocks_http env fuel s url type =
        some (if last.len < 0 then -1 else 0, t) ∧
      t.trace = new ++ s.trace ∧
      deliveries new = chunks.map (RangeBlock.delivered zr) ++
        (if last.len < 0 then []
          else [(zr, none, (match last.offset with
            | some o => some o
            | none => next_offset none chunks), 0)]) := by
  obtain ⟨u, w1, w2, w3, ranges, w4, hu, h1, h2, h3, h4, hne, h5⟩ :=
    loop_entry_cases env s url type rf zr p w he
  obtain ⟨t, new, hr, ht, hd⟩ := http_transfer_feeds env fuel type u rf zr p
    ((((s.step w1 (Event.range_fetch_start u (some rf))).step w2
      (Event.zsync_begin_receive type (some zr))).say "downloading from" u).step w3
      (Event.malloc BUFFERSIZE true))
    ranges w4 w last chunks h4 hne (by simpa using h5) hlast (by simpa using hf) hfuel
  refine ⟨t, new ++ (Event.malloc BUFFERSIZE true ::
    ((if s.quiet then [] else [Event.print "downloading from" u]) ++
      [Event.zsync_begin_receive type (some zr), Event.range_fetch_start u (some rf)])),
    ?_, ?_, ?_⟩
  · rw [← hr]
    unfold fetch_remaining_blocks_http http_with_handle http_with_receiver
    simp only [hu, h1, St.step_world, h2, St.say_world, h3]
    rfl
  · rw [ht]
    simp [St.say_trace]
  · rw [deliveries_append, hd]
    by_cases hq : s.quiet = true <;> simp [hq, deliveries, Event.delivery]

/-! ### Claim C13 -/

theorem off_t_wrap_of_range (x : Int) (hlo : -(2 : Int) ^ 63 ≤ x) (hhi : x < (2 : Int) ^ 63) :
    off_t_wrap x = x := by
  unfold off_t_wrap
  have h0 : (0 : Int) ≤ x + 2 ^ 63 := by omega
  have h1 : x + 2 ^ 63 < (2 : Int) ^ 64 := by omega
  rw [Int.emod_eq_of_lt h0 h1]
  omega

/-- C13 as stated fails where the sum leaves the range of `off_t`: a download
that is fed one chunk of 3 bytes at the offset 2^63 - 2 and then the end of the
data returns 0 and delivers the final empty chunk at the offset -(2^63 - 1), not
at 2^63 + 1. -/
theorem final_chunk_offset_wraps :
    (fetch_remaining_blocks_http (feedEnv simStall) 2 (feedStart chunkAtTop) "f".toList 0).map
        (fun r => (r.1, deliveries r.2.trace)) =
      some (0, [(6, some [1, 2, 3], some 9223372036854775806, 3),
        (6, none, some (-9223372036854775807), 0)]) := by
  rfl

/-- C13, amended: a download that enters its receive loop with handle `rf` and
receiver `zr` and is fed k >= 1 non-empty chunks `init ++ [c]`, each with its
offset and each accepted by the receiver, and then a read of 0 that stores no
offset: with fuel for the k + 1 reads, `fetch_remaining_blocks_http` returns 0,
and the deliveries it made to the receiver are, in order, exactly the chunks,
each at its own offset, and then one empty chunk (null buffer, length 0) at the
offset of the last chunk plus its length as `off_t` holds it: the sum itself when
it lies in the range of `off_t`, the sum wrapped around otherwise. -/
theorem fetch_remaining_blocks_http_delivers (env : Env W) (fuel : Nat) (s : St W)
    (url : CStr) (type : Int) (rf zr p : Nat) (w : W) (eof : RangeBlock)
    (init : List RangeBlock) (c : RangeBlock) (o : Int)
    (he : loop_entry env s url type = some (rf, zr, p, w))
    (heof : eof.len = 0) (hkeep : eof.offset = none) (ho : c.offset = some o)
    (hf : Feeds env s.quiet rf zr p eof (init ++ [c]) w = true)
    (hfuel : init.length + 2 ≤ fuel) :
    ∃ t new, fetch_remaining_blocks_http env fuel s url type = some (0, t) ∧
      t.trace = new ++ s.trace ∧
      deliveries new = (init ++ [c]).map (fun b => (zr, some b.data, b.offset, b.len)) ++
        [(zr, none, some (off_t_wrap (o + c.len)), 0)] ∧
      (-(2 : Int) ^ 63 ≤ o + c.len → o + c.len < (2 : Int) ^ 63 →
        deliveries new = (init ++ [c]).map (fun b => (zr, some b.data, b.offset, b.len)) ++
          [(zr, none, some (o + c.len), 0)]) := by
  obtain ⟨t, new, hr, ht, hd⟩ := fetch_remaining_blocks_http_feeds env fuel s url type rf zr p w
    eof (init ++ [c]) he (by omega) hf (by simpa using hfuel)
  have hd1 : deliveries new =
      (init ++ [c]).map (fun b => (zr, some b.data, b.offset, b.len)) ++
        [(zr, none, some (off_t_wrap (o + c.len)), 0)] := by
    rw [hd, if_neg (by omega), hkeep, next_offset_append_last, ho]
    rfl
  refine ⟨t, new, ?_, ht, hd1, ?_⟩
  · rw [hr, if_neg (by omega)]
  · intro hlo hhi
    rw [hd1, off_t_wrap_of_range _ hlo hhi]

/-- The amended C13 at a concrete download: two chunks, then the end of the data. -/
theorem fetch_remaining_blocks_http_delivers_witness :
    ∃ t new, fetch_remaining_blocks_http (feedEnv simStall) 3 (feedStart twoChunks) "f".toList 0 =
        some (0, t) ∧
      t.trace = new ++ (feedStart twoChunks).trace ∧
      deliveries new = [(6, some [1, 2, 3], some 0, 3), (6, some [4, 5], some 3, 2),
        (6, none, some 5, 0)] := by
  obtain ⟨t, new, hr, ht, _, hd⟩ :=
    fetch_remaining_blocks_http_delivers (feedEnv simStall) 3 (feedStart twoChunks) "f".toList 0
      5 6 0 twoChunks { len := 0, offset := none, data := [] }
      [{ len := 3, offset := some 0, data := [1, 2, 3] }]
      { len := 2, offset := some 3, data := [4, 5] }
      3 rfl rfl rfl rfl rfl (by decide)
  exact ⟨t, new, hr, ht, hd (by decide) (by decide)⟩

/-! ### Reads that fail -/

theorem Grew.init (C : Event → Bool) (s : St W) : Grew C s s :=
  ⟨[], rfl, fun _ h => absurd h (List.not_mem_nil _)⟩

theorem Grew.add_step {C : Event → Bool} {s t : St W} (h : Grew C s t) {w : W} {e : Event}
    (he : C e = true) : Grew C s (t.step w e) := by
  obtain ⟨new, ht, hc⟩ := h
  refine ⟨e :: new, by simp [ht], ?_⟩
  intro x hx
  rcases List.mem_cons.1 hx with rfl | hx
  · exact he
  · exact hc x hx

theorem Grew.add_emit {C : Event → Bool} {s t : St W} (h : Grew C s t) {e : Event}
    (he : C e = true) : Grew C s (t.emit e) :=
  h.add_step (w := t.world) he

theorem Grew.add_say {C : Event → Bool} {s t : St W} (h : Grew C s t) {m : String} {a : CStr}
    (he : C (Event.print m a) = true) : Grew C s (t.say m a) := by
  unfold St.say
  split
  · exact h
  · exact h.add_emit he

theorem Grew.chain {C : Event → Bool} {s t u : St W} (h1 : Grew C s t) (h2 : Grew C t u) :
    Grew C s u := by
  obtain ⟨n1, ht, hc1⟩ := h1
  obtain ⟨n2, hu, hc2⟩ := h2
  refine ⟨n2 ++ n1, by rw [hu, ht, List.append_assoc], ?_⟩
  intro x hx
  rcases List.mem_append.1 hx with hx | hx
  · exact hc2 x hx
  · exact hc1 x hx

theorem Grew.same_trace {C : Event → Bool} {s t u : St W} (h : Grew C s t)
    (hu : u.trace = t.trace) : Grew C s u := by
  obtain ⟨new, ht, hc⟩ := h
  exact ⟨new, hu.trans ht, hc⟩

theorem loop_progress_grew (C : Event → Bool)
    (hC : ∀ e, e.is_progress = true → C e = true) (env : Env W) (rf p : Nat) (s t u : St W)
    (h : Grew C s t) (hr : loop_progress env rf p t = some u) : Grew C s u := by
  unfold loop_progress at hr
  split at hr
  · cases hr; exact h
  · split at hr
    · exact Option.noConfusion hr
    · cases hr
      refine Grew.add_step h ?_
      exact hC _ rfl

theorem begin_progress_grew (C : Event → Bool)
    (hC : ∀ e, e.is_progress = true → C e = true) (env : Env W) (rf : Nat) (u : CStr)
    (s t : St W) (r : Nat × St W) (h : Grew C s t) (hr : begin_progress env rf u t = some r) :
    Grew C s r.2 := by
  unfold begin_progress at hr
  split at hr
  · cases hr; exact h
  · split at hr
    · exact Option.noConfusion hr
    · cases hr
      refine Grew.add_step ?_ ?_
      · refine Grew.add_step h ?_
        exact hC _ rfl
      · exact hC _ rfl

theorem close_progress_grew (C : Event → Bool)
    (hC : ∀ e, e.is_progress = true → C e = true) (env : Env W) (p : Nat) (len : Int)
    (s t u : St W) (h : Grew C s t) (hr : close_progress env p len t = some u) :
    Grew C s u := by
  unfold close_progress at hr
  split at hr
  · cases hr; exact h
  · split at hr
    · exact Option.noConfusion hr
    · cases hr
      refine Grew.add_step h ?_
      exact hC _ rfl

theorem calmEv_of_progress (e : Event) (h : e.is_progress = true) : calmEv e = true := by
  cases e <;> simp_all [Event.is_progress, calmEv, Event.is_read_error]

theorem chunkEv_of_progress (e : Event) (h : e.is_progress = true) : chunkEv e = true := by
  cases e <;> simp_all [Event.is_progress, chunkEv]

/-- The receive loop delivers only non-empty chunks, and either leaves a negative
`len` or has made no read that failed. -/
theorem receive_loop_reads (env : Env W) (rf zr p : Nat) (fuel : Nat) (s : St W) :
    ∀ v r : RecvVars W, receive_loop env rf zr p fuel v = some r →
      (Grew chunkEv s v.st → Grew chunkEv s r.st) ∧
      (Grew calmEv s v.st → r.len < 0 ∨ Grew calmEv s r.st) := by
  induction fuel with
  | zero => intro v r hr; exact Option.noConfusion hr
  | succ k ih =>
    intro v r hr
    unfold receive_loop at hr
    dsimp only at hr
    split at hr
    · cases hr
      exact ⟨fun h => h, fun h => Or.inr h⟩
    · split at hr
      · rename_i hpos
        split at hr
        · exact Option.noConfusion hr
        · rename_i s3 hp
          obtain ⟨i1, i2⟩ := ih _ r hr
          constructor
          · intro h
            refine i1 (loop_progress_grew chunkEv chunkEv_of_progress env rf p s _ s3 ?_ hp)
            refine Grew.add_step ?_ (by simp [chunkEv, hpos])
            exact h.add_step rfl
          · intro h
            refine i2 (loop_progress_grew calmEv calmEv_of_progress env rf p s _ s3 ?_ hp)
            refine Grew.add_step ?_ rfl
            refine h.add_step ?_
            simp only [calmEv, Event.is_read_error, Bool.not_eq_true', decide_eq_false_iff_not]
            omega
      · rename_i hpos
        cases hr
        constructor
        · intro h
          exact h.add_step rfl
        · intro h
          by_cases hneg : (env.get_range_block v.st.world rf BUFFERSIZE).1.len < 0
          · exact Or.inl hneg
          · right
            refine h.add_step ?_
            simp only [calmEv, Event.is_read_error, Bool.not_eq_true', decide_eq_false_iff_not]
            exact hneg

theorem http_cleanup_grew (C : Event → Bool) (env : Env W) (rf zr : Nat) (s t : St W)
    (h1 : C (Event.range_fetch_bytes_down rf (env.range_fetch_bytes_down t.world rf)) = true)
    (h2 : C (Event.zsync_end_receive zr) = true) (h3 : C (Event.range_fetch_end rf) = true)
    (h : Grew C s t) : Grew C s (http_cleanup env rf zr t) := by
  unfold http_cleanup
  dsimp only
  refine Grew.add_step ?_ h3
  refine Grew.add_step ?_ h2
  exact Grew.same_trace (h.add_emit h1) rfl

theorem http_transfer_reads (env : Env W) (fuel : Nat) (type : Int) (u : CStr)
    (rf zr : Nat) (s t : St W) (r : Int × St W) (hb : Grew chunkEv s t) (hc : Grew calmEv s t)
    (hr : http_transfer env fuel type u rf zr t = some r) :
    Grew calmEv s r.2 ∨ (r.1 = -1 ∧ Grew chunkEv s r.2) := by
  unfold http_transfer at hr
  dsimp only at hr
  split at hr
  · cases hr
    exact Or.inl (hc.add_step rfl)
  · split at hr
    · cases hr
      exact Or.inl (hc.add_step rfl)
    · split at hr
      · exact Option.noConfusion hr
      · rename_i p s3 hbp
        have b3 : Grew chunkEv s s3 := by
          refine begin_progress_grew chunkEv chunkEv_of_progress env rf u s _ (p, s3) ?_ hbp
          repeat (first
            | exact hb
            | refine Grew.add_say ?_ rfl
            | refine Grew.add_step ?_ rfl
            | refine Grew.add_emit ?_ rfl)
        have c3 : Grew calmEv s s3 := by
          refine begin_progress_grew calmEv calmEv_of_progress env rf u s _ (p, s3) ?_ hbp
          repeat (first
            | exact hc
            | refine Grew.add_say ?_ rfl
            | refine Grew.add_step ?_ rfl
            | refine Grew.add_emit ?_ rfl)
        split at hr
        · exact Option.noConfusion hr
        · rename_i v hv
          obtain ⟨i1, i2⟩ := receive_loop_reads env rf zr p fuel s _ v hv
          have b4 := i1 b3
          have c4 := i2 c3
          split at hr
          · exact Option.noConfusion hr
          · rename_i ret s4 hf
            cases hr
            unfold finish_receive at hf
            simp only [Option.map_eq_some'] at hf
            obtain ⟨s5, hcl, he⟩ := hf
            simp only [Prod.mk.injEq] at he
            obtain ⟨hret, rfl⟩ := he
            by_cases hneg : v.len < 0
            · right
              have hfl : flush_receive env zr v = (-1, v.st) := by
                unfold flush_receive
                rw [if_pos hneg]
              rw [hfl] at hcl hret
              refine ⟨hret.symm, ?_⟩
              refine http_cleanup_grew chunkEv env rf zr s _ rfl rfl rfl ?_
              exact close_progress_grew chunkEv chunkEv_of_progress env p v.len s _ s5 b4 hcl
            · left
              have hfl : flush_receive env zr v = (v.ret, v.st.step
                  (env.zsync_receive_data v.st.world zr none v.zoffset 0).2
                  (Event.zsync_receive_data zr none v.zoffset 0
                    (env.zsync_receive_data v.st.world zr none v.zoffset 0).1)) := by
                unfold flush_receive
                rw [if_neg hneg]
              rw [hfl] at hcl
              rcases c4 with hlt | c4
              · exact absurd hlt hneg
              · refine http_cleanup_grew calmEv env rf zr s _ rfl rfl rfl ?_
                refine close_progress_grew calmEv calmEv_of_progress env p v.len s _ s5 ?_ hcl
                exact c4.add_step rfl

/-- Of a download that returned: either none of its reads reported an error, or
it returned -1 and every delivery it made to the receiver was a non-empty chunk. -/
theorem fetch_remaining_blocks_http_reads (env : Env W) (fuel : Nat) (s : St W) (url : CStr)
    (type : Int) (r : Int × St W) (hr : fetch_remaining_blocks_http env fuel s url type = some r) :
    Grew calmEv s r.2 ∨ (r.1 = -1 ∧ Grew chunkEv s r.2) := by
  unfold fetch_remaining_blocks_http at hr
  dsimp only at hr
  split at hr
  · cases hr
    exact Or.inl ((Grew.init calmEv s).add_emit rfl)
  · split at hr
    · cases hr
      exact Or.inl ((Grew.init calmEv s).add_step rfl)
    · unfold http_with_handle at hr
      dsimp only at hr
      split at hr
      · cases hr
        left
        repeat (first
        | exact Grew.init calmEv s
        | refine Grew.add_say ?_ rfl
        | refine Grew.add_step ?_ rfl
        | refine Grew.add_emit ?_ rfl)
      · unfold http_with_receiver at hr
        dsimp only at hr
        split at hr
        · cases hr
          left
          repeat (first
            | exact Grew.init calmEv s
            | refine Grew.add_say ?_ rfl
            | refine Grew.add_step ?_ rfl
            | refine Grew.add_emit ?_ rfl)
        · refine http_transfer_reads env fuel type _ _ _ s _ r ?_ ?_ hr
          · repeat (first
              | exact Grew.init chunkEv s
              | refine Grew.add_say ?_ rfl
              | refine Grew.add_step ?_ rfl
              | refine Grew.add_emit ?_ rfl)
          · repeat (first
              | exact Grew.init calmEv s
              | refine Grew.add_say ?_ rfl
              | refine Grew.add_step ?_ rfl
              | refine Grew.add_emit ?_ rfl)

/-! ### Claim C14 -/

/-- C14: an invocation of `fetch_remaining_blocks_http` in which `get_range_block`
returns a negative value. Of every such invocation that returned, with `new` the
calls it made: the value returned is -1 and every delivery to the receiver among
`new` has a buffer and a positive length, so the empty chunk that ends a
successful download is not among them. And the invocation does return: when it
enters its receive loop and is fed the non-empty chunks `chunks`, each accepted,
and then the read `err` that reports the error, then with fuel for these reads
it returns -1 and its deliveries are exactly the chunks, in order. -/
theorem fetch_remaining_blocks_http_read_error (env : Env W) (s : St W) (url : CStr)
    (type : Int) :
    (∀ fuel rc t new rf blk, fetch_remaining_blocks_http env fuel s url type = some (rc, t) →
      t.trace = new ++ s.trace → Event.get_range_block rf blk ∈ new → blk.len < 0 →
      rc = -1 ∧ ∀ zr buf off len a, Event.zsync_receive_data zr buf off len a ∈ new →
        buf ≠ none ∧ 0 < len) ∧
    (∀ fuel rf zr p w err chunks, loop_entry env s url type = some (rf, zr, p, w) →
      err.len < 0 → Feeds env s.quiet rf zr p err chunks w = true → chunks.length + 1 ≤ fuel →
      ∃ t new, fetch_remaining_blocks_http env fuel s url type = some (-1, t) ∧
        t.trace = new ++ s.trace ∧
        deliveries new = chunks.map (fun b => (zr, some b.data, b.offset, b.len))) := by
  constructor
  · intro fuel rc t new rf blk hr ht hread hneg
    rcases fetch_remaining_blocks_http_reads env fuel s url type (rc, t) hr with
      ⟨new1, ht1, hc⟩ | ⟨hrc, new1, ht1, hc⟩
    · have hnew : new1 = new := List.append_cancel_right (ht1.symm.trans ht)
      have := hc _ (hnew ▸ hread)
      simp [calmEv, Event.is_read_error, hneg] at this
    · have hnew : new1 = new := List.append_cancel_right (ht1.symm.trans ht)
      refine ⟨hrc, ?_⟩
      intro zr buf off len a hd
      have := hc _ (hnew ▸ hd)
      simp only [chunkEv, Bool.and_eq_true, decide_eq_true_eq] at this
      refine ⟨?_, this.2⟩
      intro hb
      rw [hb] at this
      exact Bool.noConfusion this.1
  · intro fuel rf zr p w err chunks he hneg hf hfuel
    obtain ⟨t, new, hr, ht, hd⟩ := fetch_remaining_blocks_http_feeds env fuel s url type rf zr p w
      err chunks he (by omega) hf hfuel
    refine ⟨t, new, ?_, ht, ?_⟩
    · rw [hr, if_pos hneg]
    · rw [hd, if_pos hneg, List.append_nil]
      rfl

/-- C14 at a concrete download: one chunk of three bytes, then a read that fails. -/
theorem fetch_remaining_blocks_http_read_error_witness :
    ∃ t new, fetch_remaining_blocks_http (feedEnv simStall) 2 (feedStart chunkThenError)
        "f".toList 0 = some (-1, t) ∧
      t.trace = new ++ (feedStart chunkThenError).trace ∧
      deliveries new = [(6, some [1, 2, 3], some 0, 3)] :=
  (fetch_remaining_blocks_http_read_error (feedEnv simStall) (feedStart chunkThenError)
    "f".toList 0).2 2 5 6 0 chunkThenError { len := -1, offset := none, data := [] }
    [{ len := 3, offset := some 0, data := [1, 2, 3] }] rfl (by decide) rfl (by decide)

/-! ### Claim C11 -/

theorem set_mtime_keeps (env : Env W) (f : CStr) (m : Int) (s : St W) (e : Event)
    (he : e ∈ s.trace) : e ∈ (set_mtime env f m s).2.trace := by
  unfold set_mtime
  dsimp only
  split
  · simp [he]
  · split <;> simp [he]

theorem backup_failed_ret (env : Env W) (out bak temp : CStr) (ret : Int) (s : St W)
    (h : (backup_old_file env out bak temp ret s).1 = false) :
    (backup_old_file env out bak temp ret s).2.1 = zs_backup_old_file_err := by
  unfold backup_old_file at h ⊢
  by_cases ha : env.access s.world out F_OK = 0
  · simp only [ha, if_true] at h ⊢
    by_cases hl : ((env.link (s.step (env.unlink s.world bak).2
        (Event.unlink bak (env.unlink s.world bak).1)).world out bak).1 != 0) = true
    · simp only [hl, if_true]
    · simp only [hl, if_false] at h
      exact Bool.noConfusion h
  · simp only [ha, if_false] at h
    exact Bool.noConfusion h

/-- STEP 5 started with `ret = zs_ok` ends with `zs_ok` only after a successful
rename of the working file onto the output path. -/
theorem install_ok_renamed (env : Env W) (out temp : CStr) (m : Int) (t : St W)
    (h : (install env (some out) temp m zs_ok t).1 = 0) :
    Event.rename temp out 0 ∈ (install env (some out) temp m zs_ok t).2.trace := by
  simp only [install] at h ⊢
  by_cases hb : (backup_old_file env out (out ++ ".zs-old".toList) temp zs_ok t).1 = true
  · simp only [hb, if_true] at h ⊢
    by_cases hr : (env.rename (backup_old_file env out (out ++ ".zs-old".toList) temp zs_ok
        t).2.2.world temp out).1 = 0
    · simp only [hr, if_true]
      have hm : Event.rename temp out 0 ∈
          ((backup_old_file env out (out ++ ".zs-old".toList) temp zs_ok t).2.2.step
            (env.rename (backup_old_file env out (out ++ ".zs-old".toList) temp zs_ok
              t).2.2.world temp out).2
            (Event.rename temp out 0)).trace := by simp
      by_cases hmt : (m != -1) = true
      · simp only [hmt, if_true]
        exact set_mtime_keeps env out m _ _ hm
      · simp only [hmt, if_false]
        exact hm
    · simp only [hr, if_false] at h
      exact absurd (show zs_move_received_file_err = (0 : Int) from h) (by decide)
  · have hb' : (backup_old_file env out (out ++ ".zs-old".toList) temp zs_ok t).1 = false := by
      simpa using hb
    simp only [hb', Bool.false_eq_true, if_false] at h
    rw [backup_failed_ret env out _ temp zs_ok t hb'] at h
    exact absurd h (by decide)

theorem beforeEndEv_of_preEv (q : Bool) (e : Event) (h : preEv q e = true) :
    beforeEndEv e = true := by
  cases e <;> simp_all [preEv, beforeEndEv]

theorem set_mtime_grew (temp out : CStr) (env : Env W) (f : CStr) (m : Int) (s t : St W)
    (h : Grew (installEv temp out) s t) :
    Grew (installEv temp out) s (set_mtime env f m t).2 := by
  unfold set_mtime
  dsimp only
  split
  · repeat (first
      | exact h
      | refine Grew.add_emit ?_ rfl
      | refine Grew.add_step ?_ rfl)
  · split
    · repeat (first
        | exact h
        | refine Grew.add_emit ?_ rfl
        | refine Grew.add_step ?_ rfl)
    · repeat (first
        | exact h
        | refine Grew.add_emit ?_ rfl
        | refine Grew.add_step ?_ rfl)

theorem backup_old_file_grew (temp out : CStr) (env : Env W) (o bak tf : CStr) (ret : Int)
    (s t : St W) (h : Grew (installEv temp out) s t) :
    Grew (installEv temp out) s (backup_old_file env o bak tf ret t).2.2 := by
  unfold backup_old_file
  dsimp only
  split
  · split
    · repeat (first
        | exact h
        | refine Grew.add_emit ?_ rfl
        | refine Grew.add_step ?_ rfl)
    · repeat (first
        | exact h
        | refine Grew.add_emit ?_ rfl
        | refine Grew.add_step ?_ rfl)
  · exact h

/-- The calls of STEP 5 for the working file `temp` and the output path `out` are
those of `installEv temp out`. -/
theorem install_grew (env : Env W) (out temp : CStr) (m : Int) (ret : Int) (s t : St W)
    (h : Grew (installEv temp out) s t) :
    Grew (installEv temp out) s (install env (some out) temp m ret t).2 := by
  have hb := backup_old_file_grew temp out env out (out ++ ".zs-old".toList) temp ret s t h
  have hren : ∀ rc, installEv temp out (Event.rename temp out rc) = true := by
    intro rc
    simp [installEv]
  unfold install
  dsimp only
  split
  · split
    · dsimp only
      split
      · exact set_mtime_grew temp out env out m s _ (Grew.add_step hb (hren _))
      · exact Grew.add_step hb (hren _)
    · dsimp only
      refine Grew.add_emit ?_ rfl
      refine Grew.add_emit ?_ rfl
      exact Grew.add_step hb (hren _)
  · exact hb

/-- A run of STEP 4 and STEP 5 that ends with `zs_ok`, started where neither
`zsync_end` nor `rename` has been called: its calls split at the call of
`zsync_end`, which returns the working file `temp`; before it neither `zsync_end`
nor `rename` is called, after it only the calls of STEP 5 for `temp` and `out`,
among them the successful rename of `temp` onto `out`. -/
theorem verify_and_install_ok_trace (env : Env W) (out temp0 : CStr) (s : St W)
    (hs : ∀ e ∈ s.trace, beforeEndEv e = true)
    (h : (verify_and_install env out temp0 s).ret = 0) :
    ∃ temp late early,
      (verify_and_install env out temp0 s).st.trace = late ++ Event.zsync_end temp :: early ∧
      (∀ e ∈ late, installEv temp out e = true) ∧ (∀ e ∈ early, beforeEndEv e = true) ∧
      Event.rename temp out 0 ∈ late := by
  unfold verify_and_install at h ⊢
  dsimp only at h ⊢
  split
  · rename_i hc
    rw [if_pos hc] at h
    exact absurd (show zs_download_local_err = (0 : Int) from h) (by decide)
  · rename_i hc
    rw [if_neg hc] at h
    have hmid : Grew beforeEndEv s
        (report_checksum (env.zsync_complete (s.say "verifying download..." []).world).1
          ((s.say "verifying download..." []).step
            (env.zsync_complete (s.say "verifying download..." []).world).2
            (Event.zsync_complete
              (env.zsync_complete (s.say "verifying download..." []).world).1))) := by
      unfold report_checksum
      split
      · repeat (first
          | exact Grew.init beforeEndEv s
          | refine Grew.add_say ?_ rfl
          | refine Grew.add_step ?_ rfl)
      · split
        · repeat (first
            | exact Grew.init beforeEndEv s
            | refine Grew.add_say ?_ rfl
            | refine Grew.add_step ?_ rfl)
        · repeat (first
            | exact Grew.init beforeEndEv s
            | refine Grew.add_say ?_ rfl
            | refine Grew.add_step ?_ rfl)
    generalize report_checksum (env.zsync_complete (s.say "verifying download..." []).world).1
      ((s.say "verifying download..." []).step
        (env.zsync_complete (s.say "verifying download..." []).world).2
        (Event.zsync_complete
          (env.zsync_complete (s.say "verifying download..." []).world).1)) = s1 at h hmid ⊢
    obtain ⟨mid, hmt, hmc⟩ := hmid
    unfold end_and_install bail at h ⊢
    dsimp only at h ⊢
    have hlate : Grew (installEv (env.zsync_end s1.world).1 out)
        (s1.step (env.zsync_end s1.world).2 (Event.zsync_end (env.zsync_end s1.world).1))
        ((install env (some out) (env.zsync_end s1.world).1 (env.zsync_mtime s1.world) zs_ok
          (s1.step (env.zsync_end s1.world).2
            (Event.zsync_end (env.zsync_end s1.world).1))).2.say "used local, fetched" []) :=
      Grew.add_say (install_grew env out _ _ _ _ _ (Grew.init _ _)) rfl
    obtain ⟨late, hlt, hlc⟩ := hlate
    have hearly : ∀ e ∈ mid ++ s.trace, beforeEndEv e = true := by
      intro e he
      rcases List.mem_append.1 he with he | he
      · exact hmc e he
      · exact hs e he
    refine ⟨(env.zsync_end s1.world).1, late, mid ++ s.trace, ?_, hlc, hearly, ?_⟩
    · rw [hlt, St.step_trace, hmt]
    · have hin := install_ok_renamed env out _ _ _ h
      have hin2 : Event.rename (env.zsync_end s1.world).1 out 0 ∈
          late ++ (s1.step (env.zsync_end s1.world).2
            (Event.zsync_end (env.zsync_end s1.world).1)).trace := by
        rw [← hlt, St.say_trace]
        exact List.mem_append_right _ hin
      rcases List.mem_append.1 hin2 with hm | hm
      · exact hm
      · rw [St.step_trace, hmt] at hm
        rcases List.mem_cons.1 hm with hm | hm
        · exact Event.noConfusion hm
        · have := hearly _ hm
          exact Bool.noConfusion this

/-- C11 as stated fails: with no output path given, in a world where the target
is complete and its checksum matches, the run returns `zs_ok` and has renamed the
working file `f.part` onto `f`, the name derived from `f.zsync`. -/
theorem zsync_client_installs_derived_name :
    (zsync_client (simEnv simVerified) 2 () "f.zsync".toList none none none [] true).map
      (fun r => (r.ret, r.output_file_path,
        decide (Event.zsync_complete 1 ∈ r.st.trace),
        decide (Event.rename "f.part".toList "f".toList 0 ∈ r.st.trace))) =
      some (zs_ok, some "f".toList, true, true) := by
  decide

/-- C11, amended: for every run of `zsync_client` that returns `zs_ok`, whether or
not the caller supplied an output path, STEP 5 has renamed the completed working
file onto the output path. The working file `temp` is the path that the one call
of `zsync_end` in the run returned: the calls of the run split at that call, with
neither `zsync_end` nor `rename` among the calls `early` before it and only calls
of STEP 5 for `temp` and `out` among the calls `late` after it. The successful
rename of `temp` onto `out` is among `late`, and every rename of the run is a
successful rename of `temp` onto `out`. The output path `out` is the caller's
path when one was supplied and the name derived by `get_filename` from the
control file otherwise; the report that no file name was specified (lines
614-616) is not printed. -/
theorem zsync_client_installs_always (env : Env W) (fuel : Nat) (w0 : W)
    (control_file_location : CStr) (keep_control_file_path output_file_path : Option CStr)
    (referrer : Option CStr) (seedfiles : List CStr) (quiet : Bool) (r : Run W)
    (h : zsync_client env fuel w0 control_file_location keep_control_file_path
      output_file_path referrer seedfiles quiet = some r)
    (hret : r.ret = zs_ok) :
    (∃ out temp early late, r.output_file_path = some out ∧
      r.st.trace = late ++ Event.zsync_end temp :: early ∧
      (∀ e ∈ late, installEv temp out e = true) ∧ (∀ e ∈ early, beforeEndEv e = true) ∧
      Event.rename temp out 0 ∈ late ∧
      (∀ t, Event.zsync_end t ∈ r.st.trace → t = temp) ∧
      (∀ a b rc, Event.rename a b rc ∈ r.st.trace → a = temp ∧ b = out ∧ rc = 0) ∧
      (∀ o, output_file_path = some o → out = o) ∧
      (output_file_path = none →
        out = get_filename (env.zsync_filename
          (read_zsync_control_file env control_file_location keep_control_file_path zs_ok
            (client_start env w0 referrer quiet)).2.2.world) control_file_location)) ∧
    (∀ p, Event.print "No filename specified for download - completed download left in" p
      ∉ r.st.trace) := by
  obtain ⟨pre, post, out1, hst, _, hpre, _, hpost, _, _, _⟩ :=
    zsync_client_structure env fuel w0 control_file_location keep_control_file_path
      output_file_path referrer seedfiles quiet r h
  constructor
  · rcases zsync_client_cases env fuel w0 control_file_location keep_control_file_path
      output_file_path referrer seedfiles quiet r h with ⟨hne, _, _⟩ | ⟨s, hadv, out, hout, hr⟩
    · exact absurd hret hne
    · have hret1 : (verify_and_install env out (out ++ ".part".toList) s).ret = 0 := by
        rw [← hr]
        exact hret
      have hs : ∀ e ∈ s.trace, beforeEndEv e = true := by
        intro e he
        exact beforeEndEv_of_preEv quiet e
          ((advances_from_start env w0 referrer quiet s hadv).2.1 e he)
      obtain ⟨temp, late, early, ht, hlate, hearly, hren⟩ :=
        verify_and_install_ok_trace env out _ s hs hret1
      have ho := (verify_and_install_later env out (out ++ ".part".toList) s).2.2
      have htr : r.st.trace = late ++ Event.zsync_end temp :: early := by
        rw [hr]
        exact ht
      refine ⟨out, temp, early, late, by rw [hr]; exact ho, htr, hlate, hearly, hren,
        ?_, ?_, ?_, ?_⟩
      · intro t hm
        rw [htr] at hm
        rcases List.mem_append.1 hm with hm | hm
        · have := hlate _ hm
          exact Bool.noConfusion this
        · rcases List.mem_cons.1 hm with hm | hm
          · cases hm
            rfl
          · have := hearly _ hm
            exact Bool.noConfusion this
      · intro a b rc hm
        have hrc : rc = 0 := by
          have hm2 := hm
          rw [hst] at hm2
          rcases List.mem_append.1 hm2 with hp | hp
          · have := hpost _ hp
            rw [hret] at this
            simp only [postEv, zs_ok, if_true, Bool.and_eq_true, beq_iff_eq] at this
            exact this.2
          · have := hpre _ hp
            exact Bool.noConfusion this
        rw [htr] at hm
        rcases List.mem_append.1 hm with hm | hm
        · have := hlate _ hm
          simp only [installEv, Bool.and_eq_true, beq_iff_eq] at this
          exact ⟨this.1, this.2, hrc⟩
        · rcases List.mem_cons.1 hm with hm | hm
          · exact Event.noConfusion hm
          · have := hearly _ hm
            exact Bool.noConfusion this
      · intro o ho2
        rw [hout, ho2]
        rfl
      · intro hn
        rw [hout, hn]
        rfl
  · intro p hp
    rw [hst] at hp
    rcases List.mem_append.1 hp with hm | hm
    · have := hpost _ hm
      exact Bool.noConfusion this
    · have := hpre _ hm
      exact Bool.noConfusion this

/-- The amended C11 at a concrete run with no output path given: `zsync_end`
returns `f.part`, which is renamed onto the derived name `f`. -/
theorem zsync_client_installs_always_witness :
    ∃ r, zsync_client (simEnv simVerified) 2 () "f.zsync".toList none none none [] true =
        some r ∧ r.ret = zs_ok ∧ r.output_file_path = some "f".toList ∧
      Event.zsync_end "f.part".toList ∈ r.st.trace ∧
      Event.rename "f.part".toList "f".toList 0 ∈ r.st.trace := by
  refine ⟨_, rfl, rfl, ?_⟩
  obtain ⟨out, temp, early, late, ho, ht, _, _, hr, hz, _, _, hd⟩ :=
    (zsync_client_installs_always (simEnv simVerified) 2 ()
      "f.zsync".toList none none none [] true _ rfl rfl).1
  have hout : out = "f".toList := hd rfl
  have htemp : "f.part".toList = temp := hz _ (by decide)
  subst hout
  subst htemp
  refine ⟨ho, by decide, ?_⟩
  rw [ht]
  exact List.mem_append_left _ hr

/-! ### Claim C15 -/

/-- C15 fails on the two early returns of lines 326-329. With an empty list of
needed ranges `fetch_remaining_blocks_http` returns 0, and with a failed query
it returns 1; in both runs the calls made are `range_fetch_start`, which gave
the handle 5, `zsync_begin_receive`, which gave the receiver 6, `malloc` and
`zsync_needed_byte_ranges`, and nothing after that: neither
`range_fetch_end` nor `zsync_end_receive` is called. -/
theorem fetch_remaining_blocks_http_early_return_leaks :
    (fetch_remaining_blocks_http (simEnv simNothingNeeded) 1 simStart "f".toList 0).map
        (fun r => (r.1, r.2.trace.reverse)) =
      some (0, [Event.range_fetch_start "f".toList (some 5), Event.zsync_begin_receive 0 (some 6),
        Event.malloc 8192 true, Event.zsync_needed_byte_ranges 0 (some [])]) ∧
    (fetch_remaining_blocks_http (simEnv simRangesFail) 1 simStart "f".toList 0).map
        (fun r => (r.1, r.2.trace.reverse)) =
      some (1, [Event.range_fetch_start "f".toList (some 5), Event.zsync_begin_receive 0 (some 6),
        Event.malloc 8192 true, Event.zsync_needed_byte_ranges 0 none]) :=
  ⟨rfl, rfl⟩

/-! ### Claim C16 -/

/-- C16: a candidate `url` that `make_url_absolute` cannot resolve against the
referrer of the client state `s`. `fetch_remaining_blocks_http` returns -1; the
only call it has made is the diagnostic, so no fetch handle and no receiver was
opened, and the world and `http_down` are as before. An execution of the
scheduler loop body that draws the index `i` of this URL, not yet poisoned, sets
`status[i]` to 1, takes one from `ok_urls` and reports the failure; the status of
every other index is unchanged. -/
theorem relative_url_poisons_only_itself (env : Env W) (s : St W) (url : CStr)
    (h : env.make_url_absolute s.referrer url = none) :
    (∀ fuel type, ∃ t, fetch_remaining_blocks_http env fuel s url type = some (-1, t) ∧
      t.trace = Event.print "URL is relative, referrer unknown" url :: s.trace ∧
      t.world = s.world ∧ t.http_down = s.http_down) ∧
    (∀ fuel (loc : Sched) (urls : List CStr) (utype : Int) (n i : Nat),
      (env.rand_r s.random_seed).1 % n = i → loc.status[i]? = some 0 → urls[i]? = some url →
      ∃ y, sched_body env (fetch_remaining_blocks_http env fuel) urls utype n (loc, s) = some y ∧
        y.1.status = loc.status.set i 1 ∧ y.1.status[i]? = some 1 ∧
        (∀ j, j ≠ i → y.1.status[j]? = loc.status[j]?) ∧
        y.1.ok_urls = loc.ok_urls - 1 ∧
        y.2.trace = Event.print "failed to retrieve from" url ::
          Event.print "URL is relative, referrer unknown" url :: s.trace ∧
        y.2.world = s.world ∧ y.2.http_down = s.http_down) := by
  constructor
  · intro fuel type
    refine ⟨s.emit (Event.print "URL is relative, referrer unknown" url), ?_, rfl, rfl, rfl⟩
    unfold fetch_remaining_blocks_http
    rw [h]
  · intro fuel loc urls utype n i hdraw hst hurl
    have hhttp : fetch_remaining_blocks_http env fuel
        { s with random_seed := (env.rand_r s.random_seed).2 } url utype =
        some (-1, ({ s with random_seed := (env.rand_r s.random_seed).2 } : St W).emit
          (Event.print "URL is relative, referrer unknown" url)) := by
      unfold fetch_remaining_blocks_http
      simp only [h]
    have hlt : i < loc.status.length := by
      by_contra hge
      rw [List.getElem?_eq_none (by omega)] at hst
      exact Option.noConfusion hst
    refine ⟨(Sched.mk (loc.status.set i 1) (loc.ok_urls - 1) ((i, -1) :: loc.calls),
      ((({ s with random_seed := (env.rand_r s.random_seed).2 } : St W).emit
        (Event.print "URL is relative, referrer unknown" url)).emit
        (Event.print "failed to retrieve from" url))), ?_, rfl, ?_, ?_, rfl, rfl, rfl, rfl⟩
    · unfold sched_body
      simp only [hdraw, hst, hurl, if_true, hhttp]
      rfl
    · simp [List.getElem?_set, hlt]
    · intro j hj
      simp [List.getElem?_set, Ne.symm hj]

/-- C16 at a concrete scheduler state: two candidates, the second one drawn. -/
theorem relative_url_poisons_only_itself_witness :
    (sched_body (simEnv simRelative) (fetch_remaining_blocks_http (simEnv simRelative) 1)
        ["g".toList, "f".toList] 0 2 (sched_init 2, simStart)).map
      (fun y => (y.1.status, y.1.ok_urls, y.2.http_down)) = some ([0, 1], 1, 0) := by
  obtain ⟨y, hy, hs, _, _, hk, _, _, hd⟩ :=
    (relative_url_poisons_only_itself (simEnv simRelative) simStart "f".toList rfl).2 1
      (sched_init 2) ["g".toList, "f".toList] 0 2 1 rfl rfl rfl
  rw [hy]
  simp only [Option.map_some', hs, hk, hd]
  rfl

/-! ### Claim C17 -/

theorem poke_append (a : List Char) (x : Char) (b : List Char) (c : Char) :
    poke (a ++ x :: b) a.length c = some (a ++ c :: b) := by
  unfold poke
  rw [if_pos (by simp)]
  simp

theorem spec_escaped_name_length (fname : CStr) :
    (spec_escaped_name fname).length ≤ 2 * fname.length := by
  induction fname with
  | nil => simp [spec_escaped_name]
  | cons c rest ih =>
    unfold spec_escaped_name
    split <;> simp <;> omega

theorem zcat_escape_append (rest : CStr) :
    ∀ (a tail : List Char), 2 * rest.length ≤ tail.length →
      zcat_escape rest a.length (a ++ tail) =
        some ((a ++ spec_escaped_name rest).length,
          a ++ spec_escaped_name rest ++ tail.drop (spec_escaped_name rest).length) := by
  induction rest with
  | nil =>
    intro a tail _
    simp [zcat_escape, spec_escaped_name]
  | cons c rest ih =>
    intro a tail hlen
    match tail, hlen with
    | x :: y :: tail1, hlen =>
      have hlen1 : 2 * rest.length ≤ tail1.length := by
        simp only [List.length_cons] at hlen
        omega
      unfold zcat_escape spec_escaped_name
      by_cases hc : isalnum c = true
      · simp only [hc, Bool.not_true, Bool.false_eq_true, if_false, if_true]
        rw [poke_append]
        simp only [Option.some_bind]
        have := ih (a ++ [c]) (y :: tail1) (by simp only [List.length_cons]; omega)
        simp only [List.length_append, List.length_singleton, List.append_assoc,
          List.singleton_append] at this
        rw [this]
        simp
      · simp only [hc, Bool.not_false, if_true, if_false]
        rw [poke_append]
        simp only [Option.some_bind]
        have hp := poke_append (a ++ [Char.ofNat 92]) y tail1 c
        simp only [List.length_append, List.length_singleton, List.append_assoc,
          List.singleton_append] at hp
        rw [hp]
        simp only [Option.some_bind]
        have := ih (a ++ [Char.ofNat 92, c]) tail1 hlen1
        simp only [List.length_append, List.length_cons, List.length_nil, List.append_assoc,
          List.cons_append, List.nil_append] at this
        rw [this]
        simp

theorem strcpy_zcat (n : Nat) :
    strcpy_at (List.replicate (6 + n) JUNK) 0 "zcat ".toList =
      some ("zcat ".toList ++ NUL :: List.replicate n JUNK) := by
  have h : List.replicate (6 + n) JUNK =
      JUNK :: JUNK :: JUNK :: JUNK :: JUNK :: JUNK :: List.replicate n JUNK := by
    rw [Nat.add_comm]
    rfl
  rw [h]
  simp [strcpy_at, poke]

theorem NUL_not_mem_spec_escaped_name (fname : CStr) (h : NUL ∉ fname) :
    NUL ∉ spec_escaped_name fname := by
  induction fname with
  | nil => simp [spec_escaped_name]
  | cons c rest ih =>
    have hc : NUL ≠ c := fun e => h (e ▸ List.mem_cons_self _ _)
    have hr : NUL ∉ rest := fun m => h (List.mem_cons_of_mem _ m)
    unfold spec_escaped_name
    split
    · simp [hc, ih hr]
    · have hb : NUL ≠ Char.ofNat 92 := by decide
      simp [hc, hb, ih hr]

theorem cstr_of_append_NUL (a b : List Char) (h : NUL ∉ a) : cstr_of (a ++ NUL :: b) = a := by
  unfold cstr_of
  induction a with
  | nil => simp [List.takeWhile]
  | cons x xs ih =>
    have hx : x ≠ NUL := fun e => h (e ▸ List.mem_cons_self _ _)
    have hr : NUL ∉ xs := fun m => h (List.mem_cons_of_mem _ m)
    have hx1 : (x != NUL) = true := by simpa using hx
    simp [List.takeWhile, hx1, ih hr]

theorem zcat_command_eq (fname : CStr) (h : NUL ∉ fname) :
    zcat_command fname = some (spec_zcat_command fname) := by
  have hlen := spec_escaped_name_length fname
  unfold zcat_command
  simp only [strlen]
  rw [strcpy_zcat]
  simp only [Option.some_bind]
  have he := zcat_escape_append fname "zcat ".toList (NUL :: List.replicate (fname.length * 2) JUNK)
    (by simp; omega)
  have h5 : "zcat ".toList.length = 5 := rfl
  rw [h5] at he
  rw [he]
  simp only [Option.some_bind]
  obtain ⟨z, zs, hz⟩ : ∃ z zs, (NUL :: List.replicate (fname.length * 2) JUNK).drop
      (spec_escaped_name fname).length = z :: zs := by
    cases hd : (NUL :: List.replicate (fname.length * 2) JUNK).drop
        (spec_escaped_name fname).length with
    | nil =>
      have := congrArg List.length hd
      simp at this
      omega
    | cons z zs => exact ⟨z, zs, rfl⟩
  rw [hz, poke_append]
  simp only [Option.map_some']
  rw [cstr_of_append_NUL]
  · rfl
  · intro hm
    rcases List.mem_append.1 hm with hm | hm
    · revert hm
      decide
    · exact NUL_not_mem_spec_escaped_name fname h hm

end Zsync
